import Mathlib

/-!
ProjectGenerator commandlet: a shallow embedding.

Embedding of `Source/ProjectGenerator/Private/ProjectGeneratorCommandlet.cpp`.

* `FString`, `TSet<FString>`, `TMap<FString, V>` of the engine core are modelled
  concretely: strings are Lean strings, comparisons of `FString` keys ignore
  ASCII letter case (as `FString::operator==` and `FString::StartsWith` do),
  sets and maps are insertion-ordered lists (a `TSet`/`TMap` that never removes
  iterates in insertion order).
* Engine services whose code is outside this repository (`FParse::Value`,
  `FPaths`, `FModuleManager`, the object registry, descriptor saving) are the
  fields of `Engine`, so every theorem holds for any behaviour of them.
* `check`/`checkf` failures are the `Except.error` results; the state reached
  at the failure is kept beside them.
* `UE_LOG` output is not modelled.
-/

namespace ProjectGenerator

/-! ## FString -/

/-- ASCII case folding of `FChar::ToLower`, which `Stricmp`/`Strnicmp` compare under. -/
def FoldCase (s : String) : List Char := s.data.map Char.toLower

/-- `FString::operator==`: equality ignoring ASCII case. -/
def FStringEquals (a b : String) : Bool := decide (FoldCase a = FoldCase b)

/-- `FString::Len`. -/
def Len (s : String) : Nat := s.data.length

/-- `FString::StartsWith(InPrefix)` with its default `ESearchCase::IgnoreCase`;
an empty argument never matches. -/
def StartsWith (s p : String) : Bool :=
  decide (0 < Len p) && decide (FoldCase p <+: FoldCase s)

/-- `FString::EndsWith(InSuffix)` with its default `ESearchCase::IgnoreCase`. -/
def EndsWith (s p : String) : Bool :=
  decide (0 < Len p) && decide (FoldCase p <:+ FoldCase s)

/-- `FString::Mid(Start)`. -/
def Mid (s : String) (Start : Nat) : String := String.mk (s.data.drop Start)

/-- `FString::Mid(Start, Count)`. -/
def MidCount (s : String) (Start Count : Nat) : String :=
  String.mk ((s.data.drop Start).take Count)

/-- `FString::RemoveAt(Index, Count)`. -/
def RemoveAt (s : String) (Index Count : Nat) : String :=
  String.mk (s.data.take Index ++ s.data.drop (Index + Count))

/-- Whether a character is `/` or `\`. -/
def IsSlashOrBackslash (c : Char) : Bool := c == '/' || c == '\\'

/-- `FString::operator/` (`FString::PathAppend`): concatenation with exactly one
separator inserted when the left side is non-empty, does not already end in a
separator, and the right side does not begin with `/`. -/
def PathAppend (a b : String) : String :=
  if b.data.isEmpty then
    match a.data.getLast? with
    | some c => if IsSlashOrBackslash c then a else a ++ "/"
    | none => a
  else
    match a.data.getLast? with
    | some c =>
      if !IsSlashOrBackslash c && b.data.head? != some '/' then a ++ "/" ++ b else a ++ b
    | none => b

/-! ## TSet<FString> and TMap<FString, V> -/

/-- `TSet<FString>`: the elements in insertion order. -/
abbrev TSet := List String

/-- `TSet::Contains`. -/
def TSet.Contains (s : TSet) (x : String) : Bool := s.any (fun y => FStringEquals y x)

/-- `TSet::Add`: an element equal to a present one replaces it in place,
a new one goes to the end. -/
def TSet.Add (s : TSet) (x : String) : TSet :=
  if TSet.Contains s x then s.map (fun y => if FStringEquals y x then x else y)
  else s ++ [x]

/-- `TMap<FString, V>`: the pairs in insertion order. -/
abbrev TMap (V : Type) := List (String × V)

/-- `TMap::Find`. -/
def TMap.Find {V : Type} (m : TMap V) (k : String) : Option V :=
  (m.find? (fun kv => FStringEquals kv.1 k)).map Prod.snd

/-- `TMap::Contains`. -/
def TMap.Contains {V : Type} (m : TMap V) (k : String) : Bool :=
  m.any (fun kv => FStringEquals kv.1 k)

/-- `TMap::Add`: a pair with an equal key is replaced in place, a new one goes
to the end. -/
def TMap.Add {V : Type} (m : TMap V) (k : String) (v : V) : TMap V :=
  if TMap.Contains m k then m.map (fun kv => if FStringEquals kv.1 k then (k, v) else kv)
  else m ++ [(k, v)]

/-! ## Descriptors (the fields the commandlet reads or writes) -/

/-- `EHostType::Type`. -/
inductive EHostType
  | Runtime | RuntimeNoCommandlet | RuntimeAndProgram | CookedOnly | UncookedOnly
  | Developer | DeveloperTool | Editor | EditorNoCommandlet | EditorAndProgram
  | Program | ServerOnly | ClientOnly | ClientOnlyNoCommandlet
  deriving DecidableEq, Repr

/-- `ELoadingPhase::Type`. -/
inductive ELoadingPhase
  | EarliestPossible | PostConfigInit | PostSplashScreen | PreEarlyLoadingScreen
  | PreLoadingScreen | PreDefault | Default | PostDefault | PostEngineInit | None
  deriving DecidableEq, Repr

/-- `FModuleDescriptor`; `Name` holds `Name.ToString()`, `HostType` the field `Type`. -/
structure FModuleDescriptor where
  Name : String
  HostType : EHostType
  LoadingPhase : ELoadingPhase
  deriving DecidableEq, Repr

/-- `FPluginReferenceDescriptor`. -/
structure FPluginReferenceDescriptor where
  Name : String
  WhitelistPlatforms : List String
  deriving DecidableEq, Repr

/-- `FPluginDescriptor`. -/
structure FPluginDescriptor where
  Modules : List FModuleDescriptor
  Plugins : List FPluginReferenceDescriptor
  deriving DecidableEq, Repr

/-- `FPluginManifestEntry`. -/
structure FPluginManifestEntry where
  File : String
  Descriptor : FPluginDescriptor
  deriving DecidableEq, Repr

/-- `FProjectDescriptor`. -/
structure FProjectDescriptor where
  Modules : List FModuleDescriptor
  Plugins : List FPluginReferenceDescriptor
  deriving DecidableEq, Repr

/-- `FCommandletRunParams` (`PluginManifest` holds `PluginManifest.Contents`). -/
structure FCommandletRunParams where
  Params : String
  ProjectName : String
  PluginManifest : List FPluginManifestEntry
  ProjectFile : FProjectDescriptor
  GeneratedHeaderDir : String
  OutputDirectory : String
  deriving Repr

/-! ## The object registry and the engine services -/

/-- Which key of `GetSpecialObjectIncludePaths` a `UObject*` is, if any. -/
inductive EObjectIdentity
  | UObject_StaticClass | UClass_StaticClass | UScriptStruct_StaticClass
  | UEnum_StaticClass | UInterface_StaticClass | Other
  deriving DecidableEq, Repr

/-- What `Cast<UClass>` / `Cast<UScriptStruct>` and the `NoExport` flag tests see. -/
inductive EObjectKind
  | Class (bNoExport : Bool)
  | ScriptStruct (bNoExport : Bool)
  | Other
  deriving DecidableEq, Repr

/-- A native object as the commandlet observes it. `bPackageHasMetaData` is
`Object->GetOutermost()->GetMetaData() != nullptr`; `ModuleRelativePath` is
`MetaData->GetValue(Object, "ModuleRelativePath")`, empty when the key is absent. -/
structure UObject where
  Identity : EObjectIdentity
  Kind : EObjectKind
  bPackageHasMetaData : Bool
  ModuleRelativePath : String
  deriving DecidableEq, Repr

/-- A script package, identified by its name. -/
structure UPackage where
  Name : String
  deriving DecidableEq, Repr

/-- Engine services used by the commandlet whose code lies outside the
repository; `σ` is the state of `FModuleManager` and of the object registry.
`FParse_Value Stream Match` is `some v` when `FParse::Value` returns true and
assigns `v`, `none` when it returns false and leaves its output untouched.
`SaveDescriptor Path` tells whether `Save` to that path succeeds. -/
structure Engine (σ : Type) where
  FParse_Value : String → String → Option String
  GetBaseFilename : String → String
  GetCleanFilename : String → String
  GetPath : String → String
  GetExtension : String → String
  MakePathRelativeTo : String → String → String
  IsModuleLoaded : σ → String → Bool
  LoadModule : σ → String → Bool × σ
  ProcessNewlyLoadedUObjects : σ → σ
  FindPackage : σ → String → Option UPackage
  FindObjectFast : σ → UPackage → String → Option UObject
  SaveDescriptor : String → Bool

/-! ## Include path of a resolved object -/

/-- `GetIncludePathForObject`; the two `checkf` are the `error` results. -/
def GetIncludePathForObject (Object : UObject) : Except String String :=
  if !Object.bPackageHasMetaData then
    .error "Metadata object is not found on the package"
  else
    let IncludePath := Object.ModuleRelativePath
    if Len IncludePath == 0 then
      .error "ModuleRelativePath metadata not found on object"
    else
      let IncludePath := if StartsWith IncludePath "/" then RemoveAt IncludePath 0 1 else IncludePath
      let IncludePath :=
        if StartsWith IncludePath "Public/" then RemoveAt IncludePath 0 7 else IncludePath
      let IncludePath :=
        if StartsWith IncludePath "Private/" then RemoveAt IncludePath 0 8 else IncludePath
      let IncludePath :=
        if StartsWith IncludePath "Classes/" then RemoveAt IncludePath 0 8 else IncludePath
      .ok IncludePath

/-- `GetSpecialObjectIncludePaths`: the table of the five foundational objects. -/
def GetSpecialObjectIncludePaths : EObjectIdentity → Option String
  | .UObject_StaticClass => some "UObject/Object.h"
  | .UClass_StaticClass => some "UObject/Class.h"
  | .UScriptStruct_StaticClass => some "UObject/Class.h"
  | .UEnum_StaticClass => some "UObject/Class.h"
  | .UInterface_StaticClass => some "UObject/Interface.h"
  | .Other => none

/-- `GetSpecialObjectIncludePath`: `some p` when it returns true with
`OutIncludePath = p`, `none` when it returns false. -/
def GetSpecialObjectIncludePath (Object : UObject) : Option String :=
  match GetSpecialObjectIncludePaths Object.Identity with
  | some p => some p
  | none =>
    match Object.Kind with
    | .Class true => some "UObject/NoExportTypes.h"
    | .ScriptStruct true => some "UObject/NoExportTypes.h"
    | _ => none

/-! ## The cross-module include resolver (`HandleModuleHeaderFile`) -/

/-- State captured by the `HandleModuleHeaderFile` closure: the module manager
and object registry, the set `ModulesThatHaveTriedBeingLoaded`, and a trace of
the `LoadModule` calls made so far (module name and registry state at the
call), kept for stating properties of the run. -/
structure FResolverState (σ : Type) where
  Registry : σ
  ModulesThatHaveTriedBeingLoaded : TSet
  LoadModuleCalls : List (String × σ)

/-- `CrossModuleIncludePrefix`. -/
def CrossModuleIncludePrefix : String := "//CROSS-MODULE INCLUDE V2: "

/-- The on-demand load of lines 165-177: the module is loaded when it is an
engine module, is not loaded, and has not been tried before. -/
def TryLoadEngineModule {σ : Type} (E : Engine σ) (EngineModules : TSet)
    (st : FResolverState σ) (IncludeModuleName : String) : FResolverState σ :=
  if TSet.Contains EngineModules IncludeModuleName
      && !E.IsModuleLoaded st.Registry IncludeModuleName then
    if !TSet.Contains st.ModulesThatHaveTriedBeingLoaded IncludeModuleName then
      let Tried := TSet.Add st.ModulesThatHaveTriedBeingLoaded IncludeModuleName
      let Calls := st.LoadModuleCalls ++ [(IncludeModuleName, st.Registry)]
      match E.LoadModule st.Registry IncludeModuleName with
      | (true, r) => ⟨E.ProcessNewlyLoadedUObjects r, Tried, Calls⟩
      | (false, r) => ⟨r, Tried, Calls⟩
    else st
  else st

/-- `IncludeData`: the line without the directive prefix. -/
def IncludeData (HeaderString : String) : String :=
  Mid HeaderString (Len CrossModuleIncludePrefix)

/-- `IncludeModuleName`: empty unless `FParse::Value` finds `ModuleName=`. -/
def IncludeModuleName {σ : Type} (E : Engine σ) (HeaderString : String) : String :=
  (E.FParse_Value (IncludeData HeaderString) "ModuleName=").getD ""

/-- `IncludeObjectName`: empty unless `FParse::Value` finds `ObjectName=`. -/
def IncludeObjectName {σ : Type} (E : Engine σ) (HeaderString : String) : String :=
  (E.FParse_Value (IncludeData HeaderString) "ObjectName=").getD ""

/-- `FallbackHeaderName`: the object name unless `FParse::Value` finds `FallbackName=`. -/
def FallbackHeaderName {σ : Type} (E : Engine σ) (HeaderString : String) : String :=
  (E.FParse_Value (IncludeData HeaderString) "FallbackName=").getD (IncludeObjectName E HeaderString)

/-- One iteration of the loop of `HandleModuleHeaderFile`: the new state and
the new content of `HeaderString`, or the failed `checkf`. -/
def HandleHeaderString {σ : Type} (E : Engine σ) (EngineModules : TSet)
    (st : FResolverState σ) (HeaderString : String) : FResolverState σ × Except String String :=
  if StartsWith HeaderString CrossModuleIncludePrefix then
    if Len (IncludeModuleName E HeaderString) == 0 || Len (IncludeObjectName E HeaderString) == 0 then
      (st, .ok HeaderString)
    else
      let st := TryLoadEngineModule E EngineModules st (IncludeModuleName E HeaderString)
      let ModulePackageName := "/Script/" ++ IncludeModuleName E HeaderString
      match E.FindPackage st.Registry ModulePackageName with
      | none => (st, .ok ("#include \"" ++ FallbackHeaderName E HeaderString ++ ".h\""))
      | some ModulePackage =>
        match E.FindObjectFast st.Registry ModulePackage (IncludeObjectName E HeaderString) with
        | none => (st, .ok HeaderString)
        | some FoundModuleObject =>
          let ObjectIncludePath : Except String String :=
            match GetSpecialObjectIncludePath FoundModuleObject with
            | some p => .ok p
            | none => GetIncludePathForObject FoundModuleObject
          match ObjectIncludePath with
          | .error e => (st, .error e)
          | .ok p =>
            if Len p != 0 then (st, .ok ("#include \"" ++ p ++ "\""))
            else (st, .ok HeaderString)
  else (st, .ok HeaderString)

/-- `HandleModuleHeaderFile`: every line of the file in order, stopping at a
failed `checkf`. -/
def HandleModuleHeaderFile {σ : Type} (E : Engine σ) (EngineModules : TSet) :
    FResolverState σ → List String → FResolverState σ × Except String (List String)
  | st, [] => (st, .ok [])
  | st, HeaderString :: Rest =>
    match HandleHeaderString E EngineModules st HeaderString with
    | (st1, .error e) => (st1, .error e)
    | (st1, .ok NewString) =>
      match HandleModuleHeaderFile E EngineModules st1 Rest with
      | (st2, .error e) => (st2, .error e)
      | (st2, .ok NewRest) => (st2, .ok (NewString :: NewRest))

/-! ## The file system as the directory visitors see it -/

/-- A directory tree: every entry carries the path the visitor receives for
it; a file carries the lines `LoadFileToStringArray` reads from it; a directory
carries its entries in `IterateDirectory` order. -/
inductive FFileSystemEntry
  | File (Filename : String) (Lines : List String)
  | Directory (Filename : String) (Children : List FFileSystemEntry)
  deriving Repr

mutual
/-- The visits `IterateDirectoryRecursively` makes for one entry: the entry,
then (for a directory) what lies beneath it. -/
def IterateEntryRecursively : FFileSystemEntry → List FFileSystemEntry
  | .File Filename Lines => [.File Filename Lines]
  | .Directory Filename Children =>
    .Directory Filename Children :: IterateDirectoryRecursively Children
/-- `IPlatformFile::IterateDirectoryRecursively` over the entries of a directory. -/
def IterateDirectoryRecursively : List FFileSystemEntry → List FFileSystemEntry
  | [] => []
  | Entry :: Rest => IterateEntryRecursively Entry ++ IterateDirectoryRecursively Rest
end

/-- `IPlatformFile::FileExists` for a path directly inside a directory with these entries. -/
def FileExists (Children : List FFileSystemEntry) (Path : String) : Bool :=
  Children.any (fun Entry =>
    match Entry with
    | .File Filename _ => Filename == Path
    | .Directory _ _ => false)

/-- The directory at a path directly inside a directory with these entries;
`none` is `DirectoryExists` returning false. -/
def FindDirectory : List FFileSystemEntry → String → Option FFileSystemEntry
  | [], _ => none
  | .File _ _ :: Rest, Path => FindDirectory Rest Path
  | .Directory Filename Children :: Rest, Path =>
    if Filename == Path then some (.Directory Filename Children) else FindDirectory Rest Path

/-! ## Base inventory: `DiscoverModules` and `DiscoverPlugins` -/

/-- The inner visitor of `DiscoverModules` over the entries of one directory:
every file ending in `.Build.cs` adds a module name and counts (the count is an
`int32` that a directory of fewer than 2^31 files cannot overflow). -/
def DiscoverModulesInDirectory {σ : Type} (E : Engine σ) :
    List FFileSystemEntry → TSet × Nat → TSet × Nat
  | [], Acc => Acc
  | .Directory _ _ :: Rest, Acc => DiscoverModulesInDirectory E Rest Acc
  | .File InnerFilename _ :: Rest, (OutModulesFound, ModulesFoundInDirectory) =>
    if EndsWith InnerFilename ".Build.cs" then
      let BaseFilename := E.GetBaseFilename InnerFilename
      let ModuleName := MidCount BaseFilename 0 (Len BaseFilename - 6)
      DiscoverModulesInDirectory E Rest
        (TSet.Add OutModulesFound ModuleName, ModulesFoundInDirectory + 1)
    else DiscoverModulesInDirectory E Rest (OutModulesFound, ModulesFoundInDirectory)

mutual
/-- The `DirectoryIterator` of `DiscoverModules`. -/
def DiscoverModulesIterator {σ : Type} (E : Engine σ) : FFileSystemEntry → TSet → TSet
  | .File _ _, OutModulesFound => OutModulesFound
  | .Directory Filename Children, OutModulesFound =>
    let DirectoryName := E.GetBaseFilename Filename
    if FStringEquals DirectoryName "Saved" || FStringEquals DirectoryName "Intermediate" then
      OutModulesFound
    else
      match DiscoverModulesInDirectory E Children (OutModulesFound, 0) with
      | (Found, ModulesFoundInDirectory) =>
        if ModulesFoundInDirectory != 0 then Found
        else DiscoverModulesSubDirectories E Children Found
/-- The loop over `SubDirectoryPaths` in `DiscoverModules`. -/
def DiscoverModulesSubDirectories {σ : Type} (E : Engine σ) :
    List FFileSystemEntry → TSet → TSet
  | [], OutModulesFound => OutModulesFound
  | Entry :: Rest, OutModulesFound =>
    DiscoverModulesSubDirectories E Rest (DiscoverModulesIterator E Entry OutModulesFound)
end

/-- `DiscoverModules(SourceDirectory, OutModulesFound)`. -/
def DiscoverModules {σ : Type} (E : Engine σ) (SourceDirectory : FFileSystemEntry)
    (OutModulesFound : TSet) : TSet :=
  DiscoverModulesIterator E SourceDirectory OutModulesFound

mutual
/-- The `DirectoryIterator` of `DiscoverPlugins`. -/
def DiscoverPluginsIterator {σ : Type} (E : Engine σ) :
    FFileSystemEntry → TMap TSet → TMap TSet
  | .File _ _, OutPluginsFound => OutPluginsFound
  | .Directory Filename Children, OutPluginsFound =>
    let DirectoryName := E.GetBaseFilename Filename
    let PluginFilePath := PathAppend Filename DirectoryName ++ ".uplugin"
    if FileExists Children PluginFilePath then
      let PluginSourceDir := PathAppend Filename "Source"
      let PluginModules : TSet :=
        match FindDirectory Children PluginSourceDir with
        | some SourceDir => DiscoverModules E SourceDir []
        | none => []
      TMap.Add OutPluginsFound DirectoryName PluginModules
    else if !FStringEquals DirectoryName "Saved" then
      DiscoverPluginsDirectory E Children OutPluginsFound
    else OutPluginsFound
/-- `IterateDirectory(Filename, DirectoryIterator)` inside `DiscoverPlugins`. -/
def DiscoverPluginsDirectory {σ : Type} (E : Engine σ) :
    List FFileSystemEntry → TMap TSet → TMap TSet
  | [], OutPluginsFound => OutPluginsFound
  | Entry :: Rest, OutPluginsFound =>
    DiscoverPluginsDirectory E Rest (DiscoverPluginsIterator E Entry OutPluginsFound)
end

/-- `DiscoverPlugins(PluginDirectory, OutPluginsFound)`, given the entries of
the plugin directory. -/
def DiscoverPlugins {σ : Type} (E : Engine σ) (PluginDirectory : List FFileSystemEntry)
    (OutPluginsFound : TMap TSet) : TMap TSet :=
  DiscoverPluginsDirectory E PluginDirectory OutPluginsFound

/-! ## The run state of `MainInternal` -/

/-- Writes to the file system made through `IPlatformFile` and `FFileHelper`. -/
inductive FFileOperation
  | CreateDirectoryTree (Directory : String)
  | SaveStringArrayToFile (Lines : List String) (Filename : String)
  | CopyFile (To : String) (From : String)
  deriving DecidableEq, Repr

/-- The mutable locals of `MainInternal` and the files it has written. The two
counters only feed a log line. -/
structure FRunState (σ : Type) where
  Resolver : FResolverState σ
  FileOperations : List FFileOperation
  AllGameModulesProcessed : TSet
  LooseGameModuleNames : TSet
  EngineModulesForcedToBeGameModules : TSet
  PluginModulesCopied : Nat
  GameModulesCopied : Nat
  AllGamePluginsProcessed : TSet
  SavedPluginDescriptors : List (String × FPluginDescriptor)
  SavedProjectDescriptor : Option (String × FProjectDescriptor)
  TargetFiles : List (String × List String)

/-- The locals of `MainInternal` that are fixed before the dump is visited. -/
structure FRunContext where
  ModuleNameToOwnerPluginName : TMap String
  GameImpliedPluginFileLocations : TMap String
  GameEnginePlugins : TSet
  ProjectSourceDir : String
  ProjectModuleNames : TSet
  EnginePlugins : TMap TSet
  EngineModules : TSet

/-- The directories `MainInternal` reads: the entries of
`FPaths::EnginePluginsDir()`, the directory `FPaths::EngineSourceDir()`, and
the entries of `Params.GeneratedHeaderDir`. -/
structure FFileSystem where
  EnginePluginsDir : List FFileSystemEntry
  EngineSourceDir : FFileSystemEntry
  HeaderRoot : List FFileSystemEntry

/-! ## Collecting the manifest (lines 83-128) -/

/-- One iteration of the loop over `Params.PluginManifest.Contents`. -/
def CollectManifestEntry {σ : Type} (E : Engine σ) (Params : FCommandletRunParams)
    (Acc : TMap String × TMap String × TSet) (ManifestEntry : FPluginManifestEntry) :
    TMap String × TMap String × TSet :=
  let GameProjectPluginDir := "../../../" ++ Params.ProjectName ++ "/Plugins/"
  let GameEnginePluginDir := "../../../Engine/Plugins/"
  let PluginName := E.GetBaseFilename ManifestEntry.File
  let ModuleNameToOwnerPluginName :=
    ManifestEntry.Descriptor.Modules.foldl (fun M ModuleInfo => TMap.Add M ModuleInfo.Name PluginName)
      Acc.1
  let PluginFilename := ManifestEntry.File
  if StartsWith PluginFilename GameProjectPluginDir then
    let RelativeFileLocation := Mid PluginFilename (Len GameProjectPluginDir)
    let FullFilePath :=
      PathAppend (PathAppend Params.OutputDirectory "Plugins") RelativeFileLocation
    (ModuleNameToOwnerPluginName, TMap.Add Acc.2.1 PluginName FullFilePath, Acc.2.2)
  else if StartsWith PluginFilename GameEnginePluginDir then
    let RelativeFileLocation := Mid PluginFilename (Len GameEnginePluginDir)
    let FullFilePath :=
      PathAppend (PathAppend Params.OutputDirectory "Plugins/EnginePlugins") RelativeFileLocation
    (ModuleNameToOwnerPluginName, TMap.Add Acc.2.1 PluginName FullFilePath,
      TSet.Add Acc.2.2 PluginName)
  else (ModuleNameToOwnerPluginName, Acc.2.1, Acc.2.2)

/-- The loop over `Params.ProjectFile.Modules` building `ProjectModuleNames`. -/
def CollectProjectModuleNames (ModuleNameToOwnerPluginName : TMap String)
    (Modules : List FModuleDescriptor) : TSet :=
  Modules.foldl (fun Names ModuleDescriptor =>
    if !TMap.Contains ModuleNameToOwnerPluginName ModuleDescriptor.Name then
      TSet.Add Names ModuleDescriptor.Name
    else Names) []

/-- The state of `MainInternal` before the dump is visited. -/
def MakeRunContext {σ : Type} (E : Engine σ) (FS : FFileSystem) (Params : FCommandletRunParams) :
    FRunContext :=
  let Collected := Params.PluginManifest.foldl (CollectManifestEntry E Params) ([], [], [])
  { ModuleNameToOwnerPluginName := Collected.1
    GameImpliedPluginFileLocations := Collected.2.1
    GameEnginePlugins := Collected.2.2
    ProjectSourceDir := PathAppend Params.OutputDirectory "Source"
    ProjectModuleNames := CollectProjectModuleNames Collected.1 Params.ProjectFile.Modules
    EnginePlugins := DiscoverPlugins E FS.EnginePluginsDir []
    EngineModules := DiscoverModules E FS.EngineSourceDir [] }

/-- The locals of `MainInternal` as they are initialised. -/
def InitialRunState {σ : Type} (Registry : σ) : FRunState σ :=
  { Resolver := ⟨Registry, [], []⟩
    FileOperations := []
    AllGameModulesProcessed := []
    LooseGameModuleNames := []
    EngineModulesForcedToBeGameModules := []
    PluginModulesCopied := 0
    GameModulesCopied := 0
    AllGamePluginsProcessed := []
    SavedPluginDescriptors := []
    SavedProjectDescriptor := none
    TargetFiles := [] }

/-! ## Materialising module trees (lines 210-317) -/

/-- `MoveModuleFilesRecursive` for one visited entry; the visitor always
returns true, `error` is a failed `checkf` while rewriting a source file. -/
def MoveModuleFilesRecursive {σ : Type} (E : Engine σ) (EngineModules : TSet)
    (SourceDirectory ResultDirectory : String) (st : FRunState σ) :
    FFileSystemEntry → FRunState σ × Except String Unit
  | .Directory _ _ => (st, .ok ())
  | .File Filename FileContentLines =>
    let SourceDirectoryWithSlash := PathAppend SourceDirectory ""
    let RelativePathToFile := E.MakePathRelativeTo Filename SourceDirectoryWithSlash
    let NewAbsoluteFilename := PathAppend ResultDirectory RelativePathToFile
    let FileExtension := E.GetExtension NewAbsoluteFilename
    let st := { st with FileOperations :=
      st.FileOperations ++ [FFileOperation.CreateDirectoryTree (E.GetPath NewAbsoluteFilename)] }
    if FStringEquals FileExtension "h" || FStringEquals FileExtension "cpp" then
      match HandleModuleHeaderFile E EngineModules st.Resolver FileContentLines with
      | (Resolver, .error e) => ({ st with Resolver := Resolver }, .error e)
      | (Resolver, .ok NewLines) =>
        ({ st with
            Resolver := Resolver
            FileOperations :=
              st.FileOperations ++ [FFileOperation.SaveStringArrayToFile NewLines NewAbsoluteFilename] },
          .ok ())
    else
      ({ st with FileOperations := st.FileOperations ++ [FFileOperation.CopyFile NewAbsoluteFilename Filename] },
        .ok ())

/-- A loop whose body always continues (a directory visit with a visitor that
always returns true, or a range-for): the entries in order, stopping only at a
failed assertion. -/
def IterateDirectory {σ α : Type} (Visitor : FRunState σ → α → FRunState σ × Except String Unit) :
    FRunState σ → List α → FRunState σ × Except String Unit
  | st, [] => (st, .ok ())
  | st, Entry :: Rest =>
    match Visitor st Entry with
    | (st1, .error e) => (st1, .error e)
    | (st1, .ok ()) => IterateDirectory Visitor st1 Rest

/-- Copying one module directory: `IterateDirectoryRecursively(Filename, CopyModuleFiles)`. -/
def CopyModuleFiles {σ : Type} (E : Engine σ) (EngineModules : TSet)
    (Filename TargetModuleDirectory : String) (Children : List FFileSystemEntry)
    (st : FRunState σ) : FRunState σ × Except String Unit :=
  IterateDirectory (MoveModuleFilesRecursive E EngineModules Filename TargetModuleDirectory) st
    (IterateDirectoryRecursively Children)

/-- `ModuleDirIterator`, the visitor of the top-level entries of the dump. -/
def ModuleDirIterator {σ : Type} (E : Engine σ) (Ctx : FRunContext) (st : FRunState σ) :
    FFileSystemEntry → FRunState σ × Except String Unit
  | .File _ _ => (st, .ok ())
  | .Directory Filename Children =>
    let ModuleName := E.GetCleanFilename Filename
    match TMap.Find Ctx.ModuleNameToOwnerPluginName ModuleName with
    | some OwnerPluginName =>
      match TMap.Find Ctx.EnginePlugins OwnerPluginName with
      | some _ => (st, .ok ())
      | none =>
        match TMap.Find Ctx.GameImpliedPluginFileLocations OwnerPluginName with
        | some ResultPluginFile =>
          let PluginDir := E.GetPath ResultPluginFile
          let TargetModuleDirectory := PathAppend (PathAppend PluginDir "Source") ModuleName
          match CopyModuleFiles E Ctx.EngineModules Filename TargetModuleDirectory Children st with
          | (st1, .error e) => (st1, .error e)
          | (st1, .ok ()) =>
            ({ st1 with
                AllGameModulesProcessed := TSet.Add st1.AllGameModulesProcessed ModuleName
                PluginModulesCopied := st1.PluginModulesCopied + 1 },
              .ok ())
        | none => (st, .ok ())
    | none =>
      if TSet.Contains Ctx.EngineModules ModuleName then (st, .ok ())
      else
        let st :=
          if !TSet.Contains Ctx.ProjectModuleNames ModuleName then
            { st with EngineModulesForcedToBeGameModules :=
                TSet.Add st.EngineModulesForcedToBeGameModules ModuleName }
          else st
        let TargetModuleDirectory := PathAppend Ctx.ProjectSourceDir ModuleName
        match CopyModuleFiles E Ctx.EngineModules Filename TargetModuleDirectory Children st with
        | (st1, .error e) => (st1, .error e)
        | (st1, .ok ()) =>
          ({ st1 with
              AllGameModulesProcessed := TSet.Add st1.AllGameModulesProcessed ModuleName
              LooseGameModuleNames := TSet.Add st1.LooseGameModuleNames ModuleName
              GameModulesCopied := st1.GameModulesCopied + 1 },
            .ok ())

/-! ## Sanitising the descriptors (lines 320-398) -/

/-- The predicate of `Modules.RemoveAll` in both sanitisers. -/
def RemoveModulePredicate (EngineModules AllGameModulesProcessed : TSet)
    (ModuleDescriptor : FModuleDescriptor) : Bool :=
  !TSet.Contains EngineModules ModuleDescriptor.Name
    && !TSet.Contains AllGameModulesProcessed ModuleDescriptor.Name

/-- `NewPluginDescriptor` after the two `RemoveAll` of lines 334-349. -/
def NewPluginDescriptor (Ctx : FRunContext) (AllGameModulesProcessed : TSet)
    (Descriptor : FPluginDescriptor) : FPluginDescriptor :=
  { Modules := Descriptor.Modules.filter (fun ModuleDescriptor =>
      !RemoveModulePredicate Ctx.EngineModules AllGameModulesProcessed ModuleDescriptor)
    Plugins := Descriptor.Plugins.filter (fun PluginDescriptor =>
      !(!TMap.Contains Ctx.GameImpliedPluginFileLocations PluginDescriptor.Name
        && !TMap.Contains Ctx.EnginePlugins PluginDescriptor.Name)) }

/-- One iteration of the loop that carries over the plugin descriptors; `error`
is the failed `check` on `Save` (or `FindChecked`). -/
def SanitizePluginDescriptor {σ : Type} (E : Engine σ) (Ctx : FRunContext) (st : FRunState σ)
    (ManifestEntry : FPluginManifestEntry) : FRunState σ × Except String Unit :=
  let PluginName := E.GetBaseFilename ManifestEntry.File
  if TMap.Contains Ctx.EnginePlugins PluginName
      || !TMap.Contains Ctx.GameImpliedPluginFileLocations PluginName then
    (st, .ok ())
  else
    match TMap.Find Ctx.GameImpliedPluginFileLocations PluginName with
    | none => (st, .error "FindChecked")
    | some NewPluginFileLocation =>
      let st := { st with FileOperations :=
        st.FileOperations ++ [FFileOperation.CreateDirectoryTree (E.GetPath NewPluginFileLocation)] }
      if E.SaveDescriptor NewPluginFileLocation then
        ({ st with
            SavedPluginDescriptors :=
              st.SavedPluginDescriptors ++
                [(NewPluginFileLocation,
                  NewPluginDescriptor Ctx st.AllGameModulesProcessed ManifestEntry.Descriptor)]
            AllGamePluginsProcessed := TSet.Add st.AllGamePluginsProcessed PluginName },
          .ok ())
      else (st, .error "NewPluginDescriptor.Save")

/-- The module entry appended for a forced module. -/
def ForcedModuleDescriptor (ForcedEngineModule : String) : FModuleDescriptor :=
  { Name := ForcedEngineModule, HostType := EHostType.Runtime,
    LoadingPhase := ELoadingPhase.Default }

/-- `NewProjectDescriptor` as it is saved. -/
def SanitizeProjectDescriptor {σ : Type} (Ctx : FRunContext) (st : FRunState σ)
    (ProjectFile : FProjectDescriptor) : FProjectDescriptor :=
  let Modules := ProjectFile.Modules.filter (fun ModuleDescriptor =>
    !RemoveModulePredicate Ctx.EngineModules st.AllGameModulesProcessed ModuleDescriptor)
  let Plugins := (ProjectFile.Plugins.map (fun PluginReference =>
      { PluginReference with WhitelistPlatforms :=
          PluginReference.WhitelistPlatforms.filter (fun Platform =>
            !FStringEquals Platform "Stadia") })).filter (fun PluginReference =>
      !(!TMap.Contains Ctx.EnginePlugins PluginReference.Name
        && !TSet.Contains st.AllGamePluginsProcessed PluginReference.Name))
  { Modules := Modules ++ st.EngineModulesForcedToBeGameModules.map ForcedModuleDescriptor
    Plugins := Plugins }

/-- The lines `GenerateEditorFile` writes. -/
def GenerateEditorFile (Params : FCommandletRunParams) (GameModuleNames : TSet)
    (EditorType : String) : List String :=
  [ "using UnrealBuildTool;",
    "",
    "public class " ++ Params.ProjectName ++ EditorType ++ "Target : TargetRules \x7b",
    "\tpublic " ++ Params.ProjectName ++ EditorType ++ "Target(TargetInfo Target) : base(Target) \x7b",
    "\t\tType = TargetType." ++ EditorType ++ ";",
    "\t\tDefaultBuildSettings = BuildSettingsVersion.V2;",
    "\t\tExtraModuleNames.AddRange(new string[] \x7b" ]
  ++ GameModuleNames.map (fun GameModuleName => "\t\t\t\"" ++ GameModuleName ++ "\",")
  ++ [ "\t\t\x7d);", "\t\x7d", "\x7d" ]

/-- `MainInternal`: the final state and the return value, or the failed assertion. -/
def MainInternal {σ : Type} (E : Engine σ) (FS : FFileSystem) (Params : FCommandletRunParams)
    (Registry : σ) : FRunState σ × Except String Int :=
  let Ctx := MakeRunContext E FS Params
  match IterateDirectory (ModuleDirIterator E Ctx) (InitialRunState Registry) FS.HeaderRoot with
  | (st, .error e) => (st, .error e)
  | (st, .ok ()) =>
    match IterateDirectory (SanitizePluginDescriptor E Ctx) st Params.PluginManifest with
    | (st, .error e) => (st, .error e)
    | (st, .ok ()) =>
      let NewProjectDescriptor := SanitizeProjectDescriptor Ctx st Params.ProjectFile
      let ResultFilePath := PathAppend Params.OutputDirectory Params.ProjectName ++ ".uproject"
      if E.SaveDescriptor ResultFilePath then
        let TargetFileName :=
          PathAppend Ctx.ProjectSourceDir (Params.ProjectName ++ "Editor.Target.cs")
        let GameFileName :=
          PathAppend Ctx.ProjectSourceDir (Params.ProjectName ++ "Game.Target.cs")
        ({ st with
            SavedProjectDescriptor := some (ResultFilePath, NewProjectDescriptor)
            TargetFiles :=
              [ (TargetFileName, GenerateEditorFile Params st.LooseGameModuleNames "Editor"),
                (GameFileName, GenerateEditorFile Params st.LooseGameModuleNames "Game") ] },
          .ok 0)
      else (st, .error "NewProjectDescriptor.Save")

/-! ## A reference engine

Concrete engine services, used to evaluate the commandlet on examples: the
`FPaths` functions on `/`- and `\`-separated paths, `FParse::Value` on
`Key=Value` payloads, and a registry whose state is the set of loaded modules. -/

/-- `FPaths::GetCleanFilename`: the last component of the path. -/
def GetCleanFilename (InPath : String) : String :=
  String.mk (((InPath.data.reverse.dropWhile IsSlashOrBackslash).takeWhile
    (fun c => !IsSlashOrBackslash c)).reverse)

/-- `FPaths::GetBaseFilename`: the last component without its extension. -/
def GetBaseFilename (InPath : String) : String :=
  let Wk := (GetCleanFilename InPath).data
  if Wk.contains '.' then String.mk (((Wk.reverse.dropWhile (fun c => c != '.')).drop 1).reverse)
  else String.mk Wk

/-- `FPaths::GetPath`: everything before the last separator. -/
def GetPath (InPath : String) : String :=
  String.mk (((InPath.data.reverse.dropWhile (fun c => !IsSlashOrBackslash c)).drop 1).reverse)

/-- `FPaths::GetExtension`: what follows the last dot of the last component. -/
def GetExtension (InPath : String) : String :=
  let Filename := (GetCleanFilename InPath).data
  if Filename.contains '.' then String.mk ((Filename.reverse.takeWhile (fun c => c != '.')).reverse)
  else ""

/-- `FPaths::MakePathRelativeTo` for a path below the given directory. -/
def MakePathRelativeTo (InPath InRelativeTo : String) : String :=
  if StartsWith InPath InRelativeTo then Mid InPath (Len InRelativeTo) else InPath

/-- `FCString::Strifind`: what follows the first occurrence of `Match`,
ignoring ASCII letter case, that does not directly follow a letter or a digit;
`Alnum` tells whether the character before the text is a letter or a digit. -/
def StrifindRest (Match : List Char) : Bool → List Char → Option (List Char)
  | _, [] => none
  | Alnum, c :: cs =>
    if !Alnum && Match.map Char.toLower <+: (c :: cs).map Char.toLower then
      some ((c :: cs).drop Match.length)
    else StrifindRest Match c.isAlphanum cs

/-- `FParse::Value(Stream, Match, FString&)`: the text after the first
occurrence of `Match` that `FCString::Strifind` finds, up to the closing quote
when it starts with a quote, else up to the first blank or separator. -/
def ParseValue (Stream Match : String) : Option String :=
  match StrifindRest Match.data false Stream.data with
  | none => none
  | some ('"' :: Rest) => some (String.mk (Rest.takeWhile (fun c => c != '"')))
  | some Start =>
    some (String.mk (Start.takeWhile (fun c =>
      !(c == ' ' || c == '\r' || c == '\n' || c == '\t' || c == ',' || c == ')'))))

/-- The engine of the examples. Its registry state is the set of loaded
modules; `Packages` maps a module to the native objects of its script package,
which exists once the module is loaded; `Loadable` are the modules `LoadModule`
can load; `Unwritable` are the paths at which saving a descriptor fails. -/
def ReferenceEngine (Packages : TMap (TMap UObject)) (Loadable Unwritable : TSet) : Engine TSet :=
  { FParse_Value := ParseValue
    GetBaseFilename := GetBaseFilename
    GetCleanFilename := GetCleanFilename
    GetPath := GetPath
    GetExtension := GetExtension
    MakePathRelativeTo := MakePathRelativeTo
    IsModuleLoaded := fun Loaded ModuleName => TSet.Contains Loaded ModuleName
    LoadModule := fun Loaded ModuleName =>
      if TSet.Contains Loadable ModuleName then (true, TSet.Add Loaded ModuleName)
      else (false, Loaded)
    ProcessNewlyLoadedUObjects := fun Loaded => Loaded
    FindPackage := fun Loaded PackageName =>
      if Loaded.any (fun ModuleName =>
          FStringEquals ("/Script/" ++ ModuleName) PackageName
            && TMap.Contains Packages ModuleName) then
        some ⟨PackageName⟩
      else none
    FindObjectFast := fun _ Package ObjectName =>
      match Packages.find? (fun kv => FStringEquals ("/Script/" ++ kv.1) Package.Name) with
      | some kv => TMap.Find kv.2 ObjectName
      | none => none
    SaveDescriptor := fun Path => !TSet.Contains Unwritable Path }

/-! ## Specification-side definitions -/

/-- Removal of a leading folder name "if present", presence being tested as
`FString::StartsWith` tests it. -/
def StripLeading (Folder Path : String) : String :=
  if StartsWith Path Folder then Mid Path (Len Folder) else Path

/-- Whether the symbol carries the non-exported flag (`CLASS_NoExport` on a
class, `STRUCT_NoExport` on a script struct). -/
def HasNoExportFlag (Object : UObject) : Bool :=
  match Object.Kind with
  | .Class b => b
  | .ScriptStruct b => b
  | .Other => false

/-- The include path of a found symbol as the specification words it: (a) the
override-table path of a foundational object, (b) else the shared header of
non-exported types, (c) else the module-relative path without one leading `/`,
then without `Public/`, then without `Private/`, then without `Classes/`. -/
def ResolvedIncludePath (Object : UObject) : String :=
  match GetSpecialObjectIncludePaths Object.Identity with
  | some p => p
  | none =>
    if HasNoExportFlag Object then "UObject/NoExportTypes.h"
    else
      StripLeading "Classes/" (StripLeading "Private/" (StripLeading "Public/"
        (StripLeading "/" Object.ModuleRelativePath)))

/-- Whether the path of a found symbol is computed without a failed `checkf`:
the symbol is foundational or non-exported, or its package has a metadata
object that records a non-empty module-relative path for it. -/
def HasIncludePath (Object : UObject) : Bool :=
  (GetSpecialObjectIncludePaths Object.Identity).isSome || HasNoExportFlag Object
    || (Object.bPackageHasMetaData && decide (Len Object.ModuleRelativePath ≠ 0))

/-- The classification of a dump module. -/
inductive EClassification
  | Skip
  | PluginOwned (TargetModuleDirectory : String)
  | Loose (TargetModuleDirectory : String)
  deriving DecidableEq, Repr

/-- The classifier as the specification words it, first applicable rule first:
(1) the owner plugin is a base plugin: skip; (2) the owner plugin has a
destination: plugin-owned, under `Source/<module>` beside the remapped plugin
descriptor; (3) the owner plugin has no destination: not materialised; (4)
unowned and a base module: skip; (5) otherwise loose, under `Source/<module>`
of the project. -/
def ClassifyModule {σ : Type} (E : Engine σ) (Ctx : FRunContext) (ModuleName : String) :
    EClassification :=
  match TMap.Find Ctx.ModuleNameToOwnerPluginName ModuleName with
  | some OwnerPluginName =>
    if TMap.Contains Ctx.EnginePlugins OwnerPluginName then .Skip
    else
      match TMap.Find Ctx.GameImpliedPluginFileLocations OwnerPluginName with
      | some ResultPluginFile =>
        .PluginOwned (PathAppend (PathAppend (E.GetPath ResultPluginFile) "Source") ModuleName)
      | none => .Skip
  | none =>
    if TSet.Contains Ctx.EngineModules ModuleName then .Skip
    else .Loose (PathAppend Ctx.ProjectSourceDir ModuleName)

/-- Remembering a loose module the project does not declare. -/
def MarkForced {σ : Type} (Ctx : FRunContext) (st : FRunState σ) (ModuleName : String) :
    FRunState σ :=
  if TSet.Contains Ctx.ProjectModuleNames ModuleName then st
  else
    { st with
        EngineModulesForcedToBeGameModules :=
          TSet.Add st.EngineModulesForcedToBeGameModules ModuleName }

/-- What each classification means for the run: a skipped module changes
nothing and copies no file; a plugin-owned module is copied to its destination
and recorded as processed; a loose module is remembered when undeclared, copied
to its destination and recorded as processed and as loose. -/
def MaterializeModule {σ : Type} (E : Engine σ) (Ctx : FRunContext) (st : FRunState σ)
    (Filename : String) (Children : List FFileSystemEntry) (ModuleName : String) :
    EClassification → FRunState σ × Except String Unit
  | .Skip => (st, .ok ())
  | .PluginOwned TargetModuleDirectory =>
    match CopyModuleFiles E Ctx.EngineModules Filename TargetModuleDirectory Children st with
    | (st1, .error e) => (st1, .error e)
    | (st1, .ok ()) =>
      ({ st1 with
          AllGameModulesProcessed := TSet.Add st1.AllGameModulesProcessed ModuleName
          PluginModulesCopied := st1.PluginModulesCopied + 1 },
        .ok ())
  | .Loose TargetModuleDirectory =>
    match CopyModuleFiles E Ctx.EngineModules Filename TargetModuleDirectory Children
        (MarkForced Ctx st ModuleName) with
    | (st1, .error e) => (st1, .error e)
    | (st1, .ok ()) =>
      ({ st1 with
          AllGameModulesProcessed := TSet.Add st1.AllGameModulesProcessed ModuleName
          LooseGameModuleNames := TSet.Add st1.LooseGameModuleNames ModuleName
          GameModulesCopied := st1.GameModulesCopied + 1 },
        .ok ())

/-- The module names of the top-level directories of the dump, in visiting order. -/
def DumpModuleNames {σ : Type} (E : Engine σ) (HeaderRoot : List FFileSystemEntry) :
    List String :=
  HeaderRoot.filterMap (fun Entry =>
    match Entry with
    | .Directory Filename _ => some (E.GetCleanFilename Filename)
    | .File _ _ => none)

/-- Whether a module is classified PluginOwned or Loose. -/
def IsMaterialized {σ : Type} (E : Engine σ) (Ctx : FRunContext) (ModuleName : String) : Bool :=
  match ClassifyModule E Ctx ModuleName with
  | .Skip => false
  | _ => true

/-- Whether a module is classified Loose. -/
def IsLoose {σ : Type} (E : Engine σ) (Ctx : FRunContext) (ModuleName : String) : Bool :=
  match ClassifyModule E Ctx ModuleName with
  | .Loose _ => true
  | _ => false

/-- Whether a module is classified Loose without being among the project module names. -/
def IsForced {σ : Type} (E : Engine σ) (Ctx : FRunContext) (ModuleName : String) : Bool :=
  IsLoose E Ctx ModuleName && !TSet.Contains Ctx.ProjectModuleNames ModuleName

/-- `TSet::Add` of several elements in order. -/
def AddAll (s : TSet) (Elements : List String) : TSet := Elements.foldl TSet.Add s

/-- Whether the descriptor of a manifest entry is carried over: its plugin is
not a base plugin and has a destination. -/
def IsCarriedOver {σ : Type} (E : Engine σ) (Ctx : FRunContext)
    (ManifestEntry : FPluginManifestEntry) : Bool :=
  !(TMap.Contains Ctx.EnginePlugins (E.GetBaseFilename ManifestEntry.File)
    || !TMap.Contains Ctx.GameImpliedPluginFileLocations (E.GetBaseFilename ManifestEntry.File))

/-- The descriptor saved for a manifest entry and the path it is saved at, if
the entry is carried over. -/
def SavedPluginDescriptor {σ : Type} (E : Engine σ) (Ctx : FRunContext)
    (AllGameModulesProcessed : TSet) (ManifestEntry : FPluginManifestEntry) :
    Option (String × FPluginDescriptor) :=
  if IsCarriedOver E Ctx ManifestEntry then
    (TMap.Find Ctx.GameImpliedPluginFileLocations (E.GetBaseFilename ManifestEntry.File)).map
      (fun NewPluginFileLocation =>
        (NewPluginFileLocation,
          NewPluginDescriptor Ctx AllGameModulesProcessed ManifestEntry.Descriptor))
  else none

/-- The bookkeeping of the run: the sets of processed, loose and forced module
names, the set of processed plugins and the descriptors saved so far. -/
def Bookkeeping {σ : Type} (st : FRunState σ) :
    TSet × TSet × TSet × TSet × List (String × FPluginDescriptor)
      × Option (String × FProjectDescriptor) :=
  (st.AllGameModulesProcessed, st.LooseGameModuleNames, st.EngineModulesForcedToBeGameModules,
    st.AllGamePluginsProcessed, st.SavedPluginDescriptors, st.SavedProjectDescriptor)

/-- What the run maintains about the `LoadModule` calls made so far: every
module called for is in `ModulesThatHaveTriedBeingLoaded`, no two calls name
equal modules, and every call was made for an engine module that was not
loaded at the time. -/
def LoadTraceInvariant {σ : Type} (E : Engine σ) (EngineModules : TSet)
    (st : FResolverState σ) : Prop :=
  (∀ c ∈ st.LoadModuleCalls, TSet.Contains st.ModulesThatHaveTriedBeingLoaded c.1 = true)
  ∧ st.LoadModuleCalls.Pairwise (fun a b => FStringEquals a.1 b.1 = false)
  ∧ (∀ c ∈ st.LoadModuleCalls,
      TSet.Contains EngineModules c.1 = true ∧ E.IsModuleLoaded c.2 c.1 = false)

/-- `TreePath Top Ancestors D`: the entry `D` lies in the tree `Top` below the
directories `Ancestors`, its proper ancestors from `Top` downwards; with no
ancestors `D` is `Top` itself. -/
inductive TreePath : FFileSystemEntry → List FFileSystemEntry → FFileSystemEntry → Prop
  | top (D : FFileSystemEntry) : TreePath D [] D
  | down (Filename : String) (Children : List FFileSystemEntry) (Child : FFileSystemEntry)
      (Ancestors : List FFileSystemEntry) (D : FFileSystemEntry) :
      Child ∈ Children → TreePath Child Ancestors D →
      TreePath (.Directory Filename Children) (.Directory Filename Children :: Ancestors) D

/-- Whether `DiscoverModules` takes a directory for `Saved` or `Intermediate`:
its base filename equals one of the two names. -/
def IsTransientDirectory {σ : Type} (E : Engine σ) : FFileSystemEntry → Bool
  | .Directory Filename _ =>
    FStringEquals (E.GetBaseFilename Filename) "Saved"
      || FStringEquals (E.GetBaseFilename Filename) "Intermediate"
  | .File _ _ => false

/-- Whether an entry is a file whose path ends in `.Build.cs`. -/
def IsBuildFile : FFileSystemEntry → Bool
  | .File Filename _ => EndsWith Filename ".Build.cs"
  | .Directory _ _ => false

/-- Whether a directory directly contains a file whose path ends in `.Build.cs`. -/
def HasBuildFile : FFileSystemEntry → Bool
  | .Directory _ Children => Children.any IsBuildFile
  | .File _ _ => false

/-- The module name `DiscoverModules` takes from the path of a build file: the
base filename without its last six characters (`.Build`). -/
def ModuleNameOfBuildFile {σ : Type} (E : Engine σ) (BuildFile : String) : String :=
  MidCount (E.GetBaseFilename BuildFile) 0 (Len (E.GetBaseFilename BuildFile) - 6)

/-- The modules of a source tree as the specification words them: the name of
a build file that lies directly in a directory `D` such that no directory from
the root to `D` inclusive is taken for `Saved` or `Intermediate` and no proper
ancestor of `D` directly contains a build file. -/
def IsDiscoverableModule {σ : Type} (E : Engine σ) (Root : FFileSystemEntry)
    (ModuleName : String) : Prop :=
  ∃ Ancestors Filename Children BuildFile Lines,
    TreePath Root Ancestors (.Directory Filename Children)
    ∧ FFileSystemEntry.File BuildFile Lines ∈ Children
    ∧ EndsWith BuildFile ".Build.cs" = true
    ∧ FStringEquals (ModuleNameOfBuildFile E BuildFile) ModuleName = true
    ∧ (∀ A ∈ Ancestors ++ [FFileSystemEntry.Directory Filename Children],
        IsTransientDirectory E A = false)
    ∧ ∀ A ∈ Ancestors, HasBuildFile A = false

/-- Whether `DiscoverPlugins` takes a directory for a plugin: it directly
contains the file `<base filename>.uplugin`. -/
def IsPluginDirectory {σ : Type} (E : Engine σ) : FFileSystemEntry → Bool
  | .Directory Filename Children =>
    FileExists Children (PathAppend Filename (E.GetBaseFilename Filename) ++ ".uplugin")
  | .File _ _ => false

/-- Whether `DiscoverPlugins` takes a directory for `Saved`. -/
def IsSavedDirectory {σ : Type} (E : Engine σ) : FFileSystemEntry → Bool
  | .Directory Filename _ => FStringEquals (E.GetBaseFilename Filename) "Saved"
  | .File _ _ => false

/-- The plugins of a plugin tree: the base filename of a plugin directory none
of whose proper ancestors (from `Top` downwards) is a plugin directory or is
taken for `Saved`. -/
def IsDiscoverablePlugin {σ : Type} (E : Engine σ) (Top : FFileSystemEntry)
    (PluginName : String) : Prop :=
  ∃ Ancestors Filename Children,
    TreePath Top Ancestors (.Directory Filename Children)
    ∧ IsPluginDirectory E (.Directory Filename Children) = true
    ∧ FStringEquals (E.GetBaseFilename Filename) PluginName = true
    ∧ ∀ A ∈ Ancestors, IsPluginDirectory E A = false ∧ IsSavedDirectory E A = false

/-- The symbol a line makes the resolver look up and find, in state `st`: the
line is a directive with a module name and an object name, the script package
of the module exists once the module has been loaded on demand, and the object
is found in it. -/
def FoundObject {σ : Type} (E : Engine σ) (EngineModules : TSet) (st : FResolverState σ)
    (HeaderString : String) : Option UObject :=
  if StartsWith HeaderString CrossModuleIncludePrefix
      && !(Len (IncludeModuleName E HeaderString) == 0
        || Len (IncludeObjectName E HeaderString) == 0) then
    let st := TryLoadEngineModule E EngineModules st (IncludeModuleName E HeaderString)
    match E.FindPackage st.Registry ("/Script/" ++ IncludeModuleName E HeaderString) with
    | none => none
    | some ModulePackage =>
      E.FindObjectFast st.Registry ModulePackage (IncludeObjectName E HeaderString)
  else none

/-- The symbols the registry finds while the lines are resolved in order from
state `st`, up to and including one that stops the resolver. -/
def FoundObjects {σ : Type} (E : Engine σ) (EngineModules : TSet) :
    FResolverState σ → List String → List UObject
  | _, [] => []
  | st, HeaderString :: Rest =>
    (FoundObject E EngineModules st HeaderString).toList ++
      match HandleHeaderString E EngineModules st HeaderString with
      | (_, .error _) => []
      | (st1, .ok _) => FoundObjects E EngineModules st1 Rest

/-- The lines of a visited entry of a module directory that are passed through
the resolver: those of a file whose destination has the extension `h` or `cpp`. -/
def ResolvedLines {σ : Type} (E : Engine σ) (SourceDirectory ResultDirectory : String) :
    FFileSystemEntry → List String
  | .Directory _ _ => []
  | .File Filename FileContentLines =>
    let NewAbsoluteFilename :=
      PathAppend ResultDirectory (E.MakePathRelativeTo Filename (PathAppend SourceDirectory ""))
    if FStringEquals (E.GetExtension NewAbsoluteFilename) "h"
        || FStringEquals (E.GetExtension NewAbsoluteFilename) "cpp" then
      FileContentLines
    else []

/-- The lines of a top-level entry of the dump that are passed through the
resolver: none for a file or a skipped module, else those of the files below
the module directory, in visiting order. -/
def ModuleResolvedLines {σ : Type} (E : Engine σ) (Ctx : FRunContext) :
    FFileSystemEntry → List String
  | .File _ _ => []
  | .Directory Filename Children =>
    match ClassifyModule E Ctx (E.GetCleanFilename Filename) with
    | .Skip => []
    | .PluginOwned TargetModuleDirectory =>
      (IterateDirectoryRecursively Children).flatMap
        (ResolvedLines E Filename TargetModuleDirectory)
    | .Loose TargetModuleDirectory =>
      (IterateDirectoryRecursively Children).flatMap
        (ResolvedLines E Filename TargetModuleDirectory)

/-- All lines the run passes through the resolver, in the order of the run. -/
def DumpResolvedLines {σ : Type} (E : Engine σ) (Ctx : FRunContext)
    (HeaderRoot : List FFileSystemEntry) : List String :=
  HeaderRoot.flatMap (ModuleResolvedLines E Ctx)

/-- The paths at which the run saves the descriptors of the carried-over
manifest entries, in manifest order. -/
def PluginSavePaths {σ : Type} (E : Engine σ) (Ctx : FRunContext)
    (PluginManifest : List FPluginManifestEntry) : List String :=
  PluginManifest.filterMap (fun ManifestEntry =>
    if IsCarriedOver E Ctx ManifestEntry then
      TMap.Find Ctx.GameImpliedPluginFileLocations (E.GetBaseFilename ManifestEntry.File)
    else none)

/-- The paths at which the run saves a descriptor: those of the carried-over
plugins and that of the project. -/
def DescriptorSavePaths {σ : Type} (E : Engine σ) (FS : FFileSystem)
    (Params : FCommandletRunParams) : List String :=
  PluginSavePaths E (MakeRunContext E FS Params) Params.PluginManifest
    ++ [PathAppend Params.OutputDirectory Params.ProjectName ++ ".uproject"]

/-! ## Example inputs -/

/-- A class declared in `Public/GameFramework/Actor.h`. -/
def ExampleActor : UObject := ⟨.Other, .Class false, true, "Public/GameFramework/Actor.h"⟩

/-- A class whose module-relative path is only a folder name. -/
def ExampleFolderOnly : UObject := ⟨.Other, .Class false, true, "Public/"⟩

/-- A class without module-relative path metadata. -/
def ExampleNoPath : UObject := ⟨.Other, .Class false, true, ""⟩

/-- An engine whose module `Engine` can be loaded and exposes three classes. -/
def ExampleEngine : Engine TSet :=
  ReferenceEngine
    [("Engine", [("Actor", ExampleActor), ("FolderOnly", ExampleFolderOnly),
      ("NoPath", ExampleNoPath)])]
    ["Engine"] []

/-- The resolver state at the start of a run with nothing loaded. -/
def ExampleResolverState : FResolverState TSet := ⟨[], [], []⟩

/-- An engine source tree with the single module `Engine`. -/
def ExampleEngineSourceDir : FFileSystemEntry :=
  FFileSystemEntry.Directory "../../../Engine/Source/"
    [FFileSystemEntry.Directory "../../../Engine/Source/Runtime"
      [FFileSystemEntry.Directory "../../../Engine/Source/Runtime/Engine"
        [FFileSystemEntry.File "../../../Engine/Source/Runtime/Engine/Engine.Build.cs" []]]]

/-- Run parameters of the examples: project `Proj` written to `Out`, with the
given manifest and project descriptor. -/
def ExampleParams (PluginManifest : List FPluginManifestEntry) (ProjectFile : FProjectDescriptor) :
    FCommandletRunParams :=
  { Params := "", ProjectName := "Proj", PluginManifest := PluginManifest,
    ProjectFile := ProjectFile, GeneratedHeaderDir := "Dump", OutputDirectory := "Out" }

/-- A dump whose module `Game` has one header with one directive. -/
def ExampleDumpWithDirective (HeaderString : String) : FFileSystem :=
  { EnginePluginsDir := []
    EngineSourceDir := ExampleEngineSourceDir
    HeaderRoot :=
      [FFileSystemEntry.Directory "Dump/Game"
        [FFileSystemEntry.Directory "Dump/Game/Public"
          [FFileSystemEntry.File "Dump/Game/Public/Pawn.h" [HeaderString]]]] }

/-- The project descriptor declaring the module `Game`. -/
def ExampleProjectFile : FProjectDescriptor :=
  { Modules := [⟨"Game", EHostType.Runtime, ELoadingPhase.Default⟩], Plugins := [] }

/-- A manifest with three plugins: `P`, which the engine also ships; `Q`, a
project plugin with the modules `Qm` and `Gone` that depends on `P`, `R` and
`Ghost`; and `R`, which lies outside the project and engine plugin directories. -/
def ExampleManifest : List FPluginManifestEntry :=
  [ { File := "../../../Proj/Plugins/P/P.uplugin"
      Descriptor :=
        { Modules := [⟨"Bar", EHostType.Runtime, ELoadingPhase.Default⟩], Plugins := [] } },
    { File := "../../../Proj/Plugins/Q/Q.uplugin"
      Descriptor :=
        { Modules := [⟨"Qm", EHostType.Runtime, ELoadingPhase.Default⟩,
            ⟨"Gone", EHostType.Editor, ELoadingPhase.Default⟩]
          Plugins := [⟨"P", []⟩, ⟨"R", []⟩, ⟨"Ghost", []⟩] } },
    { File := "/Elsewhere/R/R.uplugin"
      Descriptor :=
        { Modules := [⟨"Rm", EHostType.Runtime, ELoadingPhase.Default⟩], Plugins := [] } } ]

/-- A project that declares `Game`, the engine module `Engine` and the absent
module `Lost`, and depends on `P`, `Q` and `R`. -/
def ExampleProject : FProjectDescriptor :=
  { Modules := [⟨"Game", EHostType.Runtime, ELoadingPhase.Default⟩,
      ⟨"Engine", EHostType.Runtime, ELoadingPhase.Default⟩,
      ⟨"Lost", EHostType.Runtime, ELoadingPhase.PostDefault⟩]
    Plugins := [⟨"P", ["Win64", "Stadia"]⟩, ⟨"Q", []⟩, ⟨"R", []⟩] }

/-- A dump directory without files. -/
def ExampleModuleDir (ModuleName : String) : FFileSystemEntry :=
  FFileSystemEntry.Directory ("Dump/" ++ ModuleName) []

/-- A file system whose engine ships the plugin `P` (without modules) and the
module `Engine`, with the given dump entries. -/
def ExampleFileSystem (HeaderRoot : List FFileSystemEntry) : FFileSystem :=
  { EnginePluginsDir :=
      [FFileSystemEntry.Directory "../../../Engine/Plugins/P"
        [FFileSystemEntry.File "../../../Engine/Plugins/P/P.uplugin" []]]
    EngineSourceDir := ExampleEngineSourceDir
    HeaderRoot := HeaderRoot }

/-- The dump of the examples: `Bar` of the base plugin `P`, `Qm` of `Q`, `Rm`
of `R`, the engine module `Engine`, the declared module `Game`, and the
undeclared modules `Foo` and `Zed`. -/
def ExampleDump : List FFileSystemEntry :=
  [ExampleModuleDir "Bar", ExampleModuleDir "Qm", ExampleModuleDir "Rm",
    ExampleModuleDir "Engine", ExampleModuleDir "Game", ExampleModuleDir "Foo",
    ExampleModuleDir "Zed"]

/-- The run context of the examples. -/
def ExampleContext : FRunContext :=
  MakeRunContext ExampleEngine (ExampleFileSystem ExampleDump)
    (ExampleParams ExampleManifest ExampleProject)

/-- A dump whose module `Game` has two source files that both name the class
`Actor` of the engine module `Engine`. -/
def ExampleDumpTwoFiles : FFileSystem :=
  { EnginePluginsDir := []
    EngineSourceDir := ExampleEngineSourceDir
    HeaderRoot :=
      [FFileSystemEntry.Directory "Dump/Game"
        [FFileSystemEntry.File "Dump/Game/Pawn.h"
          ["#pragma once", "//CROSS-MODULE INCLUDE V2: ModuleName=Engine ObjectName=Actor"],
         FFileSystemEntry.File "Dump/Game/Pawn.cpp"
          ["//CROSS-MODULE INCLUDE V2: ModuleName=Engine ObjectName=Actor", "// end"],
         FFileSystemEntry.File "Dump/Game/Game.Build.cs" ["// build"]]] }

/-- A manifest whose only plugin `Q` depends on `P`, which the engine ships and
the manifest does not list. -/
def ExampleManifestBaseDependency : List FPluginManifestEntry :=
  [ { File := "../../../Proj/Plugins/Q/Q.uplugin"
      Descriptor := { Modules := [], Plugins := [⟨"P", []⟩] } } ]

/-- A directory named `Saved.Old` that directly contains `Foo.Build.cs`. -/
def ExampleSavedOldDirectory : FFileSystemEntry :=
  FFileSystemEntry.Directory "Source/Saved.Old"
    [FFileSystemEntry.File "Source/Saved.Old/Foo.Build.cs" []]

/-- A source tree whose only directory is `Saved.Old`. -/
def ExampleSavedOldTree : FFileSystemEntry :=
  FFileSystemEntry.Directory "Source" [ExampleSavedOldDirectory]

/-- A source tree with the module directory `Core`, which holds two build
files and a nested module, and a directory `Intermediate` with a build file. -/
def ExampleSourceTree : FFileSystemEntry :=
  FFileSystemEntry.Directory "Source"
    [FFileSystemEntry.Directory "Source/Runtime"
      [FFileSystemEntry.Directory "Source/Runtime/Core"
        [FFileSystemEntry.File "Source/Runtime/Core/Core.Build.cs" [],
         FFileSystemEntry.File "Source/Runtime/Core/CoreExtra.Build.cs" [],
         FFileSystemEntry.Directory "Source/Runtime/Core/Nested"
          [FFileSystemEntry.File "Source/Runtime/Core/Nested/Nested.Build.cs" []]]],
     FFileSystemEntry.Directory "Source/Intermediate"
      [FFileSystemEntry.File "Source/Intermediate/Tmp.Build.cs" []]]

/-- A plugin tree whose directory `Saved` holds the descriptor `Saved.uplugin`. -/
def ExampleSavedPluginTree : List FFileSystemEntry :=
  [FFileSystemEntry.Directory "Plugins/Saved"
    [FFileSystemEntry.File "Plugins/Saved/Saved.uplugin" [],
     FFileSystemEntry.Directory "Plugins/Saved/Inner"
      [FFileSystemEntry.File "Plugins/Saved/Inner/Inner.uplugin" []]]]

/-- A plugin tree with the plugin `A` (whose `Source` holds the module `Am` and
which holds a nested plugin directory), a directory `Saved` without descriptor
that holds a plugin directory, and the plugin `B` one level down. -/
def ExamplePluginTree : List FFileSystemEntry :=
  [FFileSystemEntry.Directory "Plugins/A"
    [FFileSystemEntry.File "Plugins/A/A.uplugin" [],
     FFileSystemEntry.Directory "Plugins/A/Source"
      [FFileSystemEntry.Directory "Plugins/A/Source/Am"
        [FFileSystemEntry.File "Plugins/A/Source/Am/Am.Build.cs" []]],
     FFileSystemEntry.Directory "Plugins/A/Nested"
      [FFileSystemEntry.File "Plugins/A/Nested/Nested.uplugin" []]],
   FFileSystemEntry.Directory "Plugins/Saved"
    [FFileSystemEntry.Directory "Plugins/Saved/Hidden"
      [FFileSystemEntry.File "Plugins/Saved/Hidden/Hidden.uplugin" []]],
   FFileSystemEntry.Directory "Plugins/Runtime"
    [FFileSystemEntry.Directory "Plugins/Runtime/B"
      [FFileSystemEntry.File "Plugins/Runtime/B/B.uplugin" []]]]

/-! # Theorems -/

/-! ## FString keys, sets and maps -/

/-- Key equality is decided on the folded text. -/
theorem FStringEquals_iff (a b : String) : FStringEquals a b = true ↔ FoldCase a = FoldCase b := by
  simp [FStringEquals]

/-- Key equality is reflexive. -/
theorem FStringEquals_refl (a : String) : FStringEquals a a = true := by
  simp [FStringEquals]

/-- Key equality is symmetric. -/
theorem FStringEquals_comm (a b : String) : FStringEquals a b = FStringEquals b a := by
  simp only [FStringEquals, eq_comm]

/-- Equal keys compare alike against any third key. -/
theorem FStringEquals_congr {a b : String} (h : FStringEquals a b = true) (c : String) :
    FStringEquals c a = FStringEquals c b := by
  rw [FStringEquals_iff] at h
  simp only [FStringEquals, h]

/-- Membership in a `TSet` is membership of the folded text. -/
theorem TSet.Contains_iff (s : TSet) (x : String) :
    TSet.Contains s x = true ↔ FoldCase x ∈ s.map FoldCase := by
  simp only [TSet.Contains, List.any_eq_true, FStringEquals_iff, List.mem_map]

/-- `TSet::Add` leaves the folded elements as they are when the element is
present and appends the folded element otherwise. -/
theorem TSet.map_FoldCase_Add (s : TSet) (x : String) :
    (TSet.Add s x).map FoldCase
      = if TSet.Contains s x then s.map FoldCase else s.map FoldCase ++ [FoldCase x] := by
  unfold TSet.Add
  split
  · simp only [List.map_map]
    apply List.map_congr_left
    intro y _
    simp only [Function.comp]
    split
    · rename_i h
      exact ((FStringEquals_iff y x).1 h).symm
    · rfl
  · simp

/-- After `TSet::Add` the set contains what it contained and the added element. -/
theorem TSet.Contains_Add (s : TSet) (x y : String) :
    TSet.Contains (TSet.Add s x) y = (TSet.Contains s y || FStringEquals x y) := by
  rw [Bool.eq_iff_iff]
  simp only [TSet.Contains_iff, TSet.map_FoldCase_Add, Bool.or_eq_true, FStringEquals_iff]
  split
  · rename_i h
    constructor
    · exact Or.inl
    · rintro (h1 | h1)
      · exact h1
      · rw [← h1]
        exact h
  · simp only [List.mem_append, List.mem_singleton]
    constructor
    · rintro (h1 | h1)
      · exact Or.inl h1
      · exact Or.inr h1.symm
    · rintro (h1 | h1)
      · exact Or.inl h1
      · exact Or.inr h1.symm

/-- Equal keys are members of the same sets. -/
theorem TSet.Contains_congr (s : TSet) {x y : String} (h : FStringEquals x y = true) :
    TSet.Contains s x = TSet.Contains s y := by
  rw [Bool.eq_iff_iff]
  simp only [TSet.Contains_iff, (FStringEquals_iff x y).1 h]

/-- `TMap::Find` finds a value exactly for the keys the map contains. -/
theorem TMap.Find_isSome {V : Type} (m : TMap V) (k : String) :
    (TMap.Find m k).isSome = TMap.Contains m k := by
  rw [Bool.eq_iff_iff]
  simp [TMap.Find, TMap.Contains]

/-- A key absent from a map is not found. -/
theorem TMap.Find_eq_none {V : Type} (m : TMap V) (k : String) :
    TMap.Find m k = none ↔ TMap.Contains m k = false := by
  rw [← TMap.Find_isSome]
  cases TMap.Find m k <;> simp

/-- Equal keys are keys of the same maps. -/
theorem TMap.MapContains_congr {V : Type} (m : TMap V) {x y : String}
    (h : FStringEquals x y = true) : TMap.Contains m x = TMap.Contains m y := by
  unfold TMap.Contains
  congr 1
  funext kv
  exact FStringEquals_congr h kv.1

/-- After `TMap::Add` the map has the keys it had and the added key. -/
theorem TMap.MapContains_Add {V : Type} (m : TMap V) (k : String) (v : V) (y : String) :
    TMap.Contains (TMap.Add m k v) y = (TMap.Contains m y || FStringEquals k y) := by
  unfold TMap.Add
  split
  · rename_i h
    rw [Bool.eq_iff_iff]
    simp only [TMap.Contains, List.any_map, List.any_eq_true, Bool.or_eq_true, Function.comp]
    simp only [TMap.Contains, List.any_eq_true] at h
    constructor
    · rintro ⟨kv, hkv, h1⟩
      by_cases hk : FStringEquals kv.1 k = true
      · rw [if_pos hk] at h1
        exact Or.inr h1
      · rw [if_neg hk] at h1
        exact Or.inl ⟨kv, hkv, h1⟩
    · rintro (⟨kv, hkv, h1⟩ | h1)
      · refine ⟨kv, hkv, ?_⟩
        by_cases hk : FStringEquals kv.1 k = true
        · rw [if_pos hk]
          show FStringEquals k y = true
          rw [FStringEquals_iff] at h1 hk ⊢
          exact hk.symm.trans h1
        · rw [if_neg hk]
          exact h1
      · obtain ⟨kv, hkv, h2⟩ := h
        refine ⟨kv, hkv, ?_⟩
        rw [if_pos h2]
        exact h1
  · simp [TMap.Contains]

/-! ## The resolver on one line -/

/-- C5. Malformed directive passthrough: a line that starts with the directive
prefix and whose payload gives an empty `ModuleName` or an empty `ObjectName`
comes out identical, and the resolver state is untouched. -/
theorem malformed_directive_passthrough {σ : Type} (E : Engine σ) (EngineModules : TSet)
    (st : FResolverState σ) (HeaderString : String)
    (hDirective : StartsWith HeaderString CrossModuleIncludePrefix = true)
    (hMissing : Len (IncludeModuleName E HeaderString) = 0
      ∨ Len (IncludeObjectName E HeaderString) = 0) :
    HandleHeaderString E EngineModules st HeaderString = (st, .ok HeaderString) := by
  unfold HandleHeaderString
  rw [if_pos hDirective]
  have h : (Len (IncludeModuleName E HeaderString) == 0
      || Len (IncludeObjectName E HeaderString) == 0) = true := by
    rcases hMissing with h | h <;> simp [h]
  rw [if_pos h]

/-- Witness of C5: a directive without `ObjectName=`. -/
theorem malformed_directive_passthrough_witness :
    HandleHeaderString ExampleEngine ["Engine"] ExampleResolverState
        "//CROSS-MODULE INCLUDE V2: ModuleName=Engine"
      = (ExampleResolverState, .ok "//CROSS-MODULE INCLUDE V2: ModuleName=Engine") :=
  malformed_directive_passthrough ExampleEngine ["Engine"] ExampleResolverState
    "//CROSS-MODULE INCLUDE V2: ModuleName=Engine" (by decide) (Or.inr (by decide))

/-- C4. Fallback on unknown module: a directive with non-empty `ModuleName` and
`ObjectName` whose module has no script package after the load attempt becomes
`#include "<F>.h"`, `F` being the `FallbackName` when the payload has one and
the `ObjectName` otherwise. -/
theorem fallback_on_unknown_module {σ : Type} (E : Engine σ) (EngineModules : TSet)
    (st : FResolverState σ) (HeaderString : String)
    (hDirective : StartsWith HeaderString CrossModuleIncludePrefix = true)
    (hModule : Len (IncludeModuleName E HeaderString) ≠ 0)
    (hObject : Len (IncludeObjectName E HeaderString) ≠ 0)
    (hNoPackage : E.FindPackage
        (TryLoadEngineModule E EngineModules st (IncludeModuleName E HeaderString)).Registry
        ("/Script/" ++ IncludeModuleName E HeaderString) = none) :
    (HandleHeaderString E EngineModules st HeaderString).2
      = .ok ("#include \"" ++
          (match E.FParse_Value (IncludeData HeaderString) "FallbackName=" with
            | some F => F
            | none => IncludeObjectName E HeaderString) ++ ".h\"") := by
  unfold HandleHeaderString
  rw [if_pos hDirective]
  have h : (Len (IncludeModuleName E HeaderString) == 0
      || Len (IncludeObjectName E HeaderString) == 0) = false := by
    simp [hModule, hObject]
  simp only [h, hNoPackage, FallbackHeaderName]
  cases E.FParse_Value (IncludeData HeaderString) "FallbackName=" <;> simp

/-- Witness of C4: module `Game` is unknown to the registry and the directive
names a fallback header. -/
theorem fallback_on_unknown_module_witness :
    (HandleHeaderString ExampleEngine ["Engine"] ExampleResolverState
        "//CROSS-MODULE INCLUDE V2: ModuleName=Game ObjectName=Pawn FallbackName=MyPawn").2
      = .ok "#include \"MyPawn.h\"" :=
  fallback_on_unknown_module ExampleEngine ["Engine"] ExampleResolverState
    "//CROSS-MODULE INCLUDE V2: ModuleName=Game ObjectName=Pawn FallbackName=MyPawn"
    (by decide) (by decide) (by decide) (by rfl)

/-- C6. Unresolved symbol in a resolvable module: a well-formed directive whose
module has a script package in which the symbol is not found comes out
identical, whatever `FallbackName` it carries. -/
theorem unresolved_symbol_passthrough {σ : Type} (E : Engine σ) (EngineModules : TSet)
    (st : FResolverState σ) (HeaderString : String) (ModulePackage : UPackage)
    (hDirective : StartsWith HeaderString CrossModuleIncludePrefix = true)
    (hModule : Len (IncludeModuleName E HeaderString) ≠ 0)
    (hObject : Len (IncludeObjectName E HeaderString) ≠ 0)
    (hPackage : E.FindPackage
        (TryLoadEngineModule E EngineModules st (IncludeModuleName E HeaderString)).Registry
        ("/Script/" ++ IncludeModuleName E HeaderString) = some ModulePackage)
    (hNoObject : E.FindObjectFast
        (TryLoadEngineModule E EngineModules st (IncludeModuleName E HeaderString)).Registry
        ModulePackage (IncludeObjectName E HeaderString) = none) :
    (HandleHeaderString E EngineModules st HeaderString).2 = .ok HeaderString := by
  unfold HandleHeaderString
  rw [if_pos hDirective]
  have h : (Len (IncludeModuleName E HeaderString) == 0
      || Len (IncludeObjectName E HeaderString) == 0) = false := by
    simp [hModule, hObject]
  simp only [h, hPackage, hNoObject]
  rfl

/-- Witness of C6: `Engine` is loaded on demand, has no object `Pawn`, and the
fallback name is not used. -/
theorem unresolved_symbol_passthrough_witness :
    (HandleHeaderString ExampleEngine ["Engine"] ExampleResolverState
        "//CROSS-MODULE INCLUDE V2: ModuleName=Engine ObjectName=Pawn FallbackName=MyPawn").2
      = .ok "//CROSS-MODULE INCLUDE V2: ModuleName=Engine ObjectName=Pawn FallbackName=MyPawn" :=
  unresolved_symbol_passthrough ExampleEngine ["Engine"] ExampleResolverState
    "//CROSS-MODULE INCLUDE V2: ModuleName=Engine ObjectName=Pawn FallbackName=MyPawn"
    ⟨"/Script/Engine"⟩ (by decide) (by decide) (by decide) (by rfl) (by rfl)

/-- `RemoveAt(0, Count)` keeps what `Mid(Count)` keeps. -/
theorem RemoveAt_zero (s : String) (Count : Nat) : RemoveAt s 0 Count = Mid s Count := by
  simp [RemoveAt, Mid]

/-- `GetIncludePathForObject` computes case (c) of the resolved path whenever
its two assertions hold. -/
theorem GetIncludePathForObject_ok (Object : UObject)
    (hMeta : Object.bPackageHasMetaData = true) (hPath : Len Object.ModuleRelativePath ≠ 0) :
    GetIncludePathForObject Object
      = .ok (StripLeading "Classes/" (StripLeading "Private/" (StripLeading "Public/"
          (StripLeading "/" Object.ModuleRelativePath)))) := by
  have h1 : Len "/" = 1 := by decide
  have h7 : Len "Public/" = 7 := by decide
  have h8 : Len "Private/" = 8 := by decide
  have h8c : Len "Classes/" = 8 := by decide
  simp [GetIncludePathForObject, hMeta, hPath, StripLeading, RemoveAt_zero, h1, h7, h8, h8c]

/-- `GetIncludePathForObject` stops at a failed assertion when the metadata
object or the recorded path is missing. -/
theorem GetIncludePathForObject_error (Object : UObject)
    (h : Object.bPackageHasMetaData = false ∨ Len Object.ModuleRelativePath = 0) :
    ∃ e, GetIncludePathForObject Object = .error e := by
  unfold GetIncludePathForObject
  rcases h with h | h
  · simp [h]
  · cases Object.bPackageHasMetaData <;> simp [h]

/-- The path computation of lines 197-200 agrees with the resolved path of the
specification whenever it does not stop at an assertion. -/
theorem ObjectIncludePath_ok (Object : UObject) (h : HasIncludePath Object = true) :
    (match GetSpecialObjectIncludePath Object with
      | some p => Except.ok p
      | none => GetIncludePathForObject Object) = .ok (ResolvedIncludePath Object) := by
  unfold GetSpecialObjectIncludePath ResolvedIncludePath
  unfold HasIncludePath at h
  cases hT : GetSpecialObjectIncludePaths Object.Identity with
  | some p => simp
  | none =>
    rw [hT] at h
    cases hK : Object.Kind with
    | Class b =>
      cases b
      · simp [HasNoExportFlag, hK] at h ⊢
        exact GetIncludePathForObject_ok Object h.1 h.2
      · simp [HasNoExportFlag, hK]
    | ScriptStruct b =>
      cases b
      · simp [HasNoExportFlag, hK] at h ⊢
        exact GetIncludePathForObject_ok Object h.1 h.2
      · simp [HasNoExportFlag, hK]
    | Other =>
      simp [HasNoExportFlag, hK] at h ⊢
      exact GetIncludePathForObject_ok Object h.1 h.2

/-- The path computation of lines 197-200 stops at a failed `checkf` exactly
when the symbol has no include path. -/
theorem ObjectIncludePath_error (Object : UObject) (h : HasIncludePath Object = false) :
    ∃ e, (match GetSpecialObjectIncludePath Object with
      | some p => Except.ok p
      | none => GetIncludePathForObject Object) = .error e := by
  unfold HasIncludePath at h
  simp only [Bool.or_eq_false_iff, Bool.and_eq_false_iff] at h
  obtain ⟨⟨hT, hN⟩, hM⟩ := h
  have hE : ∃ e, GetIncludePathForObject Object = .error e := by
    apply GetIncludePathForObject_error
    rcases hM with hM | hM
    · exact Or.inl hM
    · right
      simpa using hM
  have hS : GetSpecialObjectIncludePath Object = none := by
    unfold GetSpecialObjectIncludePath
    cases hT2 : GetSpecialObjectIncludePaths Object.Identity with
    | some p => simp [hT2] at hT
    | none =>
      cases hK : Object.Kind with
      | Class b => cases b <;> simp_all [HasNoExportFlag]
      | ScriptStruct b => cases b <;> simp_all [HasNoExportFlag]
      | Other => rfl
  rw [hS]
  exact hE

/-- C3 (amended). Resolved include path: a well-formed directive whose module
has a script package in which the symbol is found becomes `#include "<p>"` when
the symbol has an include path `p` that is non-empty, stays unchanged when `p`
is empty, and stops the run at a failed `checkf` when the symbol has no include
path; `p` is the resolved path of the specification. -/
theorem resolved_include_path {σ : Type} (E : Engine σ) (EngineModules : TSet)
    (st : FResolverState σ) (HeaderString : String) (ModulePackage : UPackage)
    (FoundModuleObject : UObject)
    (hDirective : StartsWith HeaderString CrossModuleIncludePrefix = true)
    (hModule : Len (IncludeModuleName E HeaderString) ≠ 0)
    (hObject : Len (IncludeObjectName E HeaderString) ≠ 0)
    (hPackage : E.FindPackage
        (TryLoadEngineModule E EngineModules st (IncludeModuleName E HeaderString)).Registry
        ("/Script/" ++ IncludeModuleName E HeaderString) = some ModulePackage)
    (hFound : E.FindObjectFast
        (TryLoadEngineModule E EngineModules st (IncludeModuleName E HeaderString)).Registry
        ModulePackage (IncludeObjectName E HeaderString) = some FoundModuleObject) :
    (HasIncludePath FoundModuleObject = true →
      (HandleHeaderString E EngineModules st HeaderString).2
        = .ok (if Len (ResolvedIncludePath FoundModuleObject) ≠ 0
            then "#include \"" ++ ResolvedIncludePath FoundModuleObject ++ "\""
            else HeaderString))
    ∧ (HasIncludePath FoundModuleObject = false →
      ∃ e, (HandleHeaderString E EngineModules st HeaderString).2 = .error e) := by
  have h : (Len (IncludeModuleName E HeaderString) == 0
      || Len (IncludeObjectName E HeaderString) == 0) = false := by
    simp [hModule, hObject]
  constructor
  · intro hHas
    unfold HandleHeaderString
    rw [if_pos hDirective]
    simp only [h, hPackage, hFound, ObjectIncludePath_ok FoundModuleObject hHas]
    by_cases hp : Len (ResolvedIncludePath FoundModuleObject) = 0 <;> simp [hp]
  · intro hHas
    obtain ⟨e, he⟩ := ObjectIncludePath_error FoundModuleObject hHas
    refine ⟨e, ?_⟩
    unfold HandleHeaderString
    rw [if_pos hDirective]
    simp only [h, hPackage, hFound, he]
    rfl

/-- Witness of C3: the class declared in `Public/GameFramework/Actor.h` is
included as `GameFramework/Actor.h`. -/
theorem resolved_include_path_witness :
    (HandleHeaderString ExampleEngine ["Engine"] ExampleResolverState
        "//CROSS-MODULE INCLUDE V2: ModuleName=Engine ObjectName=Actor").2
      = .ok "#include \"GameFramework/Actor.h\"" :=
  (resolved_include_path ExampleEngine ["Engine"] ExampleResolverState
    "//CROSS-MODULE INCLUDE V2: ModuleName=Engine ObjectName=Actor"
    ⟨"/Script/Engine"⟩ ExampleActor (by decide) (by decide) (by decide) (by rfl) (by rfl)).1
    (by decide)

/-- Counterexample to C3 as stated: the symbol `FolderOnly` is found in the
package of `Engine`, its resolved path is empty, and the line is left as it was
instead of becoming `#include ""`. -/
theorem resolved_include_path_counterexample :
    ExampleEngine.FindObjectFast ["Engine"] ⟨"/Script/Engine"⟩ "FolderOnly"
        = some ExampleFolderOnly
    ∧ ResolvedIncludePath ExampleFolderOnly = ""
    ∧ (HandleHeaderString ExampleEngine ["Engine"] ExampleResolverState
        "//CROSS-MODULE INCLUDE V2: ModuleName=Engine ObjectName=FolderOnly").2
      = .ok "//CROSS-MODULE INCLUDE V2: ModuleName=Engine ObjectName=FolderOnly"
    ∧ (HandleHeaderString ExampleEngine ["Engine"] ExampleResolverState
        "//CROSS-MODULE INCLUDE V2: ModuleName=Engine ObjectName=FolderOnly").2
      ≠ .ok ("#include \"" ++ ResolvedIncludePath ExampleFolderOnly ++ "\"") := by
  refine ⟨by rfl, by decide, by rfl, ?_⟩
  intro h
  have h2 : (HandleHeaderString ExampleEngine ["Engine"] ExampleResolverState
        "//CROSS-MODULE INCLUDE V2: ModuleName=Engine ObjectName=FolderOnly").2
      = .ok "//CROSS-MODULE INCLUDE V2: ModuleName=Engine ObjectName=FolderOnly" := by rfl
  rw [h2] at h
  injection h with h
  revert h
  decide

/-! ## When the resolver returns -/

/-- A line the resolver returns is the line it was given or an include directive. -/
theorem HandleHeaderString_shape {σ : Type} (E : Engine σ) (EngineModules : TSet)
    (st : FResolverState σ) (HeaderString NewString : String)
    (h : (HandleHeaderString E EngineModules st HeaderString).2 = .ok NewString) :
    NewString = HeaderString ∨ ∃ p, NewString = "#include \"" ++ p ++ "\"" := by
  unfold HandleHeaderString at h
  split at h
  · split at h
    · simp only [Except.ok.injEq] at h
      exact Or.inl h.symm
    · dsimp only at h
      split at h
      · simp only [Except.ok.injEq] at h
        have hQuote : (".h\"" : String) = ".h" ++ "\"" := by decide
        exact Or.inr ⟨FallbackHeaderName E HeaderString ++ ".h", by
          rw [← h, hQuote]
          simp only [String.append_assoc]⟩
      · split at h
        · simp only [Except.ok.injEq] at h
          exact Or.inl h.symm
        · split at h
          · cases h
          · split at h
            · simp only [Except.ok.injEq] at h
              exact Or.inr ⟨_, h.symm⟩
            · simp only [Except.ok.injEq] at h
              exact Or.inl h.symm
  · simp only [Except.ok.injEq] at h
    exact Or.inl h.symm

/-- A result is a return exactly when `isOk` says so. -/
theorem Except_isOk_iff {ε α : Type} (r : Except ε α) : r.isOk = true ↔ ∃ a, r = .ok a := by
  cases r with
  | error e => simp [Except.isOk, Except.toBool]
  | ok a => simp [Except.isOk, Except.toBool]

/-- The path computation of lines 197-200 returns exactly when the symbol has
an include path. -/
theorem ObjectIncludePath_isOk (Object : UObject) :
    (match GetSpecialObjectIncludePath Object with
      | some p => Except.ok p
      | none => GetIncludePathForObject Object).isOk = HasIncludePath Object := by
  cases h : HasIncludePath Object with
  | true =>
    rw [ObjectIncludePath_ok Object h]
    rfl
  | false =>
    obtain ⟨e, he⟩ := ObjectIncludePath_error Object h
    rw [he]
    rfl

/-- A line is resolved without a failed `checkf` exactly when the symbol it
makes the registry find, if any, has an include path. -/
theorem HandleHeaderString_isOk {σ : Type} (E : Engine σ) (EngineModules : TSet)
    (st : FResolverState σ) (HeaderString : String) :
    (HandleHeaderString E EngineModules st HeaderString).2.isOk
      = (FoundObject E EngineModules st HeaderString).all HasIncludePath := by
  unfold HandleHeaderString FoundObject
  by_cases hD : StartsWith HeaderString CrossModuleIncludePrefix = true
  · by_cases hN : (Len (IncludeModuleName E HeaderString) == 0
        || Len (IncludeObjectName E HeaderString) == 0) = true
    · simp only [hD, hN, if_true, Bool.not_true, Bool.and_false, Bool.false_eq_true, if_false]
      rfl
    · simp only [hD, hN, if_true, if_false, Bool.not_eq_true] at hN ⊢
      simp only [hN, Bool.not_false, Bool.and_true, Bool.false_eq_true, if_false, if_true]
      cases hP : E.FindPackage
          (TryLoadEngineModule E EngineModules st (IncludeModuleName E HeaderString)).Registry
          ("/Script/" ++ IncludeModuleName E HeaderString) with
      | none => rfl
      | some ModulePackage =>
        simp only
        cases hO : E.FindObjectFast
            (TryLoadEngineModule E EngineModules st (IncludeModuleName E HeaderString)).Registry
            ModulePackage (IncludeObjectName E HeaderString) with
        | none => rfl
        | some Object =>
          simp only [Option.all]
          rw [← ObjectIncludePath_isOk Object]
          cases (match GetSpecialObjectIncludePath Object with
            | some p => Except.ok p
            | none => GetIncludePathForObject Object) with
          | error e => rfl
          | ok p =>
            simp only
            split <;> rfl
  · simp only [hD, Bool.false_eq_true, if_false, Bool.false_and]
    rfl

/-- Resolving the lines of two files one after the other is resolving their
lines as one sequence. -/
theorem HandleModuleHeaderFile_append {σ : Type} (E : Engine σ) (EngineModules : TSet)
    (st : FResolverState σ) (A B : List String) :
    HandleModuleHeaderFile E EngineModules st (A ++ B)
      = match HandleModuleHeaderFile E EngineModules st A with
        | (st1, .error e) => (st1, .error e)
        | (st1, .ok NewA) =>
          match HandleModuleHeaderFile E EngineModules st1 B with
          | (st2, .error e) => (st2, .error e)
          | (st2, .ok NewB) => (st2, .ok (NewA ++ NewB)) := by
  induction A generalizing st with
  | nil =>
    simp only [List.nil_append, HandleModuleHeaderFile]
    cases HandleModuleHeaderFile E EngineModules st B with
    | mk st2 r => cases r <;> rfl
  | cons HeaderString Rest ih =>
    simp only [List.cons_append, HandleModuleHeaderFile]
    cases hL : HandleHeaderString E EngineModules st HeaderString with
    | mk st1 r =>
      cases r with
      | error e => rfl
      | ok NewString =>
        simp only
        rw [show Rest.append B = Rest ++ B from rfl, ih st1]
        cases HandleModuleHeaderFile E EngineModules st1 Rest with
        | mk st2 r2 =>
          cases r2 with
          | error e => rfl
          | ok NewRest =>
            simp only
            cases HandleModuleHeaderFile E EngineModules st2 B with
            | mk st3 r3 => cases r3 <;> rfl

/-- A file is resolved without a failed `checkf` exactly when every symbol the
registry finds on the way has an include path. -/
theorem HandleModuleHeaderFile_isOk {σ : Type} (E : Engine σ) (EngineModules : TSet)
    (st : FResolverState σ) (HeaderLines : List String) :
    (HandleModuleHeaderFile E EngineModules st HeaderLines).2.isOk
      = (FoundObjects E EngineModules st HeaderLines).all HasIncludePath := by
  induction HeaderLines generalizing st with
  | nil => rfl
  | cons HeaderString Rest ih =>
    have h1 := HandleHeaderString_isOk E EngineModules st HeaderString
    unfold HandleModuleHeaderFile FoundObjects
    cases hL : HandleHeaderString E EngineModules st HeaderString with
    | mk st1 r =>
      rw [hL] at h1
      cases r with
      | error e =>
        simp only [List.append_nil]
        rw [show (Except.error e : Except String (List String)).isOk
          = (Except.error e : Except String String).isOk from rfl, h1]
        cases FoundObject E EngineModules st HeaderString <;> simp [Option.all, Option.toList]
      | ok NewString =>
        simp only [List.all_append]
        rw [← ih st1]
        have h2 : ((FoundObject E EngineModules st HeaderString).toList.all HasIncludePath)
            = true := by
          cases hF : FoundObject E EngineModules st HeaderString with
          | none => rfl
          | some Object =>
            rw [hF] at h1
            simp only [Option.toList, List.all_cons, List.all_nil, Bool.and_true]
            exact h1.symm
        rw [h2]
        cases HandleModuleHeaderFile E EngineModules st1 Rest with
        | mk st2 r2 => cases r2 <;> rfl

/-- What `HandleModuleHeaderFile` returns exists exactly when every symbol the
registry finds while the lines are resolved has an include path. -/
theorem HandleModuleHeaderFile_returns_iff {σ : Type} (E : Engine σ) (EngineModules : TSet)
    (st : FResolverState σ) (HeaderLines : List String) :
    (∃ NewLines, (HandleModuleHeaderFile E EngineModules st HeaderLines).2 = .ok NewLines)
      ↔ ∀ Object ∈ FoundObjects E EngineModules st HeaderLines, HasIncludePath Object = true := by
  rw [← Except_isOk_iff, HandleModuleHeaderFile_isOk, List.all_eq_true]

/-! ## Loading modules on demand -/

/-- Among entries whose names are pairwise different, at most one has a given name. -/
theorem filter_length_le_one {α : Type} (Key : α → String) (Entries : List α)
    (ModuleName : String)
    (h : Entries.Pairwise (fun a b => FStringEquals (Key a) (Key b) = false)) :
    (Entries.filter (fun c => FStringEquals (Key c) ModuleName)).length ≤ 1 := by
  induction Entries with
  | nil => simp
  | cons a Rest ih =>
    rw [List.pairwise_cons] at h
    by_cases ha : FStringEquals (Key a) ModuleName = true
    · have hNone : Rest.filter (fun c => FStringEquals (Key c) ModuleName) = [] := by
        rw [List.filter_eq_nil_iff]
        intro b hb hbm
        have := h.1 b hb
        rw [FStringEquals_iff] at ha hbm
        have h2 : FStringEquals (Key a) (Key b) = true := by
          rw [FStringEquals_iff]
          exact ha.trans hbm.symm
        rw [h2] at this
        cases this
      simp [List.filter_cons, ha, hNone]
    · simp only [List.filter_cons, ha]
      exact ih h.2

/-- The on-demand load keeps the invariant of the load trace. -/
theorem TryLoadEngineModule_invariant {σ : Type} (E : Engine σ) (EngineModules : TSet)
    (st : FResolverState σ) (ModuleName : String)
    (h : LoadTraceInvariant E EngineModules st) :
    LoadTraceInvariant E EngineModules (TryLoadEngineModule E EngineModules st ModuleName) := by
  unfold TryLoadEngineModule
  split
  · rename_i hCond
    split
    · rename_i hNew
      simp only [Bool.and_eq_true, Bool.not_eq_true'] at hCond
      simp only [Bool.not_eq_true'] at hNew
      obtain ⟨h1, h2, h3⟩ := h
      have hInv : ∀ (r : σ), LoadTraceInvariant E EngineModules
          ⟨r, TSet.Add st.ModulesThatHaveTriedBeingLoaded ModuleName,
            st.LoadModuleCalls ++ [(ModuleName, st.Registry)]⟩ := by
        intro r
        refine ⟨?_, ?_, ?_⟩
        · intro c hc
          simp only [List.mem_append, List.mem_singleton] at hc
          simp only [TSet.Contains_Add, Bool.or_eq_true]
          rcases hc with hc | hc
          · exact Or.inl (h1 c hc)
          · right
            rw [hc]
            exact FStringEquals_refl ModuleName
        · rw [List.pairwise_append]
          refine ⟨h2, List.pairwise_singleton _ _, ?_⟩
          intro a ha b hb
          simp only [List.mem_singleton] at hb
          subst hb
          cases hEq : FStringEquals a.1 ModuleName with
          | false => rfl
          | true =>
            have := h1 a ha
            rw [TSet.Contains_congr _ hEq, hNew] at this
            cases this
        · intro c hc
          simp only [List.mem_append, List.mem_singleton] at hc
          rcases hc with hc | hc
          · exact h3 c hc
          · subst hc
            exact hCond
      cases hL : E.LoadModule st.Registry ModuleName with
      | mk b r =>
        cases b
        · exact hInv r
        · exact hInv (E.ProcessNewlyLoadedUObjects r)
    · exact h
  · exact h

/-- One line keeps the invariant of the load trace. -/
theorem HandleHeaderString_invariant {σ : Type} (E : Engine σ) (EngineModules : TSet)
    (st : FResolverState σ) (HeaderString : String)
    (h : LoadTraceInvariant E EngineModules st) :
    LoadTraceInvariant E EngineModules (HandleHeaderString E EngineModules st HeaderString).1 := by
  have hT := TryLoadEngineModule_invariant E EngineModules st (IncludeModuleName E HeaderString) h
  unfold HandleHeaderString
  split
  · split
    · exact h
    · dsimp only
      split
      · exact hT
      · split
        · exact hT
        · split
          · exact hT
          · split <;> exact hT
  · exact h

/-- A file keeps the invariant of the load trace. -/
theorem HandleModuleHeaderFile_invariant {σ : Type} (E : Engine σ) (EngineModules : TSet)
    (st : FResolverState σ) (HeaderLines : List String)
    (h : LoadTraceInvariant E EngineModules st) :
    LoadTraceInvariant E EngineModules
      (HandleModuleHeaderFile E EngineModules st HeaderLines).1 := by
  induction HeaderLines generalizing st with
  | nil => exact h
  | cons HeaderString Rest ih =>
    unfold HandleModuleHeaderFile
    have h1 := HandleHeaderString_invariant E EngineModules st HeaderString h
    cases hL : HandleHeaderString E EngineModules st HeaderString with
    | mk st1 r =>
      rw [hL] at h1
      cases r with
      | error e => exact h1
      | ok NewString =>
        have h2 := ih st1 h1
        simp only
        cases hR : HandleModuleHeaderFile E EngineModules st1 Rest with
        | mk st2 r2 =>
          rw [hR] at h2
          cases r2 <;> exact h2

/-- A loop keeps what its body keeps. -/
theorem IterateDirectory_invariant {σ α : Type}
    (Visitor : FRunState σ → α → FRunState σ × Except String Unit)
    (P : FRunState σ → Prop) (hVisitor : ∀ st Entry, P st → P (Visitor st Entry).1)
    (st : FRunState σ) (Entries : List α) (h : P st) :
    P (IterateDirectory Visitor st Entries).1 := by
  induction Entries generalizing st with
  | nil => exact h
  | cons Entry Rest ih =>
    unfold IterateDirectory
    have h1 := hVisitor st Entry h
    cases hV : Visitor st Entry with
    | mk st1 r =>
      rw [hV] at h1
      cases r with
      | error e => exact h1
      | ok u => exact ih st1 h1

/-- Moving a file keeps the invariant of the load trace. -/
theorem MoveModuleFilesRecursive_invariant {σ : Type} (E : Engine σ) (EngineModules : TSet)
    (SourceDirectory ResultDirectory : String) (st : FRunState σ) (Entry : FFileSystemEntry)
    (h : LoadTraceInvariant E EngineModules st.Resolver) :
    LoadTraceInvariant E EngineModules
      (MoveModuleFilesRecursive E EngineModules SourceDirectory ResultDirectory st Entry).1.Resolver := by
  cases Entry with
  | Directory Filename Children => exact h
  | File Filename Lines =>
    unfold MoveModuleFilesRecursive
    have h1 := HandleModuleHeaderFile_invariant E EngineModules st.Resolver Lines h
    simp only
    split
    · split
      · rename_i Resolver e hH
        rw [hH] at h1
        exact h1
      · rename_i Resolver NewLines hH
        rw [hH] at h1
        exact h1
    · exact h

/-- The visitor of the dump does to a directory what its classification says. -/
theorem ModuleDirIterator_eq {σ : Type} (E : Engine σ) (Ctx : FRunContext) (st : FRunState σ)
    (Filename : String) (Children : List FFileSystemEntry) :
    ModuleDirIterator E Ctx st (.Directory Filename Children)
      = MaterializeModule E Ctx st Filename Children (E.GetCleanFilename Filename)
          (ClassifyModule E Ctx (E.GetCleanFilename Filename)) := by
  unfold ModuleDirIterator ClassifyModule
  simp only
  cases hOwner : TMap.Find Ctx.ModuleNameToOwnerPluginName (E.GetCleanFilename Filename) with
  | some OwnerPluginName =>
    simp only
    cases hBase : TMap.Find Ctx.EnginePlugins OwnerPluginName with
    | some Modules =>
      have : TMap.Contains Ctx.EnginePlugins OwnerPluginName = true := by
        rw [← TMap.Find_isSome, hBase]
        rfl
      simp only [this, if_true]
      rfl
    | none =>
      have : TMap.Contains Ctx.EnginePlugins OwnerPluginName = false :=
        (TMap.Find_eq_none _ _).1 hBase
      simp only [this]
      cases hDest : TMap.Find Ctx.GameImpliedPluginFileLocations OwnerPluginName with
      | some ResultPluginFile => rfl
      | none => rfl
  | none =>
    simp only
    by_cases hEngine : TSet.Contains Ctx.EngineModules (E.GetCleanFilename Filename) = true
    · simp only [hEngine, if_true]
      rfl
    · simp only [hEngine]
      unfold MaterializeModule MarkForced
      by_cases hDecl : TSet.Contains Ctx.ProjectModuleNames (E.GetCleanFilename Filename) = true
      · simp [hDecl]
      · simp [hDecl]

/-- Copying a module directory keeps the invariant of the load trace. -/
theorem CopyModuleFiles_invariant {σ : Type} (E : Engine σ) (EngineModules : TSet)
    (Filename Target : String) (Children : List FFileSystemEntry) (st : FRunState σ)
    (h : LoadTraceInvariant E EngineModules st.Resolver) :
    LoadTraceInvariant E EngineModules
      (CopyModuleFiles E EngineModules Filename Target Children st).1.Resolver :=
  IterateDirectory_invariant _ (fun s => LoadTraceInvariant E EngineModules s.Resolver)
    (MoveModuleFilesRecursive_invariant E EngineModules Filename Target) st _ h

/-- Visiting a module directory keeps the invariant of the load trace. -/
theorem ModuleDirIterator_invariant {σ : Type} (E : Engine σ) (Ctx : FRunContext)
    (st : FRunState σ) (Entry : FFileSystemEntry)
    (h : LoadTraceInvariant E Ctx.EngineModules st.Resolver) :
    LoadTraceInvariant E Ctx.EngineModules (ModuleDirIterator E Ctx st Entry).1.Resolver := by
  cases Entry with
  | File Filename Lines => exact h
  | Directory Filename Children =>
    rw [ModuleDirIterator_eq]
    cases ClassifyModule E Ctx (E.GetCleanFilename Filename) with
    | Skip => exact h
    | PluginOwned Target =>
      have h1 := CopyModuleFiles_invariant E Ctx.EngineModules Filename Target Children st h
      cases hC : CopyModuleFiles E Ctx.EngineModules Filename Target Children st with
      | mk st1 r =>
        rw [hC] at h1
        cases r <;> simp only [MaterializeModule, hC] <;> exact h1
    | Loose Target =>
      have h0 : LoadTraceInvariant E Ctx.EngineModules
          (MarkForced Ctx st (E.GetCleanFilename Filename)).Resolver := by
        unfold MarkForced
        split <;> exact h
      have h1 := CopyModuleFiles_invariant E Ctx.EngineModules Filename Target Children _ h0
      cases hC : CopyModuleFiles E Ctx.EngineModules Filename Target Children
          (MarkForced Ctx st (E.GetCleanFilename Filename)) with
      | mk st1 r =>
        rw [hC] at h1
        cases r <;> simp only [MaterializeModule, hC] <;> exact h1

/-- Carrying over a plugin descriptor leaves the resolver alone. -/
theorem SanitizePluginDescriptor_Resolver {σ : Type} (E : Engine σ) (Ctx : FRunContext)
    (st : FRunState σ) (ManifestEntry : FPluginManifestEntry) :
    (SanitizePluginDescriptor E Ctx st ManifestEntry).1.Resolver = st.Resolver := by
  unfold SanitizePluginDescriptor
  simp only
  split
  · rfl
  · split
    · rfl
    · split <;> rfl

/-- The final state of `MainInternal` keeps the invariant of the load trace. -/
theorem MainInternal_invariant {σ : Type} (E : Engine σ) (FS : FFileSystem)
    (Params : FCommandletRunParams) (Registry : σ) :
    LoadTraceInvariant E (MakeRunContext E FS Params).EngineModules
      (MainInternal E FS Params Registry).1.Resolver := by
  have h0 : LoadTraceInvariant E (MakeRunContext E FS Params).EngineModules
      (InitialRunState Registry).Resolver := by
    refine ⟨?_, List.Pairwise.nil, ?_⟩ <;> intro c hc <;> cases hc
  have h1 := IterateDirectory_invariant (ModuleDirIterator E (MakeRunContext E FS Params))
    (fun s => LoadTraceInvariant E (MakeRunContext E FS Params).EngineModules s.Resolver)
    (ModuleDirIterator_invariant E (MakeRunContext E FS Params)) (InitialRunState Registry)
    FS.HeaderRoot h0
  unfold MainInternal
  simp only
  cases hI : IterateDirectory (ModuleDirIterator E (MakeRunContext E FS Params))
      (InitialRunState Registry) FS.HeaderRoot with
  | mk st1 r1 =>
    rw [hI] at h1
    cases r1 with
    | error e => exact h1
    | ok u =>
      simp only
      have h2 := IterateDirectory_invariant
        (SanitizePluginDescriptor E (MakeRunContext E FS Params))
        (fun s => LoadTraceInvariant E (MakeRunContext E FS Params).EngineModules s.Resolver)
        (fun s Entry hs => by
          show LoadTraceInvariant E (MakeRunContext E FS Params).EngineModules
            (SanitizePluginDescriptor E (MakeRunContext E FS Params) s Entry).1.Resolver
          rw [SanitizePluginDescriptor_Resolver]
          exact hs) st1
        Params.PluginManifest h1
      cases hS : IterateDirectory (SanitizePluginDescriptor E (MakeRunContext E FS Params)) st1
          Params.PluginManifest with
      | mk st2 r2 =>
        rw [hS] at h2
        cases r2 with
        | error e => exact h2
        | ok u2 =>
          simp only
          split <;> exact h2

/-- C7. Load at most once: in the state `MainInternal` ends with, whether it
returned or stopped at an assertion, at most one `LoadModule` call was made for
any module name, and every call was made for a module of the base module
inventory that was not loaded at the time of the call; the same holds for the
resolver run over any sequence of lines from the initial resolver state. -/
theorem load_at_most_once {σ : Type} (E : Engine σ) (FS : FFileSystem)
    (Params : FCommandletRunParams) (Registry : σ) :
    ((∀ ModuleName : String,
        ((MainInternal E FS Params Registry).1.Resolver.LoadModuleCalls.filter
          (fun c => FStringEquals c.1 ModuleName)).length ≤ 1)
      ∧ ∀ c ∈ (MainInternal E FS Params Registry).1.Resolver.LoadModuleCalls,
          TSet.Contains (MakeRunContext E FS Params).EngineModules c.1 = true
            ∧ E.IsModuleLoaded c.2 c.1 = false)
    ∧ ∀ (EngineModules : TSet) (HeaderLines : List String),
        (∀ ModuleName : String,
          ((HandleModuleHeaderFile E EngineModules ⟨Registry, [], []⟩
              HeaderLines).1.LoadModuleCalls.filter
            (fun c => FStringEquals c.1 ModuleName)).length ≤ 1)
        ∧ ∀ c ∈ (HandleModuleHeaderFile E EngineModules ⟨Registry, [], []⟩
              HeaderLines).1.LoadModuleCalls,
            TSet.Contains EngineModules c.1 = true ∧ E.IsModuleLoaded c.2 c.1 = false := by
  constructor
  · have h := MainInternal_invariant E FS Params Registry
    exact ⟨fun ModuleName => filter_length_le_one Prod.fst _ ModuleName h.2.1, h.2.2⟩
  · intro EngineModules HeaderLines
    have h0 : LoadTraceInvariant E EngineModules (⟨Registry, [], []⟩ : FResolverState σ) := by
      refine ⟨?_, List.Pairwise.nil, ?_⟩ <;> intro c hc <;> cases hc
    have h := HandleModuleHeaderFile_invariant E EngineModules _ HeaderLines h0
    exact ⟨fun ModuleName => filter_length_le_one Prod.fst _ ModuleName h.2.1, h.2.2⟩

/-! ## The classifier -/

/-- C2. The classifier: the visitor does to every top-level dump directory
what its classification says (a skipped module leaves the run state, and so
the written files, untouched), and the classification is Skip, PluginOwned or
Loose by the first applicable rule: (1) owner plugin is a base plugin: Skip;
(2) owner plugin has a destination: PluginOwned under
`<directory of the remapped descriptor>/Source/<module>`; (3) owner plugin
without destination: not materialised; (4) unowned base module: Skip; (5)
otherwise Loose under `<output>/Source/<module>`. Rules 1 to 3 do not look at
the base module inventory. -/
theorem classifier_rules {σ : Type} (E : Engine σ) (FS : FFileSystem)
    (Params : FCommandletRunParams) (st : FRunState σ) (Filename : String)
    (Children : List FFileSystemEntry) :
    ModuleDirIterator E (MakeRunContext E FS Params) st (.Directory Filename Children)
      = MaterializeModule E (MakeRunContext E FS Params) st Filename Children
          (E.GetCleanFilename Filename)
          (ClassifyModule E (MakeRunContext E FS Params) (E.GetCleanFilename Filename))
    ∧ MaterializeModule E (MakeRunContext E FS Params) st Filename Children
        (E.GetCleanFilename Filename) .Skip = (st, .ok ())
    ∧ (∀ ModuleName OwnerPluginName,
        TMap.Find (MakeRunContext E FS Params).ModuleNameToOwnerPluginName ModuleName
          = some OwnerPluginName →
        TMap.Contains (MakeRunContext E FS Params).EnginePlugins OwnerPluginName = true →
        ClassifyModule E (MakeRunContext E FS Params) ModuleName = .Skip)
    ∧ (∀ ModuleName OwnerPluginName ResultPluginFile,
        TMap.Find (MakeRunContext E FS Params).ModuleNameToOwnerPluginName ModuleName
          = some OwnerPluginName →
        TMap.Contains (MakeRunContext E FS Params).EnginePlugins OwnerPluginName = false →
        TMap.Find (MakeRunContext E FS Params).GameImpliedPluginFileLocations OwnerPluginName
          = some ResultPluginFile →
        ClassifyModule E (MakeRunContext E FS Params) ModuleName
          = .PluginOwned
              (PathAppend (PathAppend (E.GetPath ResultPluginFile) "Source") ModuleName))
    ∧ (∀ ModuleName OwnerPluginName,
        TMap.Find (MakeRunContext E FS Params).ModuleNameToOwnerPluginName ModuleName
          = some OwnerPluginName →
        TMap.Contains (MakeRunContext E FS Params).EnginePlugins OwnerPluginName = false →
        TMap.Find (MakeRunContext E FS Params).GameImpliedPluginFileLocations OwnerPluginName
          = none →
        ClassifyModule E (MakeRunContext E FS Params) ModuleName = .Skip)
    ∧ (∀ ModuleName,
        TMap.Find (MakeRunContext E FS Params).ModuleNameToOwnerPluginName ModuleName = none →
        TSet.Contains (MakeRunContext E FS Params).EngineModules ModuleName = true →
        ClassifyModule E (MakeRunContext E FS Params) ModuleName = .Skip)
    ∧ (∀ ModuleName,
        TMap.Find (MakeRunContext E FS Params).ModuleNameToOwnerPluginName ModuleName = none →
        TSet.Contains (MakeRunContext E FS Params).EngineModules ModuleName = false →
        ClassifyModule E (MakeRunContext E FS Params) ModuleName
          = .Loose (PathAppend (PathAppend Params.OutputDirectory "Source") ModuleName)) := by
  refine ⟨ModuleDirIterator_eq _ _ _ _ _, rfl, ?_, ?_, ?_, ?_, ?_⟩
  · intro ModuleName Owner hOwner hBase
    simp only [ClassifyModule, hOwner, hBase, if_true]
  · intro ModuleName Owner File hOwner hBase hDest
    simp [ClassifyModule, hOwner, hBase, hDest]
  · intro ModuleName Owner hOwner hBase hDest
    simp [ClassifyModule, hOwner, hBase, hDest]
  · intro ModuleName hOwner hEngine
    simp only [ClassifyModule, hOwner, hEngine, if_true]
  · intro ModuleName hOwner hEngine
    have hDir : (MakeRunContext E FS Params).ProjectSourceDir
        = PathAppend Params.OutputDirectory "Source" := rfl
    simp [ClassifyModule, hOwner, hEngine, hDir]

/-- Witness of C2 on the example dump: `Bar` (owned by the base plugin `P`,
whose base module set is empty) is skipped and the run state stays as it was;
`Qm` goes beside the remapped descriptor of `Q`; `Rm` is not materialised;
`Engine` is skipped; `Foo` is loose. -/
theorem classifier_rules_witness :
    ModuleDirIterator ExampleEngine ExampleContext (InitialRunState [])
        (ExampleModuleDir "Bar") = (InitialRunState [], .ok ())
    ∧ ClassifyModule ExampleEngine ExampleContext "Bar" = .Skip
    ∧ ClassifyModule ExampleEngine ExampleContext "Qm" = .PluginOwned "Out/Plugins/Q/Source/Qm"
    ∧ ClassifyModule ExampleEngine ExampleContext "Rm" = .Skip
    ∧ ClassifyModule ExampleEngine ExampleContext "Engine" = .Skip
    ∧ ClassifyModule ExampleEngine ExampleContext "Foo" = .Loose "Out/Source/Foo" :=
  have h := classifier_rules ExampleEngine (ExampleFileSystem ExampleDump)
    (ExampleParams ExampleManifest ExampleProject) (InitialRunState []) "Dump/Bar" []
  have hBar : ClassifyModule ExampleEngine ExampleContext "Bar" = .Skip :=
    h.2.2.1 "Bar" "P" (by decide) (by decide)
  ⟨h.1.trans ((congrArg _ hBar).trans h.2.1), hBar,
    h.2.2.2.1 "Qm" "Q" "Out/Plugins/Q/Q.uplugin" (by decide) (by decide) (by decide),
    h.2.2.2.2.1 "Rm" "R" (by decide) (by decide) (by decide),
    h.2.2.2.2.2.1 "Engine" (by decide) (by decide),
    h.2.2.2.2.2.2 "Foo" (by decide) (by decide)⟩

/-! ## The bookkeeping of a run that returns -/

/-- A loop over a non-empty list completes exactly when its first iteration
and the loop over the rest complete. -/
theorem IterateDirectory_cons_ok {σ α : Type}
    (Visitor : FRunState σ → α → FRunState σ × Except String Unit) (st st2 : FRunState σ)
    (Entry : α) (Rest : List α)
    (h : IterateDirectory Visitor st (Entry :: Rest) = (st2, .ok ())) :
    ∃ st1, Visitor st Entry = (st1, .ok ()) ∧ IterateDirectory Visitor st1 Rest = (st2, .ok ()) := by
  unfold IterateDirectory at h
  cases hV : Visitor st Entry with
  | mk st1 r =>
    rw [hV] at h
    cases r with
    | error e => simp at h
    | ok u => exact ⟨st1, rfl, h⟩

/-- Adding elements in two batches is adding them in one. -/
theorem AddAll_append (s : TSet) (l1 l2 : List String) :
    AddAll (AddAll s l1) l2 = AddAll s (l1 ++ l2) := by
  simp [AddAll, List.foldl_append]

/-- Moving a file leaves the bookkeeping alone. -/
theorem MoveModuleFilesRecursive_Bookkeeping {σ : Type} (E : Engine σ) (EngineModules : TSet)
    (SourceDirectory ResultDirectory : String) (st : FRunState σ) (Entry : FFileSystemEntry) :
    Bookkeeping (MoveModuleFilesRecursive E EngineModules SourceDirectory ResultDirectory st
      Entry).1 = Bookkeeping st := by
  cases Entry with
  | Directory Filename Children => rfl
  | File Filename Lines =>
    unfold MoveModuleFilesRecursive
    simp only
    split
    · split <;> rfl
    · rfl

/-- Copying a module directory leaves the bookkeeping alone. -/
theorem CopyModuleFiles_Bookkeeping {σ : Type} (E : Engine σ) (EngineModules : TSet)
    (Filename Target : String) (Children : List FFileSystemEntry) (st : FRunState σ) :
    Bookkeeping (CopyModuleFiles E EngineModules Filename Target Children st).1
      = Bookkeeping st :=
  IterateDirectory_invariant _ (fun s => Bookkeeping s = Bookkeeping st)
    (fun s Entry hs => by
      show Bookkeeping (MoveModuleFilesRecursive E EngineModules Filename Target s Entry).1
        = Bookkeeping st
      rw [MoveModuleFilesRecursive_Bookkeeping]
      exact hs) st _ rfl

/-- The bookkeeping after a completed visit of one dump entry. -/
theorem ModuleDirIterator_Bookkeeping {σ : Type} (E : Engine σ) (Ctx : FRunContext)
    (st st1 : FRunState σ) (Entry : FFileSystemEntry)
    (h : ModuleDirIterator E Ctx st Entry = (st1, .ok ())) :
    Bookkeeping st1
      = (AddAll st.AllGameModulesProcessed
            ((DumpModuleNames E [Entry]).filter (IsMaterialized E Ctx)),
          AddAll st.LooseGameModuleNames ((DumpModuleNames E [Entry]).filter (IsLoose E Ctx)),
          AddAll st.EngineModulesForcedToBeGameModules
            ((DumpModuleNames E [Entry]).filter (IsForced E Ctx)),
          st.AllGamePluginsProcessed, st.SavedPluginDescriptors, st.SavedProjectDescriptor) := by
  cases Entry with
  | File Filename Lines =>
    simp only [ModuleDirIterator, Prod.mk.injEq, and_true] at h
    subst h
    rfl
  | Directory Filename Children =>
    rw [ModuleDirIterator_eq] at h
    simp only [DumpModuleNames, List.filterMap_cons, List.filterMap_nil]
    cases hC : ClassifyModule E Ctx (E.GetCleanFilename Filename) with
    | Skip =>
      rw [hC] at h
      simp only [MaterializeModule, Prod.mk.injEq, and_true] at h
      subst h
      have hM : IsMaterialized E Ctx (E.GetCleanFilename Filename) = false := by
        simp [IsMaterialized, hC]
      have hL : IsLoose E Ctx (E.GetCleanFilename Filename) = false := by
        simp [IsLoose, hC]
      have hF : IsForced E Ctx (E.GetCleanFilename Filename) = false := by
        simp [IsForced, hL]
      simp [AddAll, Bookkeeping, List.filter, hM, hL, hF]
    | PluginOwned Target =>
      rw [hC] at h
      simp only [MaterializeModule] at h
      have hB := CopyModuleFiles_Bookkeeping E Ctx.EngineModules Filename Target Children st
      cases hCopy : CopyModuleFiles E Ctx.EngineModules Filename Target Children st with
      | mk st0 r =>
        rw [hCopy] at h hB
        cases r with
        | error e => simp at h
        | ok u =>
          simp only [Prod.mk.injEq, and_true] at h
          subst h
          simp only [Bookkeeping, Prod.mk.injEq] at hB ⊢
          obtain ⟨h1, h2, h3, h4, h5, h6⟩ := hB
          have hM : IsMaterialized E Ctx (E.GetCleanFilename Filename) = true := by
            simp [IsMaterialized, hC]
          have hL : IsLoose E Ctx (E.GetCleanFilename Filename) = false := by
            simp [IsLoose, hC]
          have hF : IsForced E Ctx (E.GetCleanFilename Filename) = false := by
            simp [IsForced, hL]
          simp [AddAll, List.filter, hM, hL, hF, h1, h2, h3, h4, h5, h6]
    | Loose Target =>
      rw [hC] at h
      simp only [MaterializeModule] at h
      have hB := CopyModuleFiles_Bookkeeping E Ctx.EngineModules Filename Target Children
        (MarkForced Ctx st (E.GetCleanFilename Filename))
      cases hCopy : CopyModuleFiles E Ctx.EngineModules Filename Target Children
          (MarkForced Ctx st (E.GetCleanFilename Filename)) with
      | mk st0 r =>
        rw [hCopy] at h hB
        cases r with
        | error e => simp at h
        | ok u =>
          simp only [Prod.mk.injEq, and_true] at h
          subst h
          simp only [Bookkeeping, Prod.mk.injEq] at hB ⊢
          obtain ⟨h1, h2, h3, h4, h5, h6⟩ := hB
          unfold MarkForced at h1 h2 h3 h4 h5 h6
          have hM : IsMaterialized E Ctx (E.GetCleanFilename Filename) = true := by
            simp [IsMaterialized, hC]
          have hL : IsLoose E Ctx (E.GetCleanFilename Filename) = true := by
            simp [IsLoose, hC]
          by_cases hDecl : TSet.Contains Ctx.ProjectModuleNames (E.GetCleanFilename Filename)
              = true
          · simp only [hDecl, if_true] at h1 h2 h3 h4 h5 h6
            have hF : IsForced E Ctx (E.GetCleanFilename Filename) = false := by
              simp [IsForced, hL, hDecl]
            simp [AddAll, List.filter, hM, hL, hF, h1, h2, h3, h4, h5, h6]
          · simp only [hDecl] at h1 h2 h3 h4 h5 h6
            have hF : IsForced E Ctx (E.GetCleanFilename Filename) = true := by
              simp [IsForced, hL, hDecl]
            simp [AddAll, List.filter, hM, hL, hF, h1, h2, h3, h4, h5, h6]

/-- The bookkeeping after a completed visit of the dump: the processed, loose
and forced sets are the materialised, loose and forced module names of the
dump, added in visiting order. -/
theorem IterateDump_Bookkeeping {σ : Type} (E : Engine σ) (Ctx : FRunContext)
    (HeaderRoot : List FFileSystemEntry) (st st1 : FRunState σ)
    (h : IterateDirectory (ModuleDirIterator E Ctx) st HeaderRoot = (st1, .ok ())) :
    Bookkeeping st1
      = (AddAll st.AllGameModulesProcessed
            ((DumpModuleNames E HeaderRoot).filter (IsMaterialized E Ctx)),
          AddAll st.LooseGameModuleNames ((DumpModuleNames E HeaderRoot).filter (IsLoose E Ctx)),
          AddAll st.EngineModulesForcedToBeGameModules
            ((DumpModuleNames E HeaderRoot).filter (IsForced E Ctx)),
          st.AllGamePluginsProcessed, st.SavedPluginDescriptors, st.SavedProjectDescriptor) := by
  induction HeaderRoot generalizing st with
  | nil =>
    simp only [IterateDirectory, Prod.mk.injEq, and_true] at h
    subst h
    rfl
  | cons Entry Rest ih =>
    obtain ⟨st0, h0, hRest⟩ := IterateDirectory_cons_ok _ _ _ _ _ h
    have hStep := ModuleDirIterator_Bookkeeping E Ctx st st0 Entry h0
    have hIH := ih st0 hRest
    simp only [Bookkeeping, Prod.mk.injEq] at hStep hIH ⊢
    obtain ⟨a1, a2, a3, a4, a5, a6⟩ := hStep
    obtain ⟨b1, b2, b3, b4, b5, b6⟩ := hIH
    have hNames : DumpModuleNames E (Entry :: Rest)
        = DumpModuleNames E [Entry] ++ DumpModuleNames E Rest := by
      cases Entry <;> simp [DumpModuleNames]
    rw [hNames]
    simp only [List.filter_append, ← AddAll_append]
    rw [b1, b2, b3, b4, b5, b6, a1, a2, a3, a4, a5, a6]
    exact ⟨rfl, rfl, rfl, rfl, rfl, rfl⟩

/-- The bookkeeping after a completed iteration of the plugin descriptor loop. -/
theorem SanitizePluginDescriptor_Bookkeeping {σ : Type} (E : Engine σ) (Ctx : FRunContext)
    (st st1 : FRunState σ) (ManifestEntry : FPluginManifestEntry)
    (h : SanitizePluginDescriptor E Ctx st ManifestEntry = (st1, .ok ())) :
    Bookkeeping st1
      = (st.AllGameModulesProcessed, st.LooseGameModuleNames,
          st.EngineModulesForcedToBeGameModules,
          AddAll st.AllGamePluginsProcessed
            (([ManifestEntry].filter (IsCarriedOver E Ctx)).map
              (fun Entry => E.GetBaseFilename Entry.File)),
          st.SavedPluginDescriptors
            ++ [ManifestEntry].filterMap (SavedPluginDescriptor E Ctx st.AllGameModulesProcessed),
          st.SavedProjectDescriptor) := by
  unfold SanitizePluginDescriptor at h
  simp only at h
  by_cases hSkip : (TMap.Contains Ctx.EnginePlugins (E.GetBaseFilename ManifestEntry.File)
      || !TMap.Contains Ctx.GameImpliedPluginFileLocations
        (E.GetBaseFilename ManifestEntry.File)) = true
  · rw [if_pos hSkip] at h
    simp only [Prod.mk.injEq, and_true] at h
    subst h
    have hC : IsCarriedOver E Ctx ManifestEntry = false := by
      simp only [IsCarriedOver, hSkip, Bool.not_true]
    simp [Bookkeeping, AddAll, List.filter, hC, SavedPluginDescriptor]
  · rw [if_neg hSkip] at h
    have hC : IsCarriedOver E Ctx ManifestEntry = true := by
      simp only [Bool.not_eq_true] at hSkip
      simp only [IsCarriedOver, hSkip, Bool.not_false]
    cases hFind : TMap.Find Ctx.GameImpliedPluginFileLocations
        (E.GetBaseFilename ManifestEntry.File) with
    | none =>
      rw [hFind] at h
      simp at h
    | some Location =>
      rw [hFind] at h
      simp only at h
      by_cases hSave : E.SaveDescriptor Location = true
      · rw [if_pos hSave] at h
        simp only [Prod.mk.injEq, and_true] at h
        subst h
        simp [Bookkeeping, AddAll, List.filter, hC, SavedPluginDescriptor, hFind]
      · rw [if_neg hSave] at h
        simp at h

/-- The bookkeeping after the completed plugin descriptor loop: the processed
plugins are the plugins of the carried-over manifest entries, and one
descriptor is saved for every carried-over entry, in manifest order. -/
theorem IterateManifest_Bookkeeping {σ : Type} (E : Engine σ) (Ctx : FRunContext)
    (Manifest : List FPluginManifestEntry) (st st1 : FRunState σ)
    (h : IterateDirectory (SanitizePluginDescriptor E Ctx) st Manifest = (st1, .ok ())) :
    Bookkeeping st1
      = (st.AllGameModulesProcessed, st.LooseGameModuleNames,
          st.EngineModulesForcedToBeGameModules,
          AddAll st.AllGamePluginsProcessed
            ((Manifest.filter (IsCarriedOver E Ctx)).map
              (fun Entry => E.GetBaseFilename Entry.File)),
          st.SavedPluginDescriptors
            ++ Manifest.filterMap (SavedPluginDescriptor E Ctx st.AllGameModulesProcessed),
          st.SavedProjectDescriptor) := by
  induction Manifest generalizing st with
  | nil =>
    simp only [IterateDirectory, Prod.mk.injEq, and_true] at h
    subst h
    simp [Bookkeeping, AddAll]
  | cons Entry Rest ih =>
    obtain ⟨st0, h0, hRest⟩ := IterateDirectory_cons_ok _ _ _ _ _ h
    have hStep := SanitizePluginDescriptor_Bookkeeping E Ctx st st0 Entry h0
    have hIH := ih st0 hRest
    simp only [Bookkeeping, Prod.mk.injEq] at hStep hIH ⊢
    obtain ⟨a1, a2, a3, a4, a5, a6⟩ := hStep
    obtain ⟨b1, b2, b3, b4, b5, b6⟩ := hIH
    have hCons : Entry :: Rest = [Entry] ++ Rest := rfl
    rw [hCons]
    simp only [List.filter_append, List.map_append, List.filterMap_append, ← AddAll_append,
      ← List.append_assoc]
    rw [b1, b2, b3, b4, b5, b6, a1, a2, a3, a4, a5, a6]
    exact ⟨rfl, rfl, rfl, rfl, rfl, rfl⟩

/-- The bookkeeping of a run of `MainInternal` that returns: the three module
sets come from the classification of the dump entries, one descriptor is saved
for every carried-over manifest entry, and the project descriptor is saved. -/
theorem MainInternal_Bookkeeping {σ : Type} (E : Engine σ) (FS : FFileSystem)
    (Params : FCommandletRunParams) (Registry : σ) (Code : Int)
    (h : (MainInternal E FS Params Registry).2 = .ok Code) :
    ∃ st2 : FRunState σ,
      Bookkeeping st2
        = (AddAll [] ((DumpModuleNames E FS.HeaderRoot).filter
              (IsMaterialized E (MakeRunContext E FS Params))),
            AddAll [] ((DumpModuleNames E FS.HeaderRoot).filter
              (IsLoose E (MakeRunContext E FS Params))),
            AddAll [] ((DumpModuleNames E FS.HeaderRoot).filter
              (IsForced E (MakeRunContext E FS Params))),
            AddAll [] ((Params.PluginManifest.filter
              (IsCarriedOver E (MakeRunContext E FS Params))).map
                (fun Entry => E.GetBaseFilename Entry.File)),
            Params.PluginManifest.filterMap
              (SavedPluginDescriptor E (MakeRunContext E FS Params)
                (AddAll [] ((DumpModuleNames E FS.HeaderRoot).filter
                  (IsMaterialized E (MakeRunContext E FS Params))))),
            none)
      ∧ Bookkeeping (MainInternal E FS Params Registry).1
        = (st2.AllGameModulesProcessed, st2.LooseGameModuleNames,
            st2.EngineModulesForcedToBeGameModules, st2.AllGamePluginsProcessed,
            st2.SavedPluginDescriptors,
            some (PathAppend Params.OutputDirectory Params.ProjectName ++ ".uproject",
              SanitizeProjectDescriptor (MakeRunContext E FS Params) st2 Params.ProjectFile)) := by
  unfold MainInternal at h ⊢
  simp only at h ⊢
  cases hI : IterateDirectory (ModuleDirIterator E (MakeRunContext E FS Params))
      (InitialRunState Registry) FS.HeaderRoot with
  | mk st1 r1 =>
    rw [hI] at h
    cases r1 with
    | error e => simp at h
    | ok u1 =>
      simp only at h ⊢
      cases hS : IterateDirectory (SanitizePluginDescriptor E (MakeRunContext E FS Params)) st1
          Params.PluginManifest with
      | mk st2 r2 =>
        rw [hS] at h
        cases r2 with
        | error e => simp at h
        | ok u2 =>
          simp only at h ⊢
          by_cases hSave : E.SaveDescriptor
              (PathAppend Params.OutputDirectory Params.ProjectName ++ ".uproject") = true
          · refine ⟨st2, ?_, ?_⟩
            · have h1 := IterateDump_Bookkeeping E _ _ _ _ hI
              have h2 := IterateManifest_Bookkeeping E _ _ _ _ hS
              simp only [Bookkeeping, Prod.mk.injEq] at h1 h2 ⊢
              obtain ⟨a1, a2, a3, a4, a5, a6⟩ := h1
              obtain ⟨b1, b2, b3, b4, b5, b6⟩ := h2
              rw [b1, b2, b3, b4, b5, b6, a1, a2, a3, a4, a5, a6]
              simp [InitialRunState]
            · simp only [hSave, if_true]
              rfl
          · simp [hSave] at h

/-! ## Closure of the sanitised descriptors -/

/-- Membership after adding several elements. -/
theorem Contains_AddAll (s : TSet) (Elements : List String) (x : String) :
    TSet.Contains (AddAll s Elements) x
      = (TSet.Contains s x || Elements.any (fun y => FStringEquals y x)) := by
  induction Elements generalizing s with
  | nil => simp [AddAll]
  | cons y Rest ih =>
    have h : AddAll s (y :: Rest) = AddAll (TSet.Add s y) Rest := rfl
    rw [h, ih, TSet.Contains_Add]
    simp [Bool.or_assoc]

/-- One manifest entry adds at most its own plugin name to the keys of
`GameImpliedPluginFileLocations`. -/
theorem CollectManifestEntry_keys {σ : Type} (E : Engine σ) (Params : FCommandletRunParams)
    (Acc : TMap String × TMap String × TSet) (ManifestEntry : FPluginManifestEntry)
    (x : String)
    (h : TMap.Contains (CollectManifestEntry E Params Acc ManifestEntry).2.1 x = true) :
    TMap.Contains Acc.2.1 x = true
      ∨ FStringEquals (E.GetBaseFilename ManifestEntry.File) x = true := by
  unfold CollectManifestEntry at h
  simp only at h
  split at h
  · simpa [TMap.MapContains_Add] using h
  · split at h
    · simpa [TMap.MapContains_Add] using h
    · exact Or.inl h

/-- Every key of `GameImpliedPluginFileLocations` is the plugin name of a manifest entry. -/
theorem GameImplied_keys {σ : Type} (E : Engine σ) (Params : FCommandletRunParams)
    (Manifest : List FPluginManifestEntry) (Acc : TMap String × TMap String × TSet)
    (x : String)
    (h : TMap.Contains (Manifest.foldl (CollectManifestEntry E Params) Acc).2.1 x = true) :
    TMap.Contains Acc.2.1 x = true
      ∨ ∃ Entry ∈ Manifest, FStringEquals (E.GetBaseFilename Entry.File) x = true := by
  induction Manifest generalizing Acc with
  | nil => exact Or.inl h
  | cons Entry Rest ih =>
    rw [List.foldl_cons] at h
    rcases ih _ h with h1 | ⟨e, he, h1⟩
    · rcases CollectManifestEntry_keys E Params Acc Entry x h1 with h2 | h2
      · exact Or.inl h2
      · exact Or.inr ⟨Entry, List.mem_cons_self _ _, h2⟩
    · exact Or.inr ⟨e, List.mem_cons_of_mem _ he, h1⟩

/-- A plugin with a destination that is not a base plugin is among the
processed plugins of a completed plugin descriptor loop. -/
theorem Contains_processed_plugins {σ : Type} (E : Engine σ) (FS : FFileSystem)
    (Params : FCommandletRunParams) (x : String)
    (hDest : TMap.Contains (MakeRunContext E FS Params).GameImpliedPluginFileLocations x = true)
    (hBase : TMap.Contains (MakeRunContext E FS Params).EnginePlugins x = false) :
    TSet.Contains (AddAll [] ((Params.PluginManifest.filter
        (IsCarriedOver E (MakeRunContext E FS Params))).map
          (fun Entry => E.GetBaseFilename Entry.File))) x = true := by
  have hKey : ∃ Entry ∈ Params.PluginManifest,
      FStringEquals (E.GetBaseFilename Entry.File) x = true := by
    rcases GameImplied_keys E Params Params.PluginManifest ([], [], []) x hDest with h | h
    · simp [TMap.Contains] at h
    · exact h
  obtain ⟨Entry, hEntry, hEq⟩ := hKey
  rw [Contains_AddAll]
  simp only [Bool.or_eq_true, List.any_eq_true, List.mem_map, List.mem_filter]
  right
  refine ⟨E.GetBaseFilename Entry.File, ⟨Entry, ⟨hEntry, ?_⟩, rfl⟩, hEq⟩
  unfold IsCarriedOver
  rw [TMap.MapContains_congr _ hEq, TMap.MapContains_congr _ hEq, hDest, hBase]
  rfl

/-- C1. Closure of the sanitised descriptors: when `MainInternal` returns,
every module named by a saved plugin descriptor or by the saved project
descriptor is in `EngineModules` or in `AllGameModulesProcessed`, every plugin
named in their plugin lists is a key of `EnginePlugins` or in
`AllGamePluginsProcessed`, and the project descriptor has been saved. -/
theorem sanitized_closure {σ : Type} (E : Engine σ) (FS : FFileSystem)
    (Params : FCommandletRunParams) (Registry : σ)
    (hRun : (MainInternal E FS Params Registry).2 = .ok 0) :
    (∀ Saved ∈ (MainInternal E FS Params Registry).1.SavedPluginDescriptors,
      (∀ m ∈ Saved.2.Modules,
        TSet.Contains (MakeRunContext E FS Params).EngineModules m.Name = true
          ∨ TSet.Contains (MainInternal E FS Params Registry).1.AllGameModulesProcessed m.Name
              = true)
      ∧ ∀ p ∈ Saved.2.Plugins,
        TMap.Contains (MakeRunContext E FS Params).EnginePlugins p.Name = true
          ∨ TSet.Contains (MainInternal E FS Params Registry).1.AllGamePluginsProcessed p.Name
              = true)
    ∧ ∃ Saved, (MainInternal E FS Params Registry).1.SavedProjectDescriptor = some Saved
      ∧ (∀ m ∈ Saved.2.Modules,
        TSet.Contains (MakeRunContext E FS Params).EngineModules m.Name = true
          ∨ TSet.Contains (MainInternal E FS Params Registry).1.AllGameModulesProcessed m.Name
              = true)
      ∧ ∀ p ∈ Saved.2.Plugins,
        TMap.Contains (MakeRunContext E FS Params).EnginePlugins p.Name = true
          ∨ TSet.Contains (MainInternal E FS Params Registry).1.AllGamePluginsProcessed p.Name
              = true := by
  obtain ⟨st2, h2, hF⟩ := MainInternal_Bookkeeping E FS Params Registry 0 hRun
  simp only [Bookkeeping, Prod.mk.injEq] at h2 hF
  obtain ⟨a1, a2, a3, a4, a5, a6⟩ := h2
  obtain ⟨b1, b2, b3, b4, b5, b6⟩ := hF
  rw [b1, b4, b5, b6]
  have hForced : ∀ x ∈ st2.EngineModulesForcedToBeGameModules,
      TSet.Contains st2.AllGameModulesProcessed x = true := by
    intro x hx
    have hx2 : TSet.Contains st2.EngineModulesForcedToBeGameModules x = true := by
      simp only [TSet.Contains, List.any_eq_true]
      exact ⟨x, hx, FStringEquals_refl x⟩
    rw [a3, Contains_AddAll] at hx2
    rw [a1, Contains_AddAll]
    simp only [TSet.Contains, List.any_nil, Bool.false_or, List.any_eq_true,
      List.mem_filter] at hx2 ⊢
    obtain ⟨y, ⟨hy, hyF⟩, hyx⟩ := hx2
    refine ⟨y, ⟨hy, ?_⟩, hyx⟩
    simp only [IsForced, IsLoose, Bool.and_eq_true] at hyF
    unfold IsMaterialized
    cases hC : ClassifyModule E (MakeRunContext E FS Params) y with
    | Skip => simp [hC] at hyF
    | PluginOwned T => rfl
    | Loose T => rfl
  refine ⟨?_, _, rfl, ?_, ?_⟩
  · intro Saved hSaved
    rw [a5] at hSaved
    simp only [List.mem_filterMap, SavedPluginDescriptor] at hSaved
    obtain ⟨Entry, hEntry, hS⟩ := hSaved
    split at hS
    · simp only [Option.map_eq_some'] at hS
      obtain ⟨Location, hLoc, hS⟩ := hS
      subst hS
      constructor
      · intro m hm
        simp only [NewPluginDescriptor, List.mem_filter, RemoveModulePredicate,
          Bool.not_and, Bool.not_not, Bool.or_eq_true] at hm
        rw [a1]
        exact hm.2
      · intro p hp
        simp only [NewPluginDescriptor, List.mem_filter, Bool.not_and, Bool.not_not,
          Bool.or_eq_true] at hp
        by_cases hBase : TMap.Contains (MakeRunContext E FS Params).EnginePlugins p.Name = true
        · exact Or.inl hBase
        · right
          rw [a4]
          rcases hp.2 with hDest | hB
          · exact Contains_processed_plugins E FS Params p.Name hDest (by simpa using hBase)
          · exact absurd hB hBase
    · cases hS
  · intro m hm
    simp only [SanitizeProjectDescriptor, List.mem_append, List.mem_filter, List.mem_map,
      RemoveModulePredicate, Bool.not_and, Bool.not_not, Bool.or_eq_true] at hm
    rcases hm with hm | ⟨x, hx, hxm⟩
    · exact hm.2
    · right
      subst hxm
      exact hForced x hx
  · intro p hp
    simp only [SanitizeProjectDescriptor, List.mem_filter, List.mem_map, Bool.not_and,
      Bool.not_not, Bool.or_eq_true] at hp
    exact hp.2

/-- Witness of C1: the example run returns. -/
theorem sanitized_closure_witness :
    (∀ Saved ∈ (MainInternal ExampleEngine (ExampleFileSystem ExampleDump)
        (ExampleParams ExampleManifest ExampleProject) []).1.SavedPluginDescriptors,
      (∀ m ∈ Saved.2.Modules,
        TSet.Contains ExampleContext.EngineModules m.Name = true
          ∨ TSet.Contains (MainInternal ExampleEngine (ExampleFileSystem ExampleDump)
              (ExampleParams ExampleManifest ExampleProject) []).1.AllGameModulesProcessed m.Name
              = true)
      ∧ ∀ p ∈ Saved.2.Plugins,
        TMap.Contains ExampleContext.EnginePlugins p.Name = true
          ∨ TSet.Contains (MainInternal ExampleEngine (ExampleFileSystem ExampleDump)
              (ExampleParams ExampleManifest ExampleProject) []).1.AllGamePluginsProcessed p.Name
              = true)
    ∧ ∃ Saved, (MainInternal ExampleEngine (ExampleFileSystem ExampleDump)
        (ExampleParams ExampleManifest ExampleProject) []).1.SavedProjectDescriptor = some Saved
      ∧ (∀ m ∈ Saved.2.Modules,
        TSet.Contains ExampleContext.EngineModules m.Name = true
          ∨ TSet.Contains (MainInternal ExampleEngine (ExampleFileSystem ExampleDump)
              (ExampleParams ExampleManifest ExampleProject) []).1.AllGameModulesProcessed m.Name
              = true)
      ∧ ∀ p ∈ Saved.2.Plugins,
        TMap.Contains ExampleContext.EnginePlugins p.Name = true
          ∨ TSet.Contains (MainInternal ExampleEngine (ExampleFileSystem ExampleDump)
              (ExampleParams ExampleManifest ExampleProject) []).1.AllGamePluginsProcessed p.Name
              = true :=
  sanitized_closure ExampleEngine (ExampleFileSystem ExampleDump)
    (ExampleParams ExampleManifest ExampleProject) [] (by rfl)

/-- The example run in full: what is saved for the plugin `Q` and for the project. -/
theorem example_run_output :
    (MainInternal ExampleEngine (ExampleFileSystem ExampleDump)
        (ExampleParams ExampleManifest ExampleProject) []).1.SavedPluginDescriptors
      = [("Out/Plugins/Q/Q.uplugin",
          { Modules := [⟨"Qm", EHostType.Runtime, ELoadingPhase.Default⟩]
            Plugins := [⟨"P", []⟩] })]
    ∧ (MainInternal ExampleEngine (ExampleFileSystem ExampleDump)
        (ExampleParams ExampleManifest ExampleProject) []).1.SavedProjectDescriptor
      = some ("Out/Proj.uproject",
          { Modules := [⟨"Game", EHostType.Runtime, ELoadingPhase.Default⟩,
              ⟨"Engine", EHostType.Runtime, ELoadingPhase.Default⟩,
              ⟨"Foo", EHostType.Runtime, ELoadingPhase.Default⟩,
              ⟨"Zed", EHostType.Runtime, ELoadingPhase.Default⟩]
            Plugins := [⟨"P", ["Win64"]⟩, ⟨"Q", []⟩] }) := by
  constructor <;> decide

/-! ## Forced modules -/

/-- A set built by `TSet::Add` has no two equal elements. -/
theorem Add_nodup (s : TSet) (x : String) (h : (s.map FoldCase).Nodup) :
    ((TSet.Add s x).map FoldCase).Nodup := by
  rw [TSet.map_FoldCase_Add]
  split
  · exact h
  · rename_i hNew
    rw [TSet.Contains_iff] at hNew
    rw [List.nodup_append]
    refine ⟨h, List.nodup_singleton _, ?_⟩
    intro a ha hb
    simp only [List.mem_singleton] at hb
    subst hb
    exact hNew ha

/-- Adding several elements keeps a set free of equal elements. -/
theorem AddAll_nodup (s : TSet) (Elements : List String) (h : (s.map FoldCase).Nodup) :
    ((AddAll s Elements).map FoldCase).Nodup := by
  induction Elements generalizing s with
  | nil => exact h
  | cons y Rest ih => exact ih (TSet.Add s y) (Add_nodup s y h)

/-- Every element of a set after `TSet::Add` was there or is the added one. -/
theorem mem_Add (s : TSet) (x y : String) (h : y ∈ TSet.Add s x) : y ∈ s ∨ y = x := by
  unfold TSet.Add at h
  split at h
  · simp only [List.mem_map] at h
    obtain ⟨z, hz, hy⟩ := h
    split at hy
    · exact Or.inr hy.symm
    · exact Or.inl (hy ▸ hz)
  · simpa using h

/-- Every element of a set after several additions was there or was added. -/
theorem mem_AddAll (s : TSet) (Elements : List String) (y : String)
    (h : y ∈ AddAll s Elements) : y ∈ s ∨ y ∈ Elements := by
  induction Elements generalizing s with
  | nil => exact Or.inl h
  | cons x Rest ih =>
    rcases ih (TSet.Add s x) h with h1 | h1
    · rcases mem_Add s x y h1 with h2 | h2
      · exact Or.inl h2
      · exact Or.inr (h2 ▸ List.mem_cons_self _ _)
    · exact Or.inr (List.mem_cons_of_mem _ h1)

/-- In a set, exactly one element equals a given member. -/
theorem filter_length_eq_one (s : TSet) (x : String) (hNodup : (s.map FoldCase).Nodup)
    (hMem : TSet.Contains s x = true) :
    (s.filter (fun y => FStringEquals y x)).length = 1 := by
  apply Nat.le_antisymm
  · apply filter_length_le_one (fun y => y) s x
    rw [List.Nodup, List.pairwise_map] at hNodup
    refine hNodup.imp ?_
    intro a b hab
    cases hEq : FStringEquals a b with
    | false => rfl
    | true => exact absurd ((FStringEquals_iff a b).1 hEq) hab
  · simp only [TSet.Contains, List.any_eq_true] at hMem
    obtain ⟨y, hy, hyx⟩ := hMem
    have : y ∈ s.filter (fun y => FStringEquals y x) := List.mem_filter.2 ⟨hy, hyx⟩
    exact List.length_pos_of_mem this

/-- The project module names are the names of the project modules that no
manifest plugin owns. -/
theorem Contains_ProjectModuleNames (Owners : TMap String) (Modules : List FModuleDescriptor)
    (Names : TSet) (x : String) :
    TSet.Contains (Modules.foldl (fun Names ModuleDescriptor =>
        if !TMap.Contains Owners ModuleDescriptor.Name then
          TSet.Add Names ModuleDescriptor.Name
        else Names) Names) x = true
      ↔ TSet.Contains Names x = true
        ∨ ∃ d ∈ Modules, FStringEquals d.Name x = true ∧ TMap.Contains Owners d.Name = false := by
  induction Modules generalizing Names with
  | nil => simp
  | cons d Rest ih =>
    rw [List.foldl_cons, ih]
    by_cases hOwned : TMap.Contains Owners d.Name = true
    · simp [hOwned]
    · simp only [Bool.not_eq_true] at hOwned
      simp only [hOwned, Bool.not_false, if_true, TSet.Contains_Add, Bool.or_eq_true,
        List.mem_cons, exists_eq_or_imp, and_true]
      tauto

/-- A module that no manifest plugin owns is among the project module names
exactly when the project descriptor declares it. -/
theorem ProjectModuleNames_iff {σ : Type} (E : Engine σ) (FS : FFileSystem)
    (Params : FCommandletRunParams) (x : String)
    (hUnowned : TMap.Find (MakeRunContext E FS Params).ModuleNameToOwnerPluginName x = none) :
    TSet.Contains (MakeRunContext E FS Params).ProjectModuleNames x = true
      ↔ ∃ d ∈ Params.ProjectFile.Modules, FStringEquals d.Name x = true := by
  rw [TMap.Find_eq_none] at hUnowned
  have h := Contains_ProjectModuleNames
    (MakeRunContext E FS Params).ModuleNameToOwnerPluginName Params.ProjectFile.Modules [] x
  have hCtx : (MakeRunContext E FS Params).ProjectModuleNames
      = CollectProjectModuleNames (MakeRunContext E FS Params).ModuleNameToOwnerPluginName
          Params.ProjectFile.Modules := rfl
  rw [hCtx, CollectProjectModuleNames, h]
  constructor
  · rintro (h1 | ⟨d, hd, hEq, _⟩)
    · simp [TSet.Contains] at h1
    · exact ⟨d, hd, hEq⟩
  · rintro ⟨d, hd, hEq⟩
    refine Or.inr ⟨d, hd, hEq, ?_⟩
    rw [TMap.MapContains_congr _ hEq]
    exact hUnowned

/-- A loose module is owned by no manifest plugin. -/
theorem IsLoose_unowned {σ : Type} (E : Engine σ) (Ctx : FRunContext) (x : String)
    (h : IsLoose E Ctx x = true) : TMap.Find Ctx.ModuleNameToOwnerPluginName x = none := by
  cases hOwner : TMap.Find Ctx.ModuleNameToOwnerPluginName x with
  | none => rfl
  | some Owner =>
    exfalso
    unfold IsLoose ClassifyModule at h
    rw [hOwner] at h
    simp only at h
    by_cases hBase : TMap.Contains Ctx.EnginePlugins Owner = true
    · simp [hBase] at h
    · cases hDest : TMap.Find Ctx.GameImpliedPluginFileLocations Owner <;>
        simp [hBase, hDest] at h

/-- C10. Forced addition of undeclared loose modules: when `MainInternal`
returns, a dump directory whose module is owned by no manifest plugin, is not
a base module and is not declared by the project descriptor is classified
Loose, and the saved project descriptor lists the retained original entries
followed by one entry with host type Runtime and loading phase Default per
forced module; exactly one entry of the list has the name of that module and
it is not among the retained ones; every forced module is classified Loose and
is not declared by the project descriptor. -/
theorem forced_loose_modules {σ : Type} (E : Engine σ) (FS : FFileSystem)
    (Params : FCommandletRunParams) (Registry : σ)
    (hRun : (MainInternal E FS Params Registry).2 = .ok 0)
    (Filename : String) (Children : List FFileSystemEntry)
    (hEntry : FFileSystemEntry.Directory Filename Children ∈ FS.HeaderRoot)
    (hUnowned : TMap.Find (MakeRunContext E FS Params).ModuleNameToOwnerPluginName
      (E.GetCleanFilename Filename) = none)
    (hNotBase : TSet.Contains (MakeRunContext E FS Params).EngineModules
      (E.GetCleanFilename Filename) = false)
    (hUndeclared : ∀ d ∈ Params.ProjectFile.Modules,
      FStringEquals d.Name (E.GetCleanFilename Filename) = false) :
    ClassifyModule E (MakeRunContext E FS Params) (E.GetCleanFilename Filename)
      = .Loose (PathAppend (PathAppend Params.OutputDirectory "Source")
          (E.GetCleanFilename Filename))
    ∧ ∃ Path Retained Forced Plugins,
      (MainInternal E FS Params Registry).1.SavedProjectDescriptor
        = some (Path,
            { Modules := Retained ++ Forced.map (fun Name =>
                FModuleDescriptor.mk Name EHostType.Runtime ELoadingPhase.Default)
              Plugins := Plugins })
      ∧ Retained = Params.ProjectFile.Modules.filter (fun d =>
          !RemoveModulePredicate (MakeRunContext E FS Params).EngineModules
            (MainInternal E FS Params Registry).1.AllGameModulesProcessed d)
      ∧ Forced = (MainInternal E FS Params Registry).1.EngineModulesForcedToBeGameModules
      ∧ (∀ d ∈ Retained, FStringEquals d.Name (E.GetCleanFilename Filename) = false)
      ∧ ((Retained ++ Forced.map (fun Name =>
            FModuleDescriptor.mk Name EHostType.Runtime ELoadingPhase.Default)).filter
          (fun d => FStringEquals d.Name (E.GetCleanFilename Filename))).length = 1
      ∧ ∀ Name ∈ Forced,
          IsLoose E (MakeRunContext E FS Params) Name = true
            ∧ ∀ d ∈ Params.ProjectFile.Modules, FStringEquals d.Name Name = false := by
  have hDir : (MakeRunContext E FS Params).ProjectSourceDir
      = PathAppend Params.OutputDirectory "Source" := rfl
  have hClass : ClassifyModule E (MakeRunContext E FS Params) (E.GetCleanFilename Filename)
      = .Loose (PathAppend (PathAppend Params.OutputDirectory "Source")
          (E.GetCleanFilename Filename)) := by
    simp [ClassifyModule, hUnowned, hNotBase, hDir]
  refine ⟨hClass, ?_⟩
  obtain ⟨st2, h2, hF⟩ := MainInternal_Bookkeeping E FS Params Registry 0 hRun
  simp only [Bookkeeping, Prod.mk.injEq] at h2 hF
  obtain ⟨a1, a2, a3, a4, a5, a6⟩ := h2
  obtain ⟨b1, b2, b3, b4, b5, b6⟩ := hF
  have hLoose : IsLoose E (MakeRunContext E FS Params) (E.GetCleanFilename Filename) = true := by
    simp [IsLoose, hClass]
  have hNotNamed : TSet.Contains (MakeRunContext E FS Params).ProjectModuleNames
      (E.GetCleanFilename Filename) = false := by
    cases hC : TSet.Contains (MakeRunContext E FS Params).ProjectModuleNames
        (E.GetCleanFilename Filename) with
    | false => rfl
    | true =>
      obtain ⟨d, hd, hEq⟩ := (ProjectModuleNames_iff E FS Params _ hUnowned).1 hC
      rw [hUndeclared d hd] at hEq
      cases hEq
  have hForcedMem : TSet.Contains st2.EngineModulesForcedToBeGameModules
      (E.GetCleanFilename Filename) = true := by
    rw [a3, Contains_AddAll]
    simp only [TSet.Contains, List.any_nil, Bool.false_or, List.any_eq_true, List.mem_filter,
      DumpModuleNames, List.mem_filterMap]
    refine ⟨_, ⟨⟨_, hEntry, rfl⟩, ?_⟩, FStringEquals_refl _⟩
    simp [IsForced, hLoose, hNotNamed]
  have hNodup : (st2.EngineModulesForcedToBeGameModules.map FoldCase).Nodup := by
    rw [a3]
    exact AddAll_nodup [] _ List.nodup_nil
  have hRetained : ∀ d ∈ Params.ProjectFile.Modules.filter (fun d =>
      !RemoveModulePredicate (MakeRunContext E FS Params).EngineModules
        st2.AllGameModulesProcessed d),
      FStringEquals d.Name (E.GetCleanFilename Filename) = false := by
    intro d hd
    exact hUndeclared d (List.mem_filter.1 hd).1
  refine ⟨PathAppend Params.OutputDirectory Params.ProjectName ++ ".uproject",
    Params.ProjectFile.Modules.filter (fun d =>
      !RemoveModulePredicate (MakeRunContext E FS Params).EngineModules
        st2.AllGameModulesProcessed d),
    st2.EngineModulesForcedToBeGameModules,
    (SanitizeProjectDescriptor (MakeRunContext E FS Params) st2 Params.ProjectFile).Plugins,
    ?_, ?_, b3.symm, ?_, ?_, ?_⟩
  · rw [b6]
    rfl
  · rw [b1]
  · exact hRetained
  · rw [List.filter_append, List.length_append, List.filter_map, List.length_map]
    have h0 : (Params.ProjectFile.Modules.filter (fun d =>
        !RemoveModulePredicate (MakeRunContext E FS Params).EngineModules
          st2.AllGameModulesProcessed d)).filter
        (fun d => FStringEquals d.Name (E.GetCleanFilename Filename)) = [] := by
      rw [List.filter_eq_nil_iff]
      intro d hd
      rw [hRetained d hd]
      simp
    rw [h0]
    simpa using filter_length_eq_one _ _ hNodup hForcedMem
  · intro Name hName
    rw [a3] at hName
    rcases mem_AddAll [] _ Name hName with h | h
    · cases h
    · have hForced := (List.mem_filter.1 h).2
      simp only [IsForced, Bool.and_eq_true, Bool.not_eq_true'] at hForced
      refine ⟨hForced.1, ?_⟩
      intro d hd
      cases hEq : FStringEquals d.Name Name with
      | false => rfl
      | true =>
        have := (ProjectModuleNames_iff E FS Params Name
          (IsLoose_unowned E _ Name hForced.1)).2 ⟨d, hd, hEq⟩
        rw [hForced.2] at this
        cases this

/-- Witness of C10: the undeclared module `Foo` of the example dump. -/
theorem forced_loose_modules_witness :
    ClassifyModule ExampleEngine ExampleContext (ExampleEngine.GetCleanFilename "Dump/Foo")
      = .Loose (PathAppend (PathAppend "Out" "Source")
          (ExampleEngine.GetCleanFilename "Dump/Foo")) :=
  (forced_loose_modules ExampleEngine (ExampleFileSystem ExampleDump)
    (ExampleParams ExampleManifest ExampleProject) [] (by rfl) "Dump/Foo" []
    (List.Mem.tail _ (List.Mem.tail _ (List.Mem.tail _ (List.Mem.tail _ (List.Mem.tail _
      (List.Mem.head _))))))
    (by decide) (by decide) (by decide)).1

/-! ## Independence of the traversal order -/

/-- Sets built from the same elements in two orders have the same members. -/
theorem Contains_AddAll_perm (l1 l2 : List String) (h : l1.Perm l2) (x : String) :
    TSet.Contains (AddAll [] l1) x = TSet.Contains (AddAll [] l2) x := by
  rw [Contains_AddAll, Contains_AddAll, Bool.eq_iff_iff]
  simp only [Bool.or_eq_true, List.any_eq_true]
  constructor
  · rintro (h1 | ⟨y, hy, hyx⟩)
    · exact Or.inl h1
    · exact Or.inr ⟨y, h.mem_iff.1 hy, hyx⟩
  · rintro (h1 | ⟨y, hy, hyx⟩)
    · exact Or.inl h1
    · exact Or.inr ⟨y, h.mem_iff.2 hy, hyx⟩

/-- Sets built from the same elements in two orders hold the same elements up
to order and letter case. -/
theorem AddAll_perm (l1 l2 : List String) (h : l1.Perm l2) :
    ((AddAll [] l1).map FoldCase).Perm ((AddAll [] l2).map FoldCase) := by
  rw [List.perm_ext_iff_of_nodup (AddAll_nodup [] l1 List.nodup_nil)
    (AddAll_nodup [] l2 List.nodup_nil)]
  intro z
  simp only [List.mem_map]
  constructor
  · rintro ⟨y, hy, hz⟩
    have hC : TSet.Contains (AddAll [] l1) y = true := by
      simp only [TSet.Contains, List.any_eq_true]
      exact ⟨y, hy, FStringEquals_refl y⟩
    rw [Contains_AddAll_perm l1 l2 h, TSet.Contains_iff, List.mem_map] at hC
    obtain ⟨w, hw, hwy⟩ := hC
    exact ⟨w, hw, hwy.trans hz⟩
  · rintro ⟨y, hy, hz⟩
    have hC : TSet.Contains (AddAll [] l2) y = true := by
      simp only [TSet.Contains, List.any_eq_true]
      exact ⟨y, hy, FStringEquals_refl y⟩
    rw [← Contains_AddAll_perm l1 l2 h, TSet.Contains_iff, List.mem_map] at hC
    obtain ⟨w, hw, hwy⟩ := hC
    exact ⟨w, hw, hwy.trans hz⟩

/-- The module filter of the sanitisers only depends on the members of the processed set. -/
theorem RemoveModulePredicate_congr (EngineModules P1 P2 : TSet)
    (h : ∀ x, TSet.Contains P1 x = TSet.Contains P2 x) :
    RemoveModulePredicate EngineModules P1 = RemoveModulePredicate EngineModules P2 := by
  funext d
  simp only [RemoveModulePredicate, h]

/-- The run context does not depend on the dump. -/
theorem MakeRunContext_congr {σ : Type} (E : Engine σ) (FS1 FS2 : FFileSystem)
    (Params : FCommandletRunParams) (hPlugins : FS2.EnginePluginsDir = FS1.EnginePluginsDir)
    (hSource : FS2.EngineSourceDir = FS1.EngineSourceDir) :
    MakeRunContext E FS2 Params = MakeRunContext E FS1 Params := by
  simp only [MakeRunContext, hPlugins, hSource]

/-- C9 (amended). Traversal-order independence: for two enumeration orders of
the same dump entries, with the same manifest, project descriptor and base
inventory, every module has the same classification; when both runs return
they save the same plugin descriptors, and their project descriptors have the
same path, the same plugin list and the same retained module entries, followed
by forced entries for the same module names, which may come in a different
order. -/
theorem traversal_order_independence {σ : Type} (E : Engine σ) (FS1 FS2 : FFileSystem)
    (Params : FCommandletRunParams) (Registry : σ)
    (hPlugins : FS2.EnginePluginsDir = FS1.EnginePluginsDir)
    (hSource : FS2.EngineSourceDir = FS1.EngineSourceDir)
    (hPerm : FS2.HeaderRoot.Perm FS1.HeaderRoot)
    (hRun1 : (MainInternal E FS1 Params Registry).2 = .ok 0)
    (hRun2 : (MainInternal E FS2 Params Registry).2 = .ok 0) :
    (∀ ModuleName, ClassifyModule E (MakeRunContext E FS2 Params) ModuleName
        = ClassifyModule E (MakeRunContext E FS1 Params) ModuleName)
    ∧ (MainInternal E FS2 Params Registry).1.SavedPluginDescriptors
        = (MainInternal E FS1 Params Registry).1.SavedPluginDescriptors
    ∧ ∃ Path Retained Plugins,
        (MainInternal E FS1 Params Registry).1.SavedProjectDescriptor
          = some (Path,
              { Modules := Retained ++
                  (MainInternal E FS1 Params Registry).1.EngineModulesForcedToBeGameModules.map
                    ForcedModuleDescriptor
                Plugins := Plugins })
        ∧ (MainInternal E FS2 Params Registry).1.SavedProjectDescriptor
          = some (Path,
              { Modules := Retained ++
                  (MainInternal E FS2 Params Registry).1.EngineModulesForcedToBeGameModules.map
                    ForcedModuleDescriptor
                Plugins := Plugins })
        ∧ ((MainInternal E FS2 Params Registry).1.EngineModulesForcedToBeGameModules.map
              FoldCase).Perm
            ((MainInternal E FS1 Params Registry).1.EngineModulesForcedToBeGameModules.map
              FoldCase) := by
  have hCtx := MakeRunContext_congr E FS1 FS2 Params hPlugins hSource
  obtain ⟨s1, h1, hF1⟩ := MainInternal_Bookkeeping E FS1 Params Registry 0 hRun1
  obtain ⟨s2, h2, hF2⟩ := MainInternal_Bookkeeping E FS2 Params Registry 0 hRun2
  rw [hCtx] at h2 hF2
  simp only [Bookkeeping, Prod.mk.injEq] at h1 h2 hF1 hF2
  obtain ⟨a1, a2, a3, a4, a5, a6⟩ := h1
  obtain ⟨c1, c2, c3, c4, c5, c6⟩ := h2
  obtain ⟨b1, b2, b3, b4, b5, b6⟩ := hF1
  obtain ⟨d1, d2, d3, d4, d5, d6⟩ := hF2
  have hNames : (DumpModuleNames E FS2.HeaderRoot).Perm (DumpModuleNames E FS1.HeaderRoot) :=
    hPerm.filterMap _
  have hProcessed : ∀ x, TSet.Contains s2.AllGameModulesProcessed x
      = TSet.Contains s1.AllGameModulesProcessed x := by
    intro x
    rw [a1, c1]
    exact Contains_AddAll_perm _ _ (hNames.filter _) x
  have hRemove := RemoveModulePredicate_congr (MakeRunContext E FS1 Params).EngineModules
    s2.AllGameModulesProcessed s1.AllGameModulesProcessed hProcessed
  refine ⟨fun ModuleName => by rw [hCtx], ?_, ?_⟩
  · rw [b5, d5, a5, c5, ← a1, ← c1]
    apply List.filterMap_congr
    intro Entry _
    simp only [SavedPluginDescriptor, NewPluginDescriptor, hRemove]
  · refine ⟨PathAppend Params.OutputDirectory Params.ProjectName ++ ".uproject",
      Params.ProjectFile.Modules.filter (fun d =>
        !RemoveModulePredicate (MakeRunContext E FS1 Params).EngineModules
          s1.AllGameModulesProcessed d),
      (SanitizeProjectDescriptor (MakeRunContext E FS1 Params) s1 Params.ProjectFile).Plugins,
      ?_, ?_, ?_⟩
    · rw [b6, b3]
      rfl
    · rw [d6, d3]
      simp only [SanitizeProjectDescriptor, hRemove, c4, a4]
    · rw [b3, d3, a3, c3]
      exact AddAll_perm _ _ (hNames.filter _)

/-- Witness of C9: the example dump visited in its order and in the reverse order. -/
theorem traversal_order_independence_witness :
    (MainInternal ExampleEngine (ExampleFileSystem ExampleDump.reverse)
        (ExampleParams ExampleManifest ExampleProject) []).1.SavedPluginDescriptors
      = (MainInternal ExampleEngine (ExampleFileSystem ExampleDump)
        (ExampleParams ExampleManifest ExampleProject) []).1.SavedPluginDescriptors :=
  (traversal_order_independence ExampleEngine (ExampleFileSystem ExampleDump)
    (ExampleFileSystem ExampleDump.reverse) (ExampleParams ExampleManifest ExampleProject) []
    rfl rfl (List.reverse_perm ExampleDump) (by rfl) (by rfl)).2.1

/-- Counterexample to C9 as stated: the example dump visited in its order and
in the reverse order; both runs return, and the saved project descriptors
differ, the forced entries being `Foo`, `Zed` in one and `Zed`, `Foo` in the
other. -/
theorem traversal_order_independence_counterexample :
    (ExampleFileSystem ExampleDump.reverse).HeaderRoot.Perm
        (ExampleFileSystem ExampleDump).HeaderRoot
    ∧ (MainInternal ExampleEngine (ExampleFileSystem ExampleDump)
        (ExampleParams ExampleManifest ExampleProject) []).2 = .ok 0
    ∧ (MainInternal ExampleEngine (ExampleFileSystem ExampleDump.reverse)
        (ExampleParams ExampleManifest ExampleProject) []).2 = .ok 0
    ∧ ((MainInternal ExampleEngine (ExampleFileSystem ExampleDump)
        (ExampleParams ExampleManifest ExampleProject) []).1.SavedProjectDescriptor.map
          (fun Saved => Saved.2.Modules.map (fun d => d.Name)))
        = some ["Game", "Engine", "Foo", "Zed"]
    ∧ ((MainInternal ExampleEngine (ExampleFileSystem ExampleDump.reverse)
        (ExampleParams ExampleManifest ExampleProject) []).1.SavedProjectDescriptor.map
          (fun Saved => Saved.2.Modules.map (fun d => d.Name)))
        = some ["Game", "Engine", "Zed", "Foo"]
    ∧ (MainInternal ExampleEngine (ExampleFileSystem ExampleDump)
        (ExampleParams ExampleManifest ExampleProject) []).1.SavedProjectDescriptor
      ≠ (MainInternal ExampleEngine (ExampleFileSystem ExampleDump.reverse)
        (ExampleParams ExampleManifest ExampleProject) []).1.SavedProjectDescriptor :=
  ⟨List.reverse_perm ExampleDump, by rfl, by rfl, by decide, by decide, by decide⟩

/-- The load trace of a run whose two source files both name the module
`Engine`: one `LoadModule` call, made with nothing loaded; both files are
rewritten and the third file is copied. -/
theorem load_at_most_once_example :
    (MainInternal ExampleEngine ExampleDumpTwoFiles (ExampleParams [] ExampleProjectFile)
        []).1.Resolver.LoadModuleCalls = [("Engine", [])]
    ∧ (MainInternal ExampleEngine ExampleDumpTwoFiles (ExampleParams [] ExampleProjectFile)
        []).1.FileOperations
      = [FFileOperation.CreateDirectoryTree "Out/Source/Game",
          FFileOperation.SaveStringArrayToFile
            ["#pragma once", "#include \"GameFramework/Actor.h\""] "Out/Source/Game/Pawn.h",
          FFileOperation.CreateDirectoryTree "Out/Source/Game",
          FFileOperation.SaveStringArrayToFile
            ["#include \"GameFramework/Actor.h\"", "// end"] "Out/Source/Game/Pawn.cpp",
          FFileOperation.CreateDirectoryTree "Out/Source/Game",
          FFileOperation.CopyFile "Out/Source/Game/Game.Build.cs" "Dump/Game/Game.Build.cs"] := by
  constructor <;> decide

/-! ## Lines of a rewritten file -/

/-- A line that `StartsWith` does not recognise as a directive is left as it is. -/
theorem HandleHeaderString_not_directive {σ : Type} (E : Engine σ) (EngineModules : TSet)
    (st : FResolverState σ) (HeaderString : String)
    (h : StartsWith HeaderString CrossModuleIncludePrefix = false) :
    HandleHeaderString E EngineModules st HeaderString = (st, .ok HeaderString) := by
  unfold HandleHeaderString
  simp [h]

/-- The lines of a file the resolver returns correspond one to one to the lines
it was given: a line that is no directive is unchanged, any other line is
unchanged or an include directive. -/
theorem HandleModuleHeaderFile_lines {σ : Type} (E : Engine σ) (EngineModules : TSet)
    (st : FResolverState σ) (HeaderLines NewLines : List String)
    (h : (HandleModuleHeaderFile E EngineModules st HeaderLines).2 = .ok NewLines) :
    List.Forall₂ (fun HeaderString NewString =>
        (StartsWith HeaderString CrossModuleIncludePrefix = false → NewString = HeaderString)
        ∧ (NewString = HeaderString ∨ ∃ p, NewString = "#include \"" ++ p ++ "\""))
      HeaderLines NewLines := by
  induction HeaderLines generalizing st NewLines with
  | nil =>
    simp only [HandleModuleHeaderFile, Except.ok.injEq] at h
    subst h
    exact List.Forall₂.nil
  | cons HeaderString Rest ih =>
    unfold HandleModuleHeaderFile at h
    cases hL : HandleHeaderString E EngineModules st HeaderString with
    | mk st1 r =>
      rw [hL] at h
      cases r with
      | error e => simp at h
      | ok NewString =>
        simp only at h
        cases hR : HandleModuleHeaderFile E EngineModules st1 Rest with
        | mk st2 r2 =>
          rw [hR] at h
          cases r2 with
          | error e => simp at h
          | ok NewRest =>
            simp only [Except.ok.injEq] at h
            subst h
            have hLine : (HandleHeaderString E EngineModules st HeaderString).2
                = .ok NewString := by rw [hL]
            refine List.Forall₂.cons ⟨?_, ?_⟩ (ih st1 NewRest (by rw [hR]))
            · intro hNot
              rw [HandleHeaderString_not_directive E EngineModules st HeaderString hNot] at hL
              simp only [Prod.mk.injEq, Except.ok.injEq] at hL
              exact hL.2.symm
            · exact HandleHeaderString_shape E EngineModules st HeaderString NewString hLine

/-- C12 (amended). Line order and count preserved: whenever
`HandleModuleHeaderFile` returns, the sequence it returns has the length of the
input and corresponds to it index by index: a line that does not start with the
directive prefix, as `FString::StartsWith` tests it (ignoring ASCII letter
case), is unchanged, and any other line is unchanged or replaced as a whole by
`#include "..."`. It returns exactly when every symbol the registry finds while
the lines are resolved, in order and with modules loaded on demand, has an
include path; when one of them has none it stops at a failed `checkf` and
produces no sequence. -/
theorem line_order_and_count_preserved {σ : Type} (E : Engine σ) (EngineModules : TSet)
    (st : FResolverState σ) (HeaderLines : List String) :
    (∀ NewLines, (HandleModuleHeaderFile E EngineModules st HeaderLines).2 = .ok NewLines →
      NewLines.length = HeaderLines.length
      ∧ List.Forall₂ (fun HeaderString NewString =>
          (StartsWith HeaderString CrossModuleIncludePrefix = false → NewString = HeaderString)
          ∧ (NewString = HeaderString ∨ ∃ p, NewString = "#include \"" ++ p ++ "\""))
        HeaderLines NewLines)
    ∧ ((∃ NewLines, (HandleModuleHeaderFile E EngineModules st HeaderLines).2 = .ok NewLines)
        ↔ ∀ Object ∈ FoundObjects E EngineModules st HeaderLines, HasIncludePath Object = true)
    ∧ ((∃ Object ∈ FoundObjects E EngineModules st HeaderLines, HasIncludePath Object = false) →
        ∃ e, (HandleModuleHeaderFile E EngineModules st HeaderLines).2 = .error e) := by
  refine ⟨?_, HandleModuleHeaderFile_returns_iff E EngineModules st HeaderLines, ?_⟩
  · intro NewLines h
    have hAll := HandleModuleHeaderFile_lines E EngineModules st HeaderLines NewLines h
    exact ⟨hAll.length_eq.symm, hAll⟩
  · intro hObject
    obtain ⟨Object, hMem, hNone⟩ := hObject
    cases hR : (HandleModuleHeaderFile E EngineModules st HeaderLines).2 with
    | error e => exact ⟨e, rfl⟩
    | ok NewLines =>
      have hAll := (HandleModuleHeaderFile_returns_iff E EngineModules st HeaderLines).1
        ⟨NewLines, hR⟩ Object hMem
      rw [hNone] at hAll
      cases hAll

/-- Witness of C12: a file of three lines, of which the second is resolved and
the third is a malformed directive. -/
theorem line_order_and_count_preserved_witness :
    ["#pragma once", "#include \"GameFramework/Actor.h\"",
        "//CROSS-MODULE INCLUDE V2: ModuleName=Engine"].length
      = ["#pragma once", "//CROSS-MODULE INCLUDE V2: ModuleName=Engine ObjectName=Actor",
        "//CROSS-MODULE INCLUDE V2: ModuleName=Engine"].length
    ∧ List.Forall₂ (fun HeaderString NewString =>
        (StartsWith HeaderString CrossModuleIncludePrefix = false → NewString = HeaderString)
        ∧ (NewString = HeaderString ∨ ∃ p, NewString = "#include \"" ++ p ++ "\""))
      ["#pragma once", "//CROSS-MODULE INCLUDE V2: ModuleName=Engine ObjectName=Actor",
        "//CROSS-MODULE INCLUDE V2: ModuleName=Engine"]
      ["#pragma once", "#include \"GameFramework/Actor.h\"",
        "//CROSS-MODULE INCLUDE V2: ModuleName=Engine"] :=
  (line_order_and_count_preserved ExampleEngine ["Engine"] ExampleResolverState
    ["#pragma once", "//CROSS-MODULE INCLUDE V2: ModuleName=Engine ObjectName=Actor",
      "//CROSS-MODULE INCLUDE V2: ModuleName=Engine"]).1
    ["#pragma once", "#include \"GameFramework/Actor.h\"",
      "//CROSS-MODULE INCLUDE V2: ModuleName=Engine"] (by rfl)

/-- Counterexample to C12 as stated: a line written in lower case does not
start with the text `//CROSS-MODULE INCLUDE V2: `, yet `StartsWith` accepts it
and the line is replaced; and for a registry that finds the class `NoPath`,
which has no module-relative path, `HandleModuleHeaderFile` produces no
sequence at all. -/
theorem line_order_and_count_preserved_counterexample :
    (¬ CrossModuleIncludePrefix.data <+:
        ("//cross-module include v2: ModuleName=Game ObjectName=Pawn" : String).data)
    ∧ (HandleModuleHeaderFile ExampleEngine ["Engine"] ExampleResolverState
        ["//cross-module include v2: ModuleName=Game ObjectName=Pawn"]).2
      = .ok ["#include \"Pawn.h\""]
    ∧ (HandleModuleHeaderFile ExampleEngine ["Engine"] ExampleResolverState
        ["//CROSS-MODULE INCLUDE V2: ModuleName=Engine ObjectName=NoPath"]).2
      = .error "ModuleRelativePath metadata not found on object" :=
  ⟨by decide, by rfl, by rfl⟩

/-! ## Plugin dependencies without destination -/

/-- One manifest entry adds its plugin name to the keys of
`GameImpliedPluginFileLocations` only when its file lies under the project or
the engine plugin directory. -/
theorem CollectManifestEntry_located {σ : Type} (E : Engine σ) (Params : FCommandletRunParams)
    (Acc : TMap String × TMap String × TSet) (ManifestEntry : FPluginManifestEntry)
    (x : String)
    (h : TMap.Contains (CollectManifestEntry E Params Acc ManifestEntry).2.1 x = true) :
    TMap.Contains Acc.2.1 x = true
      ∨ (FStringEquals (E.GetBaseFilename ManifestEntry.File) x = true
        ∧ (StartsWith ManifestEntry.File ("../../../" ++ Params.ProjectName ++ "/Plugins/") = true
          ∨ StartsWith ManifestEntry.File "../../../Engine/Plugins/" = true)) := by
  unfold CollectManifestEntry at h
  simp only at h
  split at h
  · rename_i hProject
    simp only [TMap.MapContains_Add, Bool.or_eq_true] at h
    rcases h with h | h
    · exact Or.inl h
    · exact Or.inr ⟨h, Or.inl hProject⟩
  · split at h
    · rename_i hEngine
      simp only [TMap.MapContains_Add, Bool.or_eq_true] at h
      rcases h with h | h
      · exact Or.inl h
      · exact Or.inr ⟨h, Or.inr hEngine⟩
    · exact Or.inl h

/-- Every key of `GameImpliedPluginFileLocations` is the plugin name of a
manifest entry whose file lies under the project or the engine plugin directory. -/
theorem GameImplied_located {σ : Type} (E : Engine σ) (Params : FCommandletRunParams)
    (Manifest : List FPluginManifestEntry) (Acc : TMap String × TMap String × TSet)
    (x : String)
    (h : TMap.Contains (Manifest.foldl (CollectManifestEntry E Params) Acc).2.1 x = true) :
    TMap.Contains Acc.2.1 x = true
      ∨ ∃ Entry ∈ Manifest, FStringEquals (E.GetBaseFilename Entry.File) x = true
        ∧ (StartsWith Entry.File ("../../../" ++ Params.ProjectName ++ "/Plugins/") = true
          ∨ StartsWith Entry.File "../../../Engine/Plugins/" = true) := by
  induction Manifest generalizing Acc with
  | nil => exact Or.inl h
  | cons Entry Rest ih =>
    rw [List.foldl_cons] at h
    rcases ih _ h with h1 | ⟨e, he, h1⟩
    · rcases CollectManifestEntry_located E Params Acc Entry x h1 with h2 | h2
      · exact Or.inl h2
      · exact Or.inr ⟨Entry, List.mem_cons_self _ _, h2⟩
    · exact Or.inr ⟨e, List.mem_cons_of_mem _ he, h1⟩

/-- Visiting a dump entry saves no plugin descriptor, whether the visit
completes or stops at an assertion. -/
theorem ModuleDirIterator_Saved {σ : Type} (E : Engine σ) (Ctx : FRunContext)
    (st : FRunState σ) (Entry : FFileSystemEntry) :
    (ModuleDirIterator E Ctx st Entry).1.SavedPluginDescriptors = st.SavedPluginDescriptors := by
  cases Entry with
  | File Filename Lines => rfl
  | Directory Filename Children =>
    rw [ModuleDirIterator_eq]
    cases ClassifyModule E Ctx (E.GetCleanFilename Filename) with
    | Skip => rfl
    | PluginOwned Target =>
      have hB := CopyModuleFiles_Bookkeeping E Ctx.EngineModules Filename Target Children st
      cases hC : CopyModuleFiles E Ctx.EngineModules Filename Target Children st with
      | mk st1 r =>
        rw [hC] at hB
        simp only [Bookkeeping, Prod.mk.injEq] at hB
        cases r <;> simp only [MaterializeModule, hC] <;> exact hB.2.2.2.2.1
    | Loose Target =>
      have hB := CopyModuleFiles_Bookkeeping E Ctx.EngineModules Filename Target Children
        (MarkForced Ctx st (E.GetCleanFilename Filename))
      have hM : (MarkForced Ctx st (E.GetCleanFilename Filename)).SavedPluginDescriptors
          = st.SavedPluginDescriptors := by
        unfold MarkForced
        split <;> rfl
      cases hC : CopyModuleFiles E Ctx.EngineModules Filename Target Children
          (MarkForced Ctx st (E.GetCleanFilename Filename)) with
      | mk st1 r =>
        rw [hC] at hB
        simp only [Bookkeeping, Prod.mk.injEq] at hB
        cases r <;> simp only [MaterializeModule, hC] <;> exact hB.2.2.2.2.1.trans hM

/-- Every plugin reference of a saved plugin descriptor names a plugin with a
destination or a base plugin, in every state the plugin descriptor loop reaches. -/
theorem SanitizePluginDescriptor_references {σ : Type} (E : Engine σ) (Ctx : FRunContext)
    (st : FRunState σ) (ManifestEntry : FPluginManifestEntry)
    (h : ∀ Saved ∈ st.SavedPluginDescriptors, ∀ q ∈ Saved.2.Plugins,
      TMap.Contains Ctx.GameImpliedPluginFileLocations q.Name = true
        ∨ TMap.Contains Ctx.EnginePlugins q.Name = true) :
    ∀ Saved ∈ (SanitizePluginDescriptor E Ctx st ManifestEntry).1.SavedPluginDescriptors,
      ∀ q ∈ Saved.2.Plugins,
        TMap.Contains Ctx.GameImpliedPluginFileLocations q.Name = true
          ∨ TMap.Contains Ctx.EnginePlugins q.Name = true := by
  unfold SanitizePluginDescriptor
  simp only
  split
  · exact h
  · split
    · exact h
    · split
      · intro Saved hSaved q hq
        simp only [List.mem_append, List.mem_singleton] at hSaved
        rcases hSaved with hSaved | hSaved
        · exact h Saved hSaved q hq
        · subst hSaved
          simp only [NewPluginDescriptor, List.mem_filter, Bool.not_and, Bool.not_not,
            Bool.or_eq_true] at hq
          exact hq.2
      · exact h

/-- Every plugin reference of a plugin descriptor saved by `MainInternal` names
a plugin with a destination or a base plugin, whether the run returns or stops
at an assertion. -/
theorem MainInternal_references {σ : Type} (E : Engine σ) (FS : FFileSystem)
    (Params : FCommandletRunParams) (Registry : σ) :
    ∀ Saved ∈ (MainInternal E FS Params Registry).1.SavedPluginDescriptors,
      ∀ q ∈ Saved.2.Plugins,
        TMap.Contains (MakeRunContext E FS Params).GameImpliedPluginFileLocations q.Name = true
          ∨ TMap.Contains (MakeRunContext E FS Params).EnginePlugins q.Name = true := by
  have h1 := IterateDirectory_invariant (ModuleDirIterator E (MakeRunContext E FS Params))
    (fun s => s.SavedPluginDescriptors = [])
    (fun s Entry hs => by
      show (ModuleDirIterator E (MakeRunContext E FS Params) s Entry).1.SavedPluginDescriptors
        = []
      rw [ModuleDirIterator_Saved]
      exact hs) (InitialRunState Registry) FS.HeaderRoot rfl
  unfold MainInternal
  simp only
  cases hI : IterateDirectory (ModuleDirIterator E (MakeRunContext E FS Params))
      (InitialRunState Registry) FS.HeaderRoot with
  | mk st1 r1 =>
    rw [hI] at h1
    simp only at h1
    cases r1 with
    | error e =>
      simp only [h1]
      intro Saved hSaved
      cases hSaved
    | ok u =>
      simp only
      have h2 := IterateDirectory_invariant
        (SanitizePluginDescriptor E (MakeRunContext E FS Params))
        (fun s => ∀ Saved ∈ s.SavedPluginDescriptors, ∀ q ∈ Saved.2.Plugins,
          TMap.Contains (MakeRunContext E FS Params).GameImpliedPluginFileLocations q.Name = true
            ∨ TMap.Contains (MakeRunContext E FS Params).EnginePlugins q.Name = true)
        (fun s Entry hs =>
          SanitizePluginDescriptor_references E (MakeRunContext E FS Params) s Entry hs) st1
        Params.PluginManifest (by
          intro Saved hSaved
          rw [h1] at hSaved
          cases hSaved)
      cases hS : IterateDirectory (SanitizePluginDescriptor E (MakeRunContext E FS Params)) st1
          Params.PluginManifest with
      | mk st2 r2 =>
        rw [hS] at h2
        cases r2 with
        | error e => exact h2
        | ok u2 =>
          simp only
          split <;> exact h2

/-- C11 (amended). Scenario C: no plugin descriptor saved by the run, whether
the run returns or stops later, has a plugin-dependency entry naming a plugin
that has no resolvable destination (no manifest entry of that name lies under
the project or the engine plugin directory) and is not a base plugin. -/
theorem dropped_plugin_dependency {σ : Type} (E : Engine σ) (FS : FFileSystem)
    (Params : FCommandletRunParams) (Registry : σ) (Saved : String × FPluginDescriptor)
    (PluginName : String)
    (hSaved : Saved ∈ (MainInternal E FS Params Registry).1.SavedPluginDescriptors)
    (hNoDestination : ∀ Entry ∈ Params.PluginManifest,
      FStringEquals (E.GetBaseFilename Entry.File) PluginName = true →
        StartsWith Entry.File ("../../../" ++ Params.ProjectName ++ "/Plugins/") = false
          ∧ StartsWith Entry.File "../../../Engine/Plugins/" = false)
    (hNotBase : TMap.Contains (MakeRunContext E FS Params).EnginePlugins PluginName = false) :
    TMap.Contains (MakeRunContext E FS Params).GameImpliedPluginFileLocations PluginName = false
    ∧ ∀ q ∈ Saved.2.Plugins, FStringEquals q.Name PluginName = false := by
  have hNone : TMap.Contains (MakeRunContext E FS Params).GameImpliedPluginFileLocations
      PluginName = false := by
    cases hC : TMap.Contains (MakeRunContext E FS Params).GameImpliedPluginFileLocations
        PluginName with
    | false => rfl
    | true =>
      rcases GameImplied_located E Params Params.PluginManifest ([], [], []) PluginName hC
        with h | ⟨Entry, hEntry, hName, hLocated⟩
      · simp [TMap.Contains] at h
      · have := hNoDestination Entry hEntry hName
        rw [this.1, this.2] at hLocated
        simp at hLocated
  refine ⟨hNone, ?_⟩
  intro q hq
  cases hEq : FStringEquals q.Name PluginName with
  | false => rfl
  | true =>
    have := MainInternal_references E FS Params Registry Saved hSaved q hq
    rw [TMap.MapContains_congr _ hEq, TMap.MapContains_congr _ hEq, hNone, hNotBase] at this
    simp at this

/-- Witness of C11: in the example run the descriptor saved for `Q` has lost
the dependency on `R`, whose manifest entry lies outside the project and engine
plugin directories. -/
theorem dropped_plugin_dependency_witness :
    TMap.Contains ExampleContext.GameImpliedPluginFileLocations "R" = false
    ∧ ∀ q ∈ [(⟨"P", []⟩ : FPluginReferenceDescriptor)], FStringEquals q.Name "R" = false :=
  dropped_plugin_dependency ExampleEngine (ExampleFileSystem ExampleDump)
    (ExampleParams ExampleManifest ExampleProject) []
    ("Out/Plugins/Q/Q.uplugin",
      { Modules := [⟨"Qm", EHostType.Runtime, ELoadingPhase.Default⟩], Plugins := [⟨"P", []⟩] })
    "R" (by decide) (by decide) (by decide)

/-- Counterexample to C11 as stated: the plugin `Q` is materialised and depends
on `P`; no manifest entry named `P` lies under the project or engine plugin
directories, so `P` has no resolvable destination, yet the descriptor saved for
`Q` keeps the dependency, because `P` is a base plugin. -/
theorem dropped_plugin_dependency_counterexample :
    (∀ Entry ∈ ExampleManifestBaseDependency,
      FStringEquals (ExampleEngine.GetBaseFilename Entry.File) "P" = true →
        StartsWith Entry.File "../../../Proj/Plugins/" = false
          ∧ StartsWith Entry.File "../../../Engine/Plugins/" = false)
    ∧ TMap.Contains (MakeRunContext ExampleEngine (ExampleFileSystem ExampleDump)
        (ExampleParams ExampleManifestBaseDependency ExampleProject)).GameImpliedPluginFileLocations
        "P" = false
    ∧ (MainInternal ExampleEngine (ExampleFileSystem ExampleDump)
        (ExampleParams ExampleManifestBaseDependency ExampleProject) []).1.SavedPluginDescriptors
      = [("Out/Plugins/Q/Q.uplugin", { Modules := [], Plugins := [⟨"P", []⟩] })] := by
  refine ⟨by decide, by decide, by decide⟩

/-! ## Module discovery -/

/-- The top of a tree path is its first ancestor, or the entry itself. -/
theorem TreePath_top (Top D : FFileSystemEntry) (Ancestors : List FFileSystemEntry)
    (h : TreePath Top Ancestors D) : (Ancestors ++ [D]).head? = some Top := by
  cases h with
  | top => rfl
  | down Filename Children Child Rest D hChild hPath => rfl

/-- The build files of one directory: afterwards the set holds what it held
and the module names of the build files of the directory, and the count is
zero exactly when it was zero and the directory has no build file. -/
theorem DiscoverModulesInDirectory_spec {σ : Type} (E : Engine σ)
    (Children : List FFileSystemEntry) (Out : TSet) (Count : Nat) (x : String) :
    (TSet.Contains (DiscoverModulesInDirectory E Children (Out, Count)).1 x = true
      ↔ TSet.Contains Out x = true
        ∨ ∃ BuildFile Lines, FFileSystemEntry.File BuildFile Lines ∈ Children
          ∧ EndsWith BuildFile ".Build.cs" = true
          ∧ FStringEquals (ModuleNameOfBuildFile E BuildFile) x = true)
    ∧ ((DiscoverModulesInDirectory E Children (Out, Count)).2 = 0
      ↔ Count = 0 ∧ Children.any IsBuildFile = false) := by
  induction Children generalizing Out Count with
  | nil => simp [DiscoverModulesInDirectory]
  | cons Entry Rest ih =>
    cases Entry with
    | Directory Filename Sub =>
      simp only [DiscoverModulesInDirectory, List.any_cons, IsBuildFile, Bool.false_or,
        List.mem_cons, reduceCtorEq, false_or]
      exact ih Out Count
    | File Filename Lines =>
      simp only [DiscoverModulesInDirectory, List.any_cons, IsBuildFile]
      by_cases hB : EndsWith Filename ".Build.cs" = true
      · simp only [hB, if_true, Bool.true_or]
        obtain ⟨h1, h2⟩ := ih (TSet.Add Out (MidCount (E.GetBaseFilename Filename) 0
          (Len (E.GetBaseFilename Filename) - 6))) (Count + 1)
        refine ⟨?_, ?_⟩
        · rw [h1, TSet.Contains_Add]
          simp only [Bool.or_eq_true, List.mem_cons, FFileSystemEntry.File.injEq]
          constructor
          · rintro ((h | h) | ⟨f, l, hf, he, hn⟩)
            · exact Or.inl h
            · exact Or.inr ⟨Filename, Lines, Or.inl ⟨rfl, rfl⟩, hB, h⟩
            · exact Or.inr ⟨f, l, Or.inr hf, he, hn⟩
          · rintro (h | ⟨f, l, (⟨hf1, hf2⟩ | hf), he, hn⟩)
            · exact Or.inl (Or.inl h)
            · subst hf1
              exact Or.inl (Or.inr hn)
            · exact Or.inr ⟨f, l, hf, he, hn⟩
        · rw [h2]
          simp
      · simp only [Bool.not_eq_true] at hB
        simp only [hB, Bool.false_or]
        obtain ⟨h1, h2⟩ := ih Out Count
        refine ⟨?_, by simpa using h2⟩
        simp only [Bool.false_eq_true, if_false]
        rw [h1]
        simp only [List.mem_cons, FFileSystemEntry.File.injEq]
        constructor
        · rintro (h | ⟨f, l, hf, he, hn⟩)
          · exact Or.inl h
          · exact Or.inr ⟨f, l, Or.inr hf, he, hn⟩
        · rintro (h | ⟨f, l, (⟨hf1, hf2⟩ | hf), he, hn⟩)
          · exact Or.inl h
          · subst hf1
            rw [hB] at he
            cases he
          · exact Or.inr ⟨f, l, hf, he, hn⟩

/-- Nothing is discoverable in a tree whose top is taken for `Saved` or `Intermediate`. -/
theorem IsDiscoverableModule_transient {σ : Type} (E : Engine σ) (Top : FFileSystemEntry)
    (x : String) (hTransient : IsTransientDirectory E Top = true) :
    ¬ IsDiscoverableModule E Top x := by
  rintro ⟨Ancestors, Filename, Children, BuildFile, Lines, hPath, _, _, _, hAll, _⟩
  have hTop := TreePath_top _ _ _ hPath
  have hMem : Top ∈ Ancestors ++ [FFileSystemEntry.Directory Filename Children] :=
    List.mem_of_mem_head? (by rw [hTop]; rfl)
  rw [hAll Top hMem] at hTransient
  cases hTransient

/-- Nothing is discoverable in a file. -/
theorem IsDiscoverableModule_file {σ : Type} (E : Engine σ) (Filename : String)
    (Lines : List String) (x : String) :
    ¬ IsDiscoverableModule E (.File Filename Lines) x := by
  rintro ⟨Ancestors, F, C, BuildFile, L, hPath, _⟩
  cases hPath

/-- In a directory with build files, the discoverable modules are those of its
own build files. -/
theorem IsDiscoverableModule_here {σ : Type} (E : Engine σ) (Filename : String)
    (Children : List FFileSystemEntry) (x : String)
    (hTransient : IsTransientDirectory E (.Directory Filename Children) = false)
    (hBuild : Children.any IsBuildFile = true) :
    IsDiscoverableModule E (.Directory Filename Children) x
      ↔ ∃ BuildFile Lines, FFileSystemEntry.File BuildFile Lines ∈ Children
          ∧ EndsWith BuildFile ".Build.cs" = true
          ∧ FStringEquals (ModuleNameOfBuildFile E BuildFile) x = true := by
  constructor
  · rintro ⟨Ancestors, F, C, BuildFile, Lines, hPath, hMem, hEnds, hName, _, hNoBuild⟩
    cases hPath with
    | top => exact ⟨BuildFile, Lines, hMem, hEnds, hName⟩
    | down _ _ Child Rest _ hChild hRest =>
      have := hNoBuild _ (List.mem_cons_self _ _)
      simp only [HasBuildFile] at this
      rw [this] at hBuild
      cases hBuild
  · rintro ⟨BuildFile, Lines, hMem, hEnds, hName⟩
    refine ⟨[], Filename, Children, BuildFile, Lines, TreePath.top _, hMem, hEnds, hName, ?_, ?_⟩
    · intro A hA
      simp only [List.nil_append, List.mem_singleton] at hA
      subst hA
      exact hTransient
    · intro A hA
      cases hA

/-- In a directory without build files, the discoverable modules are those of
its entries. -/
theorem IsDiscoverableModule_below {σ : Type} (E : Engine σ) (Filename : String)
    (Children : List FFileSystemEntry) (x : String)
    (hTransient : IsTransientDirectory E (.Directory Filename Children) = false)
    (hBuild : Children.any IsBuildFile = false) :
    IsDiscoverableModule E (.Directory Filename Children) x
      ↔ ∃ Child ∈ Children, IsDiscoverableModule E Child x := by
  constructor
  · rintro ⟨Ancestors, F, C, BuildFile, Lines, hPath, hMem, hEnds, hName, hAll, hNoBuild⟩
    cases hPath with
    | top =>
      exfalso
      have : Children.any IsBuildFile = true := by
        rw [List.any_eq_true]
        exact ⟨_, hMem, hEnds⟩
      rw [hBuild] at this
      cases this
    | down _ _ Child Rest _ hChild hRest =>
      refine ⟨Child, hChild, Rest, F, C, BuildFile, Lines, hRest, hMem, hEnds, hName, ?_, ?_⟩
      · intro A hA
        exact hAll A (by
          rw [List.cons_append]
          exact List.mem_cons_of_mem _ hA)
      · intro A hA
        exact hNoBuild A (List.mem_cons_of_mem _ hA)
  · rintro ⟨Child, hChild, Ancestors, F, C, BuildFile, Lines, hPath, hMem, hEnds, hName, hAll,
      hNoBuild⟩
    refine ⟨FFileSystemEntry.Directory Filename Children :: Ancestors, F, C, BuildFile, Lines,
      TreePath.down Filename Children Child Ancestors _ hChild hPath, hMem, hEnds, hName, ?_, ?_⟩
    · intro A hA
      rw [List.cons_append, List.mem_cons] at hA
      rcases hA with hA | hA
      · subst hA
        exact hTransient
      · exact hAll A hA
    · intro A hA
      rw [List.mem_cons] at hA
      rcases hA with hA | hA
      · subst hA
        exact hBuild
      · exact hNoBuild A hA

mutual
/-- The iterator of `DiscoverModules` adds to the set exactly the discoverable
modules of the entry it visits. -/
theorem DiscoverModulesIterator_spec {σ : Type} (E : Engine σ) :
    ∀ (Entry : FFileSystemEntry) (Out : TSet) (x : String),
      TSet.Contains (DiscoverModulesIterator E Entry Out) x = true
        ↔ TSet.Contains Out x = true ∨ IsDiscoverableModule E Entry x
  | .File Filename Lines, Out, x => by
    rw [DiscoverModulesIterator]
    constructor
    · exact Or.inl
    · rintro (h | h)
      · exact h
      · exact absurd h (IsDiscoverableModule_file E Filename Lines x)
  | .Directory Filename Children, Out, x => by
    rw [DiscoverModulesIterator]
    dsimp only
    by_cases hTransient : IsTransientDirectory E (.Directory Filename Children) = true
    · have hT := hTransient
      simp only [IsTransientDirectory] at hT
      rw [if_pos hT]
      constructor
      · exact Or.inl
      · rintro (h | h)
        · exact h
        · exact absurd h (IsDiscoverableModule_transient E _ x hTransient)
    · simp only [Bool.not_eq_true] at hTransient
      have hT := hTransient
      simp only [IsTransientDirectory] at hT
      rw [hT]
      simp only [Bool.false_eq_true, if_false]
      obtain ⟨hSet, hCount⟩ := DiscoverModulesInDirectory_spec E Children Out 0 x
      cases hScan : DiscoverModulesInDirectory E Children (Out, 0) with
      | mk Found Count =>
        rw [hScan] at hSet hCount
        simp only at hSet hCount ⊢
        by_cases hZero : Count = 0
        · have hBuild : Children.any IsBuildFile = false := (hCount.1 hZero).2
          simp only [hZero, bne_self_eq_false, Bool.false_eq_true, if_false]
          rw [DiscoverModulesSubDirectories_spec E Children Found x,
            IsDiscoverableModule_below E Filename Children x hTransient hBuild, hSet]
          constructor
          · rintro ((h | ⟨f, l, hf, he, _⟩) | h)
            · exact Or.inl h
            · exfalso
              have : Children.any IsBuildFile = true := by
                rw [List.any_eq_true]
                exact ⟨_, hf, he⟩
              rw [hBuild] at this
              cases this
            · exact Or.inr h
          · rintro (h | h)
            · exact Or.inl (Or.inl h)
            · exact Or.inr h
        · have hBuild : Children.any IsBuildFile = true := by
            cases hB : Children.any IsBuildFile with
            | true => rfl
            | false => exact absurd (hCount.2 ⟨trivial, hB⟩) hZero
          have hNe : (Count != 0) = true := by simpa using hZero
          rw [if_pos hNe, hSet,
            IsDiscoverableModule_here E Filename Children x hTransient hBuild]
/-- The loop over the sub-directories adds to the set exactly the discoverable
modules of the entries. -/
theorem DiscoverModulesSubDirectories_spec {σ : Type} (E : Engine σ) :
    ∀ (Entries : List FFileSystemEntry) (Out : TSet) (x : String),
      TSet.Contains (DiscoverModulesSubDirectories E Entries Out) x = true
        ↔ TSet.Contains Out x = true ∨ ∃ Entry ∈ Entries, IsDiscoverableModule E Entry x
  | [], Out, x => by
    rw [DiscoverModulesSubDirectories]
    simp
  | Entry :: Rest, Out, x => by
    rw [DiscoverModulesSubDirectories, DiscoverModulesSubDirectories_spec E Rest,
      DiscoverModulesIterator_spec E Entry]
    simp only [List.mem_cons, exists_eq_or_imp]
    tauto
end

/-- What `DiscoverModules` returns: the set contains a name exactly when that
name is the module name of a file ending in `.Build.cs` that lies directly in a
directory `D` of the tree such that (i) no directory on the path from the root
to `D` inclusive is taken for `Saved` or `Intermediate` (the base filename of
its path equals one of the two) and (ii) no proper ancestor of `D` on that path
directly contains a file ending in `.Build.cs`; names, suffixes and set members
are compared as `FString` compares. -/
theorem DiscoverModules_iff {σ : Type} (E : Engine σ) (Root : FFileSystemEntry)
    (ModuleName : String) :
    TSet.Contains (DiscoverModules E Root []) ModuleName = true
      ↔ ∃ Ancestors Filename Children BuildFile Lines,
          TreePath Root Ancestors (.Directory Filename Children)
          ∧ FFileSystemEntry.File BuildFile Lines ∈ Children
          ∧ EndsWith BuildFile ".Build.cs" = true
          ∧ FStringEquals
              (MidCount (E.GetBaseFilename BuildFile) 0 (Len (E.GetBaseFilename BuildFile) - 6))
              ModuleName = true
          ∧ (∀ A ∈ Ancestors ++ [FFileSystemEntry.Directory Filename Children],
              IsTransientDirectory E A = false)
          ∧ ∀ A ∈ Ancestors, HasBuildFile A = false := by
  have h := DiscoverModulesIterator_spec E Root [] ModuleName
  have hEmpty : TSet.Contains [] ModuleName = false := rfl
  rw [hEmpty] at h
  simp only [Bool.false_eq_true, false_or] at h
  exact h

/-- The modules of the example source tree: both build files of `Core` count,
the module nested in `Core` and the one in `Intermediate` do not. -/
theorem module_discovery_example :
    DiscoverModules ExampleEngine ExampleSourceTree [] = ["Core", "CoreExtra"]
    ∧ DiscoverModules ExampleEngine ExampleEngineSourceDir [] = ["Engine"] := by
  constructor <;> decide

/-- C13. Failing input of module discovery: `Foo.Build.cs` lies directly in
the directory `Source/Saved.Old`; the directories from the root to it are named
`Source` and `Saved.Old`, neither is named `Saved` or `Intermediate`, and the
root holds no build file, so `Foo` is a module of the tree. `DiscoverModules`
returns no module: for the name of the directory it takes the base filename of
the directory path, which is `Saved`. Without the dot in the name of the
directory it returns `Foo`. -/
theorem module_discovery_failing_input :
    TreePath ExampleSavedOldTree [ExampleSavedOldTree] ExampleSavedOldDirectory
    ∧ FFileSystemEntry.File "Source/Saved.Old/Foo.Build.cs" []
        ∈ [FFileSystemEntry.File "Source/Saved.Old/Foo.Build.cs" []]
    ∧ GetCleanFilename "Source" = "Source"
    ∧ GetCleanFilename "Source/Saved.Old" = "Saved.Old"
    ∧ GetCleanFilename "Source/Saved.Old/Foo.Build.cs" = "Foo.Build.cs"
    ∧ HasBuildFile ExampleSavedOldTree = false
    ∧ GetBaseFilename "Source/Saved.Old" = "Saved"
    ∧ DiscoverModules ExampleEngine ExampleSavedOldTree [] = []
    ∧ DiscoverModules ExampleEngine
        (FFileSystemEntry.Directory "Source"
          [FFileSystemEntry.Directory "Source/SavedOld"
            [FFileSystemEntry.File "Source/SavedOld/Foo.Build.cs" []]]) [] = ["Foo"] :=
  ⟨TreePath.down _ _ _ _ _ (List.Mem.head _) (TreePath.top _), List.Mem.head _,
    by decide, by decide, by decide, by decide, by decide, by decide, by decide⟩

/-! ## Plugin discovery -/

/-- No plugin is discoverable in a file. -/
theorem IsDiscoverablePlugin_file {σ : Type} (E : Engine σ) (Filename : String)
    (Lines : List String) (x : String) :
    ¬ IsDiscoverablePlugin E (.File Filename Lines) x := by
  rintro ⟨Ancestors, F, C, hPath, _⟩
  cases hPath

/-- In a plugin directory the only discoverable plugin is the directory itself. -/
theorem IsDiscoverablePlugin_here {σ : Type} (E : Engine σ) (Filename : String)
    (Children : List FFileSystemEntry) (x : String)
    (hPlugin : IsPluginDirectory E (.Directory Filename Children) = true) :
    IsDiscoverablePlugin E (.Directory Filename Children) x
      ↔ FStringEquals (E.GetBaseFilename Filename) x = true := by
  constructor
  · rintro ⟨Ancestors, F, C, hPath, _, hName, hAll⟩
    cases hPath with
    | top => exact hName
    | down _ _ Child Rest _ hChild hRest =>
      have := (hAll _ (List.mem_cons_self _ _)).1
      rw [hPlugin] at this
      cases this
  · intro hName
    exact ⟨[], Filename, Children, TreePath.top _, hPlugin, hName, fun A hA => by cases hA⟩

/-- No plugin is discoverable in a directory taken for `Saved` that is no
plugin directory. -/
theorem IsDiscoverablePlugin_saved {σ : Type} (E : Engine σ) (Filename : String)
    (Children : List FFileSystemEntry) (x : String)
    (hPlugin : IsPluginDirectory E (.Directory Filename Children) = false)
    (hSaved : IsSavedDirectory E (.Directory Filename Children) = true) :
    ¬ IsDiscoverablePlugin E (.Directory Filename Children) x := by
  rintro ⟨Ancestors, F, C, hPath, hIs, _, hAll⟩
  cases hPath with
  | top =>
    rw [hPlugin] at hIs
    cases hIs
  | down _ _ Child Rest _ hChild hRest =>
    have := (hAll _ (List.mem_cons_self _ _)).2
    rw [hSaved] at this
    cases this

/-- In a directory that is neither a plugin directory nor taken for `Saved`,
the discoverable plugins are those of its entries. -/
theorem IsDiscoverablePlugin_below {σ : Type} (E : Engine σ) (Filename : String)
    (Children : List FFileSystemEntry) (x : String)
    (hPlugin : IsPluginDirectory E (.Directory Filename Children) = false)
    (hSaved : IsSavedDirectory E (.Directory Filename Children) = false) :
    IsDiscoverablePlugin E (.Directory Filename Children) x
      ↔ ∃ Child ∈ Children, IsDiscoverablePlugin E Child x := by
  constructor
  · rintro ⟨Ancestors, F, C, hPath, hIs, hName, hAll⟩
    cases hPath with
    | top =>
      rw [hPlugin] at hIs
      cases hIs
    | down _ _ Child Rest _ hChild hRest =>
      exact ⟨Child, hChild, Rest, F, C, hRest, hIs, hName,
        fun A hA => hAll A (List.mem_cons_of_mem _ hA)⟩
  · rintro ⟨Child, hChild, Ancestors, F, C, hPath, hIs, hName, hAll⟩
    refine ⟨FFileSystemEntry.Directory Filename Children :: Ancestors, F, C,
      TreePath.down Filename Children Child Ancestors _ hChild hPath, hIs, hName, ?_⟩
    intro A hA
    rw [List.mem_cons] at hA
    rcases hA with hA | hA
    · subst hA
      exact ⟨hPlugin, hSaved⟩
    · exact hAll A hA

mutual
/-- The iterator of `DiscoverPlugins` adds to the keys of the map exactly the
discoverable plugins of the entry it visits. -/
theorem DiscoverPluginsIterator_spec {σ : Type} (E : Engine σ) :
    ∀ (Entry : FFileSystemEntry) (Out : TMap TSet) (x : String),
      TMap.Contains (DiscoverPluginsIterator E Entry Out) x = true
        ↔ TMap.Contains Out x = true ∨ IsDiscoverablePlugin E Entry x
  | .File Filename Lines, Out, x => by
    rw [DiscoverPluginsIterator]
    constructor
    · exact Or.inl
    · rintro (h | h)
      · exact h
      · exact absurd h (IsDiscoverablePlugin_file E Filename Lines x)
  | .Directory Filename Children, Out, x => by
    rw [DiscoverPluginsIterator]
    dsimp only
    by_cases hPlugin : IsPluginDirectory E (.Directory Filename Children) = true
    · have hP := hPlugin
      simp only [IsPluginDirectory] at hP
      rw [if_pos hP, TMap.MapContains_Add, Bool.or_eq_true,
        IsDiscoverablePlugin_here E Filename Children x hPlugin]
    · simp only [Bool.not_eq_true] at hPlugin
      have hP := hPlugin
      simp only [IsPluginDirectory] at hP
      rw [hP]
      simp only [Bool.false_eq_true, if_false]
      by_cases hSaved : IsSavedDirectory E (.Directory Filename Children) = true
      · have hS := hSaved
        simp only [IsSavedDirectory] at hS
        simp only [hS, Bool.not_true, Bool.false_eq_true, if_false]
        constructor
        · exact Or.inl
        · rintro (h | h)
          · exact h
          · exact absurd h (IsDiscoverablePlugin_saved E Filename Children x hPlugin hSaved)
      · simp only [Bool.not_eq_true] at hSaved
        have hS := hSaved
        simp only [IsSavedDirectory] at hS
        simp only [hS, Bool.not_false, if_true]
        rw [DiscoverPluginsDirectory_spec E Children Out x,
          IsDiscoverablePlugin_below E Filename Children x hPlugin hSaved]
/-- The visit of a directory adds to the keys of the map exactly the
discoverable plugins of its entries. -/
theorem DiscoverPluginsDirectory_spec {σ : Type} (E : Engine σ) :
    ∀ (Entries : List FFileSystemEntry) (Out : TMap TSet) (x : String),
      TMap.Contains (DiscoverPluginsDirectory E Entries Out) x = true
        ↔ TMap.Contains Out x = true ∨ ∃ Entry ∈ Entries, IsDiscoverablePlugin E Entry x
  | [], Out, x => by
    rw [DiscoverPluginsDirectory]
    simp
  | Entry :: Rest, Out, x => by
    rw [DiscoverPluginsDirectory, DiscoverPluginsDirectory_spec E Rest,
      DiscoverPluginsIterator_spec E Entry]
    simp only [List.mem_cons, exists_eq_or_imp]
    tauto
end

/-- C14 (amended). Plugin discovery and transient directories: a name is
recorded in the base plugin inventory by `DiscoverPlugins` exactly when it is
the base filename of a directory that directly contains its descriptor file
`<base filename>.uplugin` and none of whose proper ancestors below the plugin
root is taken for `Saved` or is itself a plugin directory. So no directory
beneath a directory named `Saved` is recorded, while a directory named `Saved`
is recorded when it contains `Saved.uplugin`. -/
theorem plugin_discovery {σ : Type} (E : Engine σ) (PluginDirectory : List FFileSystemEntry)
    (PluginName : String) :
    TMap.Contains (DiscoverPlugins E PluginDirectory []) PluginName = true
      ↔ ∃ Top ∈ PluginDirectory, ∃ Ancestors Filename Children,
          TreePath Top Ancestors (.Directory Filename Children)
          ∧ FileExists Children
              (PathAppend Filename (E.GetBaseFilename Filename) ++ ".uplugin") = true
          ∧ FStringEquals (E.GetBaseFilename Filename) PluginName = true
          ∧ ∀ A ∈ Ancestors, IsPluginDirectory E A = false ∧ IsSavedDirectory E A = false := by
  have h := DiscoverPluginsDirectory_spec E PluginDirectory [] PluginName
  have hEmpty : TMap.Contains ([] : TMap TSet) PluginName = false := rfl
  rw [hEmpty] at h
  simp only [Bool.false_eq_true, false_or] at h
  exact h

/-- The plugins of the example plugin tree: `A` with its module `Am`, and `B`;
the plugin directories nested in `A` and in `Saved` are not recorded. -/
theorem plugin_discovery_example :
    DiscoverPlugins ExampleEngine ExamplePluginTree [] = [("A", ["Am"]), ("B", [])] := by
  decide

/-- Counterexample to C14 as stated: the directory `Plugins/Saved` is named
`Saved` and contains `Saved.uplugin`; `DiscoverPlugins` records it as the
plugin `Saved`. -/
theorem plugin_discovery_counterexample :
    GetCleanFilename "Plugins/Saved" = "Saved"
    ∧ DiscoverPlugins ExampleEngine ExampleSavedPluginTree [] = [("Saved", [])]
    ∧ TMap.Contains (DiscoverPlugins ExampleEngine ExampleSavedPluginTree []) "Saved" = true :=
  ⟨by decide, by decide, by decide⟩

/-! ## No materialised module is orphaned -/

/-- Every pair of a map after `TMap::Add` was there or is the added pair. -/
theorem mem_TMap_Add {V : Type} (m : TMap V) (k : String) (v : V) (kv : String × V)
    (h : kv ∈ TMap.Add m k v) : kv ∈ m ∨ kv = (k, v) := by
  unfold TMap.Add at h
  split at h
  · simp only [List.mem_map] at h
    obtain ⟨z, hz, hkv⟩ := h
    split at hkv
    · exact Or.inr hkv.symm
    · exact Or.inl (hkv ▸ hz)
  · simpa using h

/-- A value found in a map belongs to a pair of the map whose key equals the
key looked up. -/
theorem TMap.Find_mem {V : Type} (m : TMap V) (k : String) (v : V)
    (h : TMap.Find m k = some v) : ∃ kv ∈ m, FStringEquals kv.1 k = true ∧ kv.2 = v := by
  simp only [TMap.Find, Option.map_eq_some'] at h
  obtain ⟨kv, hFind, hv⟩ := h
  have hP : FStringEquals kv.1 k = true :=
    @List.find?_some (String × V) (fun kv => FStringEquals kv.1 k) kv m hFind
  exact ⟨kv, List.mem_of_find?_eq_some hFind, hP, hv⟩

/-- The owner recorded for a module name is the plugin name of a manifest
entry that lists the module. -/
theorem Owner_pairs {σ : Type} (E : Engine σ) (Params : FCommandletRunParams)
    (All Manifest : List FPluginManifestEntry) (Acc : TMap String × TMap String × TSet)
    (hSub : ∀ Entry ∈ Manifest, Entry ∈ All)
    (hAcc : ∀ kv ∈ Acc.1, ∃ Entry ∈ All, E.GetBaseFilename Entry.File = kv.2
      ∧ ∃ d ∈ Entry.Descriptor.Modules, d.Name = kv.1) :
    ∀ kv ∈ (Manifest.foldl (CollectManifestEntry E Params) Acc).1,
      ∃ Entry ∈ All, E.GetBaseFilename Entry.File = kv.2
        ∧ ∃ d ∈ Entry.Descriptor.Modules, d.Name = kv.1 := by
  induction Manifest generalizing Acc with
  | nil => exact hAcc
  | cons Entry Rest ih =>
    rw [List.foldl_cons]
    apply ih
    · intro e he
      exact hSub e (List.mem_cons_of_mem _ he)
    · have hStep : (CollectManifestEntry E Params Acc Entry).1
          = Entry.Descriptor.Modules.foldl
              (fun M ModuleInfo => TMap.Add M ModuleInfo.Name (E.GetBaseFilename Entry.File))
              Acc.1 := by
        unfold CollectManifestEntry
        simp only
        split
        · rfl
        · split <;> rfl
      rw [hStep]
      have hFold : ∀ (Modules : List FModuleDescriptor) (M : TMap String),
          (∀ d ∈ Modules, d ∈ Entry.Descriptor.Modules) →
          (∀ kv ∈ M, ∃ e ∈ All, E.GetBaseFilename e.File = kv.2
            ∧ ∃ d ∈ e.Descriptor.Modules, d.Name = kv.1) →
          ∀ kv ∈ Modules.foldl
              (fun M ModuleInfo => TMap.Add M ModuleInfo.Name (E.GetBaseFilename Entry.File)) M,
            ∃ e ∈ All, E.GetBaseFilename e.File = kv.2
              ∧ ∃ d ∈ e.Descriptor.Modules, d.Name = kv.1 := by
        intro Modules
        induction Modules with
        | nil => exact fun M _ hM => hM
        | cons d Tail ihM =>
          intro M hIn hM
          rw [List.foldl_cons]
          apply ihM
          · exact fun d2 hd2 => hIn d2 (List.mem_cons_of_mem _ hd2)
          · intro kv hkv
            rcases mem_TMap_Add M d.Name _ kv hkv with h | h
            · exact hM kv h
            · subst h
              exact ⟨Entry, hSub Entry (List.mem_cons_self _ _), rfl, d,
                hIn d (List.mem_cons_self _ _), rfl⟩
      exact hFold Entry.Descriptor.Modules Acc.1 (fun d hd => hd) hAcc

/-- A plugin-owned module has an owner that is no base plugin and has a
destination, beside which the module goes. -/
theorem ClassifyModule_PluginOwned {σ : Type} (E : Engine σ) (Ctx : FRunContext)
    (ModuleName Target : String)
    (h : ClassifyModule E Ctx ModuleName = .PluginOwned Target) :
    ∃ OwnerPluginName ResultPluginFile,
      TMap.Find Ctx.ModuleNameToOwnerPluginName ModuleName = some OwnerPluginName
      ∧ TMap.Contains Ctx.EnginePlugins OwnerPluginName = false
      ∧ TMap.Find Ctx.GameImpliedPluginFileLocations OwnerPluginName = some ResultPluginFile
      ∧ Target = PathAppend (PathAppend (E.GetPath ResultPluginFile) "Source") ModuleName := by
  unfold ClassifyModule at h
  cases hOwner : TMap.Find Ctx.ModuleNameToOwnerPluginName ModuleName with
  | none =>
    rw [hOwner] at h
    simp only at h
    split at h <;> cases h
  | some Owner =>
    rw [hOwner] at h
    simp only at h
    by_cases hBase : TMap.Contains Ctx.EnginePlugins Owner = true
    · simp [hBase] at h
    · simp only [Bool.not_eq_true] at hBase
      cases hDest : TMap.Find Ctx.GameImpliedPluginFileLocations Owner with
      | none => simp [hBase, hDest] at h
      | some File =>
        simp only [hBase, hDest, Bool.false_eq_true, if_false,
          EClassification.PluginOwned.injEq] at h
        exact ⟨Owner, File, rfl, hBase, hDest, h.symm⟩

/-- C15. No materialised module is orphaned: when `MainInternal` returns, for
every dump directory whose module is classified PluginOwned the run has saved
the sanitised descriptor of a manifest entry whose plugin is the owner of the
module, that descriptor still lists the module, and the destination of the
module is `Source/<module>` beside the path the descriptor was saved at; and
for every dump directory whose module is classified Loose the saved project
descriptor lists the module. (Uniqueness of the plugin names is not needed.) -/
theorem no_orphaned_module {σ : Type} (E : Engine σ) (FS : FFileSystem)
    (Params : FCommandletRunParams) (Registry : σ)
    (hRun : (MainInternal E FS Params Registry).2 = .ok 0)
    (Filename : String) (Children : List FFileSystemEntry)
    (hEntry : FFileSystemEntry.Directory Filename Children ∈ FS.HeaderRoot) :
    (∀ Target,
      ClassifyModule E (MakeRunContext E FS Params) (E.GetCleanFilename Filename)
        = .PluginOwned Target →
      ∃ Entry ∈ Params.PluginManifest,
        ∃ Saved ∈ (MainInternal E FS Params Registry).1.SavedPluginDescriptors,
          TMap.Find (MakeRunContext E FS Params).ModuleNameToOwnerPluginName
              (E.GetCleanFilename Filename) = some (E.GetBaseFilename Entry.File)
          ∧ Saved.2 = NewPluginDescriptor (MakeRunContext E FS Params)
              (MainInternal E FS Params Registry).1.AllGameModulesProcessed Entry.Descriptor
          ∧ (∃ d ∈ Saved.2.Modules, FStringEquals d.Name (E.GetCleanFilename Filename) = true)
          ∧ Target = PathAppend (PathAppend (E.GetPath Saved.1) "Source")
              (E.GetCleanFilename Filename))
    ∧ (∀ Target,
      ClassifyModule E (MakeRunContext E FS Params) (E.GetCleanFilename Filename)
        = .Loose Target →
      ∃ Saved, (MainInternal E FS Params Registry).1.SavedProjectDescriptor = some Saved
        ∧ ∃ d ∈ Saved.2.Modules, FStringEquals d.Name (E.GetCleanFilename Filename) = true) := by
  obtain ⟨st2, h2, hF⟩ := MainInternal_Bookkeeping E FS Params Registry 0 hRun
  simp only [Bookkeeping, Prod.mk.injEq] at h2 hF
  obtain ⟨a1, a2, a3, a4, a5, a6⟩ := h2
  obtain ⟨b1, b2, b3, b4, b5, b6⟩ := hF
  have hName : E.GetCleanFilename Filename ∈ DumpModuleNames E FS.HeaderRoot := by
    simp only [DumpModuleNames, List.mem_filterMap]
    exact ⟨_, hEntry, rfl⟩
  have hProcessed : IsMaterialized E (MakeRunContext E FS Params) (E.GetCleanFilename Filename)
      = true → ∀ x, FStringEquals x (E.GetCleanFilename Filename) = true →
        TSet.Contains st2.AllGameModulesProcessed x = true := by
    intro hM x hx
    rw [TSet.Contains_congr _ hx, a1, Contains_AddAll]
    simp only [Bool.or_eq_true, List.any_eq_true, List.mem_filter]
    exact Or.inr ⟨_, ⟨hName, hM⟩, FStringEquals_refl _⟩
  constructor
  · intro Target hClass
    obtain ⟨Owner, File, hOwner, hBase, hDest, hTarget⟩ :=
      ClassifyModule_PluginOwned E _ _ Target hClass
    obtain ⟨kv, hkv, hKey, hValue⟩ := TMap.Find_mem _ _ _ hOwner
    obtain ⟨Entry, hMem, hPlugin, d, hd, hdName⟩ :=
      Owner_pairs E Params Params.PluginManifest Params.PluginManifest ([], [], [])
        (fun e he => he) (fun kv hkv => by cases hkv) kv hkv
    have hPluginName : E.GetBaseFilename Entry.File = Owner := hPlugin.trans hValue
    have hMaterialized : IsMaterialized E (MakeRunContext E FS Params)
        (E.GetCleanFilename Filename) = true := by
      simp [IsMaterialized, hClass]
    have hSaved : SavedPluginDescriptor E (MakeRunContext E FS Params)
        st2.AllGameModulesProcessed Entry
        = some (File, NewPluginDescriptor (MakeRunContext E FS Params)
            st2.AllGameModulesProcessed Entry.Descriptor) := by
      have hContains : TMap.Contains (MakeRunContext E FS Params).GameImpliedPluginFileLocations
          Owner = true := by
        rw [← TMap.Find_isSome, hDest]
        rfl
      simp [SavedPluginDescriptor, IsCarriedOver, hPluginName, hBase, hContains, hDest]
    refine ⟨Entry, hMem, (File, NewPluginDescriptor (MakeRunContext E FS Params)
      st2.AllGameModulesProcessed Entry.Descriptor), ?_, ?_, ?_, ?_, hTarget⟩
    · rw [b5, a5, ← a1]
      exact List.mem_filterMap.2 ⟨Entry, hMem, hSaved⟩
    · rw [hOwner, hPluginName]
    · rw [b1]
    · refine ⟨d, ?_, hdName ▸ hKey⟩
      simp only [NewPluginDescriptor, List.mem_filter, RemoveModulePredicate, Bool.not_and,
        Bool.not_not, Bool.or_eq_true]
      exact ⟨hd, Or.inr (hProcessed hMaterialized d.Name (hdName ▸ hKey))⟩
  · intro Target hClass
    have hLoose : IsLoose E (MakeRunContext E FS Params) (E.GetCleanFilename Filename) = true := by
      simp [IsLoose, hClass]
    have hMaterialized : IsMaterialized E (MakeRunContext E FS Params)
        (E.GetCleanFilename Filename) = true := by
      simp [IsMaterialized, hClass]
    refine ⟨_, b6, ?_⟩
    by_cases hDeclared : TSet.Contains (MakeRunContext E FS Params).ProjectModuleNames
        (E.GetCleanFilename Filename) = true
    · obtain ⟨d, hd, hEq⟩ := (ProjectModuleNames_iff E FS Params _
        (IsLoose_unowned E _ _ hLoose)).1 hDeclared
      refine ⟨d, ?_, hEq⟩
      simp only [SanitizeProjectDescriptor, List.mem_append, List.mem_filter,
        RemoveModulePredicate, Bool.not_and, Bool.not_not, Bool.or_eq_true]
      exact Or.inl ⟨hd, Or.inr (hProcessed hMaterialized d.Name hEq)⟩
    · have hForced : TSet.Contains st2.EngineModulesForcedToBeGameModules
          (E.GetCleanFilename Filename) = true := by
        rw [a3, Contains_AddAll]
        simp only [Bool.or_eq_true, List.any_eq_true, List.mem_filter]
        refine Or.inr ⟨_, ⟨hName, ?_⟩, FStringEquals_refl _⟩
        simp only [Bool.not_eq_true] at hDeclared
        simp [IsForced, hLoose, hDeclared]
      simp only [TSet.Contains, List.any_eq_true] at hForced
      obtain ⟨y, hy, hyEq⟩ := hForced
      refine ⟨ForcedModuleDescriptor y, ?_, hyEq⟩
      simp only [SanitizeProjectDescriptor, List.mem_append, List.mem_map]
      exact Or.inr ⟨y, hy, rfl⟩

/-- Witness of C15 on the example run: the module `Qm` of the plugin `Q` goes
beside the descriptor saved for `Q`, which still lists it, and the loose module
`Foo` is listed by the saved project descriptor. -/
theorem no_orphaned_module_witness :
    (∃ Entry ∈ ExampleManifest,
      ∃ Saved ∈ (MainInternal ExampleEngine (ExampleFileSystem ExampleDump)
          (ExampleParams ExampleManifest ExampleProject) []).1.SavedPluginDescriptors,
        TMap.Find ExampleContext.ModuleNameToOwnerPluginName
            (ExampleEngine.GetCleanFilename "Dump/Qm")
          = some (ExampleEngine.GetBaseFilename Entry.File)
        ∧ Saved.2 = NewPluginDescriptor ExampleContext
            (MainInternal ExampleEngine (ExampleFileSystem ExampleDump)
              (ExampleParams ExampleManifest ExampleProject) []).1.AllGameModulesProcessed
            Entry.Descriptor
        ∧ (∃ d ∈ Saved.2.Modules,
            FStringEquals d.Name (ExampleEngine.GetCleanFilename "Dump/Qm") = true)
        ∧ "Out/Plugins/Q/Source/Qm"
          = PathAppend (PathAppend (ExampleEngine.GetPath Saved.1) "Source")
              (ExampleEngine.GetCleanFilename "Dump/Qm"))
    ∧ ∃ Saved, (MainInternal ExampleEngine (ExampleFileSystem ExampleDump)
          (ExampleParams ExampleManifest ExampleProject) []).1.SavedProjectDescriptor
        = some Saved
      ∧ ∃ d ∈ Saved.2.Modules,
          FStringEquals d.Name (ExampleEngine.GetCleanFilename "Dump/Foo") = true :=
  ⟨(no_orphaned_module ExampleEngine (ExampleFileSystem ExampleDump)
      (ExampleParams ExampleManifest ExampleProject) [] (by rfl) "Dump/Qm" []
      (List.Mem.tail _ (List.Mem.head _))).1 "Out/Plugins/Q/Source/Qm" (by decide),
    (no_orphaned_module ExampleEngine (ExampleFileSystem ExampleDump)
      (ExampleParams ExampleManifest ExampleProject) [] (by rfl) "Dump/Foo" []
      (List.Mem.tail _ (List.Mem.tail _ (List.Mem.tail _ (List.Mem.tail _ (List.Mem.tail _
        (List.Mem.head _))))))).2 "Out/Source/Foo" (by decide)⟩

/-! ## When the run completes -/

/-- A loop whose body passes the lines of its entry through the resolver, and
stops only where the resolver stops, passes the lines of all entries through
the resolver. -/
theorem IterateDirectory_resolver {σ α : Type} (E : Engine σ) (EngineModules : TSet)
    (Visitor : FRunState σ → α → FRunState σ × Except String Unit) (Lines : α → List String)
    (hVisitor : ∀ st Entry,
      (Visitor st Entry).1.Resolver
          = (HandleModuleHeaderFile E EngineModules st.Resolver (Lines Entry)).1
      ∧ (Visitor st Entry).2.isOk
          = (HandleModuleHeaderFile E EngineModules st.Resolver (Lines Entry)).2.isOk)
    (st : FRunState σ) (Entries : List α) :
    (IterateDirectory Visitor st Entries).1.Resolver
        = (HandleModuleHeaderFile E EngineModules st.Resolver (Entries.flatMap Lines)).1
    ∧ (IterateDirectory Visitor st Entries).2.isOk
        = (HandleModuleHeaderFile E EngineModules st.Resolver (Entries.flatMap Lines)).2.isOk := by
  induction Entries generalizing st with
  | nil => exact ⟨rfl, rfl⟩
  | cons Entry Rest ih =>
    obtain ⟨h1, h2⟩ := hVisitor st Entry
    rw [List.flatMap_cons, HandleModuleHeaderFile_append]
    unfold IterateDirectory
    cases hV : Visitor st Entry with
    | mk st1 r =>
      rw [hV] at h1 h2
      cases hH : HandleModuleHeaderFile E EngineModules st.Resolver (Lines Entry) with
      | mk rs rr =>
        rw [hH] at h1 h2
        simp only at h1 h2
        cases r with
        | error e =>
          cases rr with
          | error e2 => exact ⟨h1, rfl⟩
          | ok NewLines => simp [Except.isOk, Except.toBool] at h2
        | ok u =>
          cases rr with
          | error e2 => simp [Except.isOk, Except.toBool] at h2
          | ok NewLines =>
            simp only
            obtain ⟨i1, i2⟩ := ih st1
            rw [h1] at i1 i2
            cases hR : HandleModuleHeaderFile E EngineModules rs (Rest.flatMap Lines) with
            | mk rs2 rr2 =>
              rw [hR] at i1 i2
              cases rr2 <;> exact ⟨i1, i2⟩

/-- Moving a file passes its lines through the resolver when its destination
is a header or a source file, and cannot stop otherwise. -/
theorem MoveModuleFilesRecursive_resolver {σ : Type} (E : Engine σ) (EngineModules : TSet)
    (SourceDirectory ResultDirectory : String) (st : FRunState σ) (Entry : FFileSystemEntry) :
    (MoveModuleFilesRecursive E EngineModules SourceDirectory ResultDirectory st Entry).1.Resolver
        = (HandleModuleHeaderFile E EngineModules st.Resolver
            (ResolvedLines E SourceDirectory ResultDirectory Entry)).1
    ∧ (MoveModuleFilesRecursive E EngineModules SourceDirectory ResultDirectory st Entry).2.isOk
        = (HandleModuleHeaderFile E EngineModules st.Resolver
            (ResolvedLines E SourceDirectory ResultDirectory Entry)).2.isOk := by
  cases Entry with
  | Directory Filename Children => exact ⟨rfl, rfl⟩
  | File Filename Lines =>
    unfold MoveModuleFilesRecursive ResolvedLines
    simp only
    split
    · cases HandleModuleHeaderFile E EngineModules st.Resolver Lines with
      | mk rs rr => cases rr <;> exact ⟨rfl, rfl⟩
    · exact ⟨rfl, rfl⟩

/-- Copying a module directory passes the lines of its headers and source
files through the resolver, in visiting order. -/
theorem CopyModuleFiles_resolver {σ : Type} (E : Engine σ) (EngineModules : TSet)
    (Filename Target : String) (Children : List FFileSystemEntry) (st : FRunState σ) :
    (CopyModuleFiles E EngineModules Filename Target Children st).1.Resolver
        = (HandleModuleHeaderFile E EngineModules st.Resolver
            ((IterateDirectoryRecursively Children).flatMap (ResolvedLines E Filename Target))).1
    ∧ (CopyModuleFiles E EngineModules Filename Target Children st).2.isOk
        = (HandleModuleHeaderFile E EngineModules st.Resolver
            ((IterateDirectoryRecursively Children).flatMap
              (ResolvedLines E Filename Target))).2.isOk :=
  IterateDirectory_resolver E EngineModules _ _
    (MoveModuleFilesRecursive_resolver E EngineModules Filename Target) st _

/-- Remembering a forced module leaves the resolver alone. -/
theorem MarkForced_Resolver {σ : Type} (Ctx : FRunContext) (st : FRunState σ)
    (ModuleName : String) : (MarkForced Ctx st ModuleName).Resolver = st.Resolver := by
  unfold MarkForced
  split <;> rfl

/-- Visiting a top-level entry of the dump passes the lines of the headers and
source files of a materialised module through the resolver and stops only
where the resolver stops. -/
theorem ModuleDirIterator_resolver {σ : Type} (E : Engine σ) (Ctx : FRunContext)
    (st : FRunState σ) (Entry : FFileSystemEntry) :
    (ModuleDirIterator E Ctx st Entry).1.Resolver
        = (HandleModuleHeaderFile E Ctx.EngineModules st.Resolver
            (ModuleResolvedLines E Ctx Entry)).1
    ∧ (ModuleDirIterator E Ctx st Entry).2.isOk
        = (HandleModuleHeaderFile E Ctx.EngineModules st.Resolver
            (ModuleResolvedLines E Ctx Entry)).2.isOk := by
  cases Entry with
  | File Filename Lines => exact ⟨rfl, rfl⟩
  | Directory Filename Children =>
    rw [ModuleDirIterator_eq]
    simp only [ModuleResolvedLines]
    cases hC : ClassifyModule E Ctx (E.GetCleanFilename Filename) with
    | Skip => exact ⟨rfl, rfl⟩
    | PluginOwned Target =>
      simp only [MaterializeModule]
      have h := CopyModuleFiles_resolver E Ctx.EngineModules Filename Target Children st
      cases hCopy : CopyModuleFiles E Ctx.EngineModules Filename Target Children st with
      | mk st1 r =>
        rw [hCopy] at h
        cases r <;> exact h
    | Loose Target =>
      simp only [MaterializeModule]
      have h := CopyModuleFiles_resolver E Ctx.EngineModules Filename Target Children
        (MarkForced Ctx st (E.GetCleanFilename Filename))
      rw [MarkForced_Resolver] at h
      cases hCopy : CopyModuleFiles E Ctx.EngineModules Filename Target Children
          (MarkForced Ctx st (E.GetCleanFilename Filename)) with
      | mk st1 r =>
        rw [hCopy] at h
        cases r <;> exact h

/-- The descriptor of a manifest entry is carried over without a failed `check`
exactly when saving succeeds at its destination. -/
theorem SanitizePluginDescriptor_isOk {σ : Type} (E : Engine σ) (Ctx : FRunContext)
    (st : FRunState σ) (ManifestEntry : FPluginManifestEntry) :
    (SanitizePluginDescriptor E Ctx st ManifestEntry).2.isOk
      = (PluginSavePaths E Ctx [ManifestEntry]).all E.SaveDescriptor := by
  unfold SanitizePluginDescriptor PluginSavePaths IsCarriedOver
  simp only [List.filterMap_cons, List.filterMap_nil]
  by_cases hSkip : (TMap.Contains Ctx.EnginePlugins (E.GetBaseFilename ManifestEntry.File)
      || !TMap.Contains Ctx.GameImpliedPluginFileLocations
        (E.GetBaseFilename ManifestEntry.File)) = true
  · simp only [hSkip, if_true, Bool.not_true, Bool.false_eq_true, if_false]
    rfl
  · simp only [hSkip, if_false]
    simp only [Bool.not_eq_true] at hSkip
    simp only [hSkip, Bool.not_false, if_true]
    cases hFind : TMap.Find Ctx.GameImpliedPluginFileLocations
        (E.GetBaseFilename ManifestEntry.File) with
    | none =>
      rw [TMap.Find_eq_none] at hFind
      simp [hFind] at hSkip
    | some Location =>
      simp only [List.all_cons, List.all_nil, Bool.and_true]
      cases hSave : E.SaveDescriptor Location <;> simp [Except.isOk, Except.toBool]

/-- The plugin descriptor loop completes exactly when saving succeeds at the
destination of every carried-over manifest entry. -/
theorem IterateManifest_isOk {σ : Type} (E : Engine σ) (Ctx : FRunContext)
    (st : FRunState σ) (Manifest : List FPluginManifestEntry) :
    (IterateDirectory (SanitizePluginDescriptor E Ctx) st Manifest).2.isOk
      = (PluginSavePaths E Ctx Manifest).all E.SaveDescriptor := by
  induction Manifest generalizing st with
  | nil => rfl
  | cons Entry Rest ih =>
    have h1 := SanitizePluginDescriptor_isOk E Ctx st Entry
    have hCons : PluginSavePaths E Ctx (Entry :: Rest)
        = PluginSavePaths E Ctx [Entry] ++ PluginSavePaths E Ctx Rest := by
      unfold PluginSavePaths
      rw [← List.filterMap_append]
      rfl
    rw [hCons, List.all_append, ← h1]
    unfold IterateDirectory
    cases hV : SanitizePluginDescriptor E Ctx st Entry with
    | mk st1 r =>
      cases r with
      | error e => rfl
      | ok u =>
        simp only
        rw [ih st1]
        simp [Except.isOk, Except.toBool]

/-- `MainInternal` returns exactly when every symbol the registry finds while
the lines of the run are resolved has an include path and saving succeeds at
every path at which the run saves a descriptor. -/
theorem MainInternal_isOk {σ : Type} (E : Engine σ) (FS : FFileSystem)
    (Params : FCommandletRunParams) (Registry : σ) :
    (MainInternal E FS Params Registry).2.isOk
      = ((FoundObjects E (MakeRunContext E FS Params).EngineModules
            (InitialRunState Registry).Resolver
            (DumpResolvedLines E (MakeRunContext E FS Params) FS.HeaderRoot)).all HasIncludePath
          && (DescriptorSavePaths E FS Params).all E.SaveDescriptor) := by
  have hDump := (IterateDirectory_resolver E (MakeRunContext E FS Params).EngineModules _ _
    (ModuleDirIterator_resolver E (MakeRunContext E FS Params)) (InitialRunState Registry)
    FS.HeaderRoot).2
  rw [HandleModuleHeaderFile_isOk] at hDump
  unfold DescriptorSavePaths DumpResolvedLines
  rw [← hDump, List.all_append]
  unfold MainInternal
  simp only
  cases hI : IterateDirectory (ModuleDirIterator E (MakeRunContext E FS Params))
      (InitialRunState Registry) FS.HeaderRoot with
  | mk st1 r1 =>
    cases r1 with
    | error e => rfl
    | ok u1 =>
      simp only
      have hPlugins := IterateManifest_isOk E (MakeRunContext E FS Params) st1
        Params.PluginManifest
      rw [← hPlugins]
      cases hS : IterateDirectory (SanitizePluginDescriptor E (MakeRunContext E FS Params)) st1
          Params.PluginManifest with
      | mk st2 r2 =>
        cases r2 with
        | error e => rfl
        | ok u2 =>
          simp only [List.all_cons, List.all_nil, Bool.and_true]
          cases hSave : E.SaveDescriptor
            (PathAppend Params.OutputDirectory Params.ProjectName ++ ".uproject") <;>
            simp [Except.isOk, Except.toBool]

/-- The only value `MainInternal` returns is 0. -/
theorem MainInternal_code {σ : Type} (E : Engine σ) (FS : FFileSystem)
    (Params : FCommandletRunParams) (Registry : σ) (Code : Int)
    (h : (MainInternal E FS Params Registry).2 = .ok Code) : Code = 0 := by
  unfold MainInternal at h
  simp only at h
  split at h
  · cases h
  · split at h
    · cases h
    · split at h
      · simp only [Except.ok.injEq] at h
        exact h.symm
      · cases h

/-- C8 (amended). Completion: `MainInternal` runs to its end and returns 0
exactly when every symbol the registry finds while the run resolves the lines
of the headers and source files of the materialised modules has an include path
and saving succeeds at every path at which the run saves a descriptor;
otherwise it stops at a failed assertion. Likewise the resolver returns the
lines of a file exactly when every symbol the registry finds while these lines
are resolved has an include path, and each line it returns is the line it was
given (verbatim passthrough) or an include directive. -/
theorem run_completes {σ : Type} (E : Engine σ) (FS : FFileSystem)
    (Params : FCommandletRunParams) (Registry : σ) :
    ((MainInternal E FS Params Registry).2 = .ok 0
      ↔ (∀ Object ∈ FoundObjects E (MakeRunContext E FS Params).EngineModules
            (InitialRunState Registry).Resolver
            (DumpResolvedLines E (MakeRunContext E FS Params) FS.HeaderRoot),
          HasIncludePath Object = true)
        ∧ ∀ Path ∈ DescriptorSavePaths E FS Params, E.SaveDescriptor Path = true)
    ∧ ((MainInternal E FS Params Registry).2 = .ok 0
        ∨ ∃ e, (MainInternal E FS Params Registry).2 = .error e)
    ∧ ∀ (EngineModules : TSet) (st : FResolverState σ) (HeaderLines : List String),
        ((∃ NewLines, (HandleModuleHeaderFile E EngineModules st HeaderLines).2 = .ok NewLines)
          ↔ ∀ Object ∈ FoundObjects E EngineModules st HeaderLines,
              HasIncludePath Object = true)
        ∧ ∀ NewLines, (HandleModuleHeaderFile E EngineModules st HeaderLines).2 = .ok NewLines →
            List.Forall₂ (fun HeaderString NewString =>
                NewString = HeaderString ∨ ∃ p, NewString = "#include \"" ++ p ++ "\"")
              HeaderLines NewLines := by
  have hCode : ∀ Code, (MainInternal E FS Params Registry).2 = .ok Code →
      (MainInternal E FS Params Registry).2 = .ok 0 := by
    intro Code h
    rw [h, MainInternal_code E FS Params Registry Code h]
  refine ⟨?_, ?_, ?_⟩
  · have h := MainInternal_isOk E FS Params Registry
    constructor
    · intro hRun
      have hOk : (MainInternal E FS Params Registry).2.isOk = true :=
        (Except_isOk_iff _).2 ⟨0, hRun⟩
      rw [h, Bool.and_eq_true, List.all_eq_true, List.all_eq_true] at hOk
      exact hOk
    · intro hAll
      have hOk : (MainInternal E FS Params Registry).2.isOk = true := by
        rw [h, Bool.and_eq_true, List.all_eq_true, List.all_eq_true]
        exact hAll
      obtain ⟨Code, hCodeEq⟩ := (Except_isOk_iff _).1 hOk
      exact hCode Code hCodeEq
  · cases hR : (MainInternal E FS Params Registry).2 with
    | error e => exact Or.inr ⟨e, rfl⟩
    | ok Code =>
      left
      rw [← hR]
      exact hCode Code hR
  · intro EngineModules st HeaderLines
    refine ⟨HandleModuleHeaderFile_returns_iff E EngineModules st HeaderLines, ?_⟩
    intro NewLines h
    exact (HandleModuleHeaderFile_lines E EngineModules st HeaderLines NewLines h).imp
      (fun _ _ hLine => hLine.2)

/-- Witness of C8: a dump whose only directive names the class `Actor` of the
loadable module `Engine`, in a registry that also holds a class without
module-relative path, which the run never looks up. -/
theorem run_completes_witness :
    (MainInternal ExampleEngine
        (ExampleDumpWithDirective "//CROSS-MODULE INCLUDE V2: ModuleName=Engine ObjectName=Actor")
        (ExampleParams [] ExampleProjectFile) []).2 = .ok 0 :=
  (run_completes ExampleEngine
    (ExampleDumpWithDirective "//CROSS-MODULE INCLUDE V2: ModuleName=Engine ObjectName=Actor")
    (ExampleParams [] ExampleProjectFile) []).1.2 ⟨by decide, by decide⟩

/-- Counterexample to C8 as stated: the dump holds a directive naming the
class `NoPath` of `Engine`, which is found and has no module-relative path
metadata; the run stops at the `checkf` of `GetIncludePathForObject`. -/
theorem run_completes_counterexample :
    (MainInternal ExampleEngine
        (ExampleDumpWithDirective "//CROSS-MODULE INCLUDE V2: ModuleName=Engine ObjectName=NoPath")
        (ExampleParams [] ExampleProjectFile) []).2
      = .error "ModuleRelativePath metadata not found on object" := by
  rfl

end ProjectGenerator
